import Mathlib

/-!
Verification of the Timeline Annotation Fusion Engine
(`src/python-be/plan_generation/enrich_plan.py`) against its specification.

The Python module is shallowly embedded below: Python `float` values are
modelled as exact rationals (`ℚ`), Python `round(x, 2)` as round-half-even to
hundredths (`pyRound2`, Python's documented rounding mode), Python dicts as
structures with `Option` fields (`none` = key absent or value `None`), Python
lists as `List`, and Python's stable `list.sort` as a stable insertion sort
(`stableSortBy`; any two stable sorts with the same key agree).  The module's
optional NLTK part-of-speech path is modelled as unavailable (`nltk = None` at
import), so `_filter_with_pos` returns the empty list and the deny-list
fallback is taken, exactly as the source prescribes for that configuration;
for the same reason `STOP_WORDS = DEFAULT_STOP_WORDS`.  Human-readable
diagnostic strings are reproduced by concatenation; timing warnings are kept
as structured values carrying the same payload as the formatted messages.
All functions are pure: the Python code mutates the plan in place, which the
embedding renders as explicit state passing.
-/

-- Core marks rational arithmetic `@[irreducible]`; restore definitional
-- transparency in this file so that concrete runs of the embedded engine
-- evaluate inside the kernel (`decide`).
attribute [local semireducible] Rat.add Rat.sub Rat.mul Rat.inv Rat.ofScientific

namespace EP

/-! ### Python `round(x, 2)` on exact rationals (round-half-even) -/

/-- `⌊x⌋` computed by flooring integer division (kernel-computable). -/
def floorQ (x : ℚ) : ℤ := Int.fdiv x.num x.den

/-- Round a rational to the nearest integer, ties to even
(the rounding mode of Python 3's built-in `round`). -/
def halfEvenRound (x : ℚ) : ℤ :=
  let f : ℤ := floorQ x
  let r : ℚ := x - f
  if r < 1/2 then f
  else if 1/2 < r then f + 1
  else if Even f then f else f + 1

/-- Python `round(x, 2)`: round to the nearest multiple of 1/100, ties to even. -/
def pyRound2 (x : ℚ) : ℚ := (halfEvenRound (100 * x) : ℚ) / 100

/-! ### Stable sorting (model of Python's stable `list.sort`) -/

/-- Insert `x` after every already-placed element `y` with `le y x`:
the insertion step of a stable insertion sort. -/
def stableInsert {α : Type} (le : α → α → Bool) (x : α) : List α → List α
  | [] => [x]
  | y :: ys => if le y x then y :: stableInsert le x ys else x :: y :: ys

/-- Stable insertion sort; agrees with Python's stable `list.sort(key=...)`. -/
def stableSortBy {α : Type} (le : α → α → Bool) (l : List α) : List α :=
  l.foldl (fun acc x => stableInsert le x acc) []

/-! ### Character and string helpers (ASCII, as used by the module's regexes) -/

/-- The apostrophe character (kept by the module's token regexes). -/
def apoC : Char := '\''

/-- Characters of the regex class `[A-Za-z0-9]`. -/
def isAlnumCh (c : Char) : Bool := c.isAlphanum

/-- Characters of the regex class `[A-Za-z0-9']`. -/
def isAlnumApos (c : Char) : Bool := c.isAlphanum || c = apoC

/-- Characters of the regex class `[a-z0-9]`. -/
def isLowerAlnum (c : Char) : Bool := (c.isLower || c.isDigit)

/-- Python whitespace test (`\s`, `str.split()`, `str.strip()`). -/
def isWsCh (c : Char) : Bool := c.isWhitespace

/-- Lower-case a string character-wise (`str.lower`, ASCII). -/
def lowerStr (s : String) : String := String.mk (s.toList.map Char.toLower)

/-- Upper-case a string character-wise (`str.upper`, ASCII). -/
def upperStr (s : String) : String := String.mk (s.toList.map Char.toUpper)

/-- Does `hay` start with `sub`? (building block of substring search). -/
def leadsWith : List Char → List Char → Bool
  | _, [] => true
  | [], _ :: _ => false
  | h :: hs, n :: ns => h = n && leadsWith hs ns

/-- Substring search over char lists (Python `sub in hay`). -/
def subSearch (hay sub : List Char) : Bool :=
  match hay with
  | [] => sub.isEmpty
  | _ :: t => leadsWith hay sub || subSearch t sub

/-- Python `sub in hay` on strings. -/
def strContainsSub (hay sub : String) : Bool := subSearch hay.toList sub.toList

/-- Drop leading whitespace from a char list. -/
def dropWsLeft (l : List Char) : List Char := l.dropWhile isWsCh

/-- Python `str.strip()` on a char list. -/
def trimChars (l : List Char) : List Char :=
  ((dropWsLeft l).reverse.dropWhile isWsCh).reverse

/-- Python `str.strip()` on strings. -/
def trimStr (s : String) : String := String.mk (trimChars s.toList)

/-- Python `str.rstrip()` on a char list. -/
def rstripChars (l : List Char) : List Char :=
  (l.reverse.dropWhile isWsCh).reverse

/-- Accumulator step for whitespace splitting: `acc` is the current word,
reversed.  Models Python `str.split()` (split on whitespace runs, no
empty fields). -/
def splitWsAux : List Char → List Char → List (List Char)
  | [], acc => if acc.isEmpty then [] else [acc.reverse]
  | c :: cs, acc =>
    if isWsCh c then
      if acc.isEmpty then splitWsAux cs [] else acc.reverse :: splitWsAux cs []
    else splitWsAux cs (c :: acc)

/-- Python `str.split()` on a char list. -/
def splitWs (l : List Char) : List (List Char) := splitWsAux l []

/-- Python `str.split()` on strings. -/
def splitWsStr (s : String) : List String := (splitWs s.toList).map String.mk

/-- Accumulator step for maximal-run tokenization: `acc` is the current run,
reversed.  Models `re.findall(r"[P]+", s)` for a char class `P`. -/
def runsByAux (p : Char → Bool) : List Char → List Char → List (List Char)
  | [], acc => if acc.isEmpty then [] else [acc.reverse]
  | c :: cs, acc =>
    if p c then runsByAux p cs (c :: acc)
    else if acc.isEmpty then runsByAux p cs [] else acc.reverse :: runsByAux p cs []

/-- `re.findall(r"[P]+", s)` for a char class `P`. -/
def runsBy (p : Char → Bool) (l : List Char) : List (List Char) :=
  runsByAux p l []

/-- `re.findall(r"[A-Za-z0-9']+", s)` (the keyword tokenizer). -/
def alnumAposTokens (s : String) : List String :=
  (runsBy isAlnumApos s.toList).map String.mk

/-- `re.findall(r"[A-Za-z0-9]+", s)` (the meaningfulness tokenizer). -/
def alnumTokens (s : String) : List String :=
  (runsBy isAlnumCh s.toList).map String.mk

/-- Join with single spaces (`" ".join(...)`). -/
def joinSp (parts : List String) : String := String.intercalate " " parts

/-- Zero-pad the decimal representation of a natural number to `w` digits. -/
def padNat (w : Nat) (n : Nat) : String :=
  let s := Nat.repr n
  if s.length ≥ w then s else String.mk (List.replicate (w - s.length) '0') ++ s

/-- Python `f"{i:0wd}"` for integers (sign counts toward the width). -/
def padInt (w : Nat) (i : ℤ) : String :=
  if i < 0 then "-" ++ padNat (w - 1) i.natAbs else padNat w i.toNat

/-- Python `str(x)` for an optional string (`None` prints as `"None"`),
as interpolated by the module's f-strings. -/
def fmtOptStr (o : Option String) : String := o.getD "None"

/-! ### Word-list constants (transcribed verbatim from the module) -/

/-- `_ALLOWED_CONNECTORS`. -/
def ALLOWED_CONNECTORS : List String :=
  ["OF", "FOR", "AND", "&", "IN", "ON", "VS", "VERSUS", "TO", "WITH"]

/-- `_COMMON_VERB_TOKENS` (already lower-case in the source, so it coincides
with `_COMMON_VERB_TOKENS_LOWER`). -/
def COMMON_VERB_TOKENS : List String :=
  ["be", "am", "is", "are", "was", "were", "being", "been",
   "do", "does", "did", "doing", "have", "has", "had", "having",
   "make", "makes", "making", "made", "watch", "watches", "watching",
   "interact", "interacts", "interacting", "discuss", "discusses", "discussing",
   "explain", "explains", "explaining", "stand", "stands", "standing",
   "tell", "tells", "telling", "catch", "catches", "catching",
   "let", "lets", "letting", "take", "takes", "taking",
   "know", "knows", "knowing", "think", "thinks", "thinking",
   "feel", "feels", "feeling", "see", "sees", "seeing",
   "talk", "talks", "talking", "say", "says", "saying",
   "look", "looks", "looking", "get", "gets", "getting",
   "give", "gives", "giving", "keep", "keeps", "keeping",
   "want", "wants", "wanting", "need", "needs", "needing",
   "allow", "allows", "allowing", "may", "might", "should", "could",
   "would", "will", "can", "now", "today", "tonight", "already",
   "maybe", "just"]

/-- `DEFAULT_STOP_WORDS`.  With NLTK absent this is exactly `STOP_WORDS`. -/
def DEFAULT_STOP_WORDS : List String :=
  ["a", "about", "after", "again", "against", "all", "an", "and", "any",
   "are", "as", "at", "be", "because", "been", "before", "being", "but",
   "by", "did", "do", "does", "doing", "down", "during", "each", "few",
   "for", "from", "further", "had", "has", "have", "having", "he", "her",
   "here", "hers", "herself", "him", "himself", "his", "how", "i", "if",
   "in", "into", "is", "it", "its", "itself", "just", "me", "more",
   "most", "my", "myself", "no", "nor", "not", "now", "of", "off", "on",
   "once", "only", "or", "other", "our", "ours", "ourselves", "out",
   "over", "own", "same", "she", "should", "so", "some", "such", "than",
   "that", "the", "their", "theirs", "them", "themselves", "then",
   "there", "these", "they", "this", "those", "through", "to", "too",
   "under", "until", "up", "very", "was", "we", "were", "what", "when",
   "where", "which", "while", "who", "whom", "why", "with", "would",
   "you", "your", "yours", "yourself", "yourselves", "im", "ive", "hes",
   "shes", "youre", "theyre", "weve", "thats", "theres", "whats",
   "gonna", "wanna", "lets"]

/-- `STOP_WORDS` in the NLTK-absent configuration (`stopwords` import failed,
so the module sets `STOP_WORDS = set(DEFAULT_STOP_WORDS)`). -/
def STOP_WORDS : List String := DEFAULT_STOP_WORDS

/-- `IMPORTANT_SHORT_TOKENS`. -/
def IMPORTANT_SHORT_TOKENS : List String := ["ai", "ms", "ebv", "cta"]

/-- `BLACKLIST_PHRASES`. -/
def BLACKLIST_PHRASES : List String :=
  ["thanks for watching", "thank you for watching", "see you in the next",
   "see you next", "i hope you enjoyed", "bye", "goodbye"]

/-- `FILLER_WORDS`. -/
def FILLER_WORDS : List String :=
  ["uh", "um", "uhh", "umm", "oh", "ah", "er", "hmm", "huh", "yeah",
   "yep", "nope", "okay", "ok", "alright", "ahead"]

/-- `MIN_KEYWORD_LENGTH`. -/
def MIN_KEYWORD_LENGTH : Nat := 3

/-- `MAX_KEYWORD_TOKENS`. -/
def MAX_KEYWORD_TOKENS : Nat := 2

/-- `GENERIC_SKIP_TOKENS`. -/
def GENERIC_SKIP_TOKENS : List String :=
  ["GET", "WANT", "THINK", "GO", "COME", "MAKE", "TAKE", "DO", "DOING",
   "SAY", "SAYS", "SAYING", "ASK", "ASKING", "TRY", "TRYING", "TRIES",
   "SEE", "SEES", "LOOK", "LOOKS", "LOOKING", "NEED", "NEEDS", "JUST",
   "RIGHT", "OKAY", "OK", "WELL", "FIRST", "SECOND", "THIRD", "ONE",
   "TWO", "THREE", "ANYTHING", "ANYONE", "ANYBODY", "EVERYTHING",
   "EVERYONE", "THING", "THINGS", "STUFF", "AHEAD", "GONNA", "WANNA",
   "CAN", "CANT", "GOING", "KNOW", "NEXT", "ALWAYS", "PRETTY",
   "ACTUALLY", "DAY", "LOT", "EVEN", "MADE", "BASICALLY", "SAID",
   "DONT", "DON", "DIDNT", "AWESOME", "AWAY", "BACK", "LATE",
   "BEGINNING", "LONG", "HAPPY", "WINDING", "HELPED", "GROW", "CAMERA",
   "PART", "MESSAGE", "MORNING", "BALANCED", "SIT", "SLEEP", "SOMEHOW",
   "SOMETHING", "FEEL", "FREE", "INTERVIEWS", "JIM", "HOME", "FACT",
   "HOURS", "BUILDING", "INDUSTRY", "SIX", "QUESTIONS", "SORRY", "FINE",
   "FORWARD", "STARTED", "BOTTOM", "MIGHT", "SPARK", "SPEND", "TIME",
   "REALLY", "SURE", "TOUGH", "KIND", "LIKE", "SCREW", "ELSE", "PICK",
   "WORD", "WORDS", "MEAN", "MEANS", "MEANT", "QUESTION", "ANSWER",
   "ASKED", "SAYED", "I", "ME", "MY", "MINE", "WE", "US", "OUR", "OURS",
   "YOU", "YOUR", "YOURS", "HE", "HIM", "HIS", "SHE", "HER", "HERS",
   "THEY", "THEM", "THEIR", "THEIRS", "HES", "SHES", "IM", "IVE",
   "YOURE", "THEYRE", "WEVE", "ITS", "IT", "S", "GOT", "GIVE", "GIVING",
   "TAKES", "TAKEN"]

/-- `MOTION_ZOOM_IN_KEYWORDS`. -/
def MOTION_ZOOM_IN_KEYWORDS : List String :=
  ["loyal", "loyalty", "sweet", "honest", "memory", "favorite memory",
   "favourite memory", "sweetheart", "sweethearts", "clientele", "client",
   "clients", "relationship", "relationships", "consistency", "consistent"]

/-- `MOTION_ANIMATION_HINTS`. -/
def MOTION_ANIMATION_HINTS : List String := ["zoom", "pulse", "bounce", "fade"]

/-- `ALLOWED_MOTIONS`. -/
def ALLOWED_MOTIONS : List String := ["zoomIn", "zoomOut"]

/-- `MAX_BROLL_REUSE`. -/
def MAX_BROLL_REUSE : Nat := 2

/-- `BROLL_RULES`: ordered `(keyword set, catalog id)` table. -/
def BROLL_RULES : List (List String × String) :=
  [(["digital marketing", "marketing", "online marketing"], "marketing_automation"),
   (["strategy", "tactics", "plan", "framework"], "business_strategy"),
   (["seo", "search engine optimization"], "data_visualization"),
   (["social media", "facebook", "instagram", "linkedin"], "digital_network"),
   (["ppc", "paid ads", "google ads"], "data_visualization"),
   (["email marketing", "email campaigns"], "digital_network"),
   (["web optimization", "website", "landing page"], "digital_transformation"),
   (["audience", "segmentation", "target", "customer"], "ai_brain"),
   (["learning", "education", "course", "training"], "education_training"),
   (["career", "job", "growth", "specialise"], "modern_office"),
   (["credibility", "authority", "expert"], "innovation_lightbulb"),
   (["data", "analytics", "metrics", "insights"], "data_visualization"),
   (["content", "blog", "video", "post"], "digital_network"),
   (["organic", "paid", "promotion"], "data_visualization"),
   (["brand awareness", "direct response"], "business_strategy"),
   (["products", "services"], "modern_office"),
   (["b2b", "b2c", "business to business", "business to consumer"], "business_strategy"),
   (["loyal", "loyalty", "loyal clients"], "handshake_success"),
   (["sweet", "honest", "heartwarming"], "celebration_success"),
   (["favorite memory", "favourite memory", "memory", "family", "grandkids"], "celebration_success"),
   (["high school", "sweetheart", "sweethearts"], "training_workshop"),
   (["clientele", "clients", "client"], "teamwork_meeting"),
   (["partnership", "still with", "day one"], "modern_office"),
   (["relationship", "relationships", "friendships"], "startup_team"),
   (["consistency", "consistent"], "office_motion"),
   (["mail room", "mailroom"], "modern_office"),
   (["industry", "business owner", "company"], "modern_office")]

/-- `BROLL_NOTES` (id → note text). -/
def BROLL_NOTES : List (String × String) :=
  [("handshake_success", "B-roll: handshake_success underscores loyalty anecdote."),
   ("celebration_success", "B-roll: celebration_success adds warmth during character description."),
   ("training_workshop", "B-roll: training_workshop illustrates the high-school group setup."),
   ("teamwork_meeting", "B-roll: teamwork_meeting spotlights established clientele."),
   ("modern_office", "B-roll: modern_office reinforces lasting client partnership."),
   ("startup_team", "B-roll: startup_team reinforces loyal friendships with clients."),
   ("office_motion", "B-roll: office_motion underscores consistent client relationships.")]

/-- `BROLL_REASONS` (id → reasons list). -/
def BROLL_REASONS : List (String × List String) :=
  [("handshake_success", ["Handshake moment reinforces loyalty description."]),
   ("celebration_success", ["Celebration visual supports the heartfelt moment."]),
   ("training_workshop", ["Group setting mirrors the meeting story energy."]),
   ("teamwork_meeting", ["Team huddle echoes long-term client relationships."]),
   ("modern_office", ["Modern office still pairs with enduring partnerships."]),
   ("startup_team", ["Collaborative workspace visualises loyal friendships with clients."]),
   ("office_motion", ["Office walkthrough mirrors consistent client presence."])]

/-- Assoc-list lookup (Python `dict.get`). -/
def assocGet {β : Type} (l : List (String × β)) (k : String) : Option β :=
  (l.find? (fun p => p.1 = k)).map Prod.snd

/-! ### Utility helpers -/

/-- `overlap_seconds`: overlap duration between two time intervals. -/
def overlapSeconds (aStart aEnd bStart bEnd : ℚ) : ℚ :=
  max 0 (min aEnd bEnd - max aStart bStart)

/-- `sanitize_text`: a trimmed string if available, else absent. -/
def sanitizeText (value : Option String) : Option String :=
  value.bind (fun s => let t := trimStr s; if t == "" then none else some t)

/-- `ensure_float` (the module's inputs are numeric-or-absent here). -/
def ensureFloat (value : Option ℚ) (default : ℚ) : ℚ := value.getD default

/-- Python `str.title()` on one word: upper-case a letter following a
non-cased character, lower-case the rest. -/
def titleCaseGo : List Char → Bool → List Char
  | [], _ => []
  | c :: cs, prevCased =>
    if c.isAlpha then (if prevCased then c.toLower else c.toUpper) :: titleCaseGo cs true
    else c :: titleCaseGo cs false

/-- Python `str.title()`. -/
def titleStr (s : String) : String := String.mk (titleCaseGo s.toList false)

/-- `camel_case_motion`: "zoom-in" → "zoomIn". -/
def camelCaseMotion (name : String) : String :=
  let replaced := String.mk ((trimStr name).toList.map (fun c => if c = '-' || c = ' ' then '_' else c))
  let normalized := lowerStr replaced
  let parts := (runsBy (fun c => !(c = '_')) normalized.toList).map String.mk
  match parts with
  | [] => ""
  | first :: rest => first ++ String.join (rest.map titleStr)

/-- The `timestamp` values `parse_timestamp_to_seconds` can receive: a number,
a colon-separated string whose parts all parsed as floats (encoded by those
parts), or anything else (non-numeric string, empty string, wrong type). -/
inductive TsVal where
  | num : ℚ → TsVal
  | strParts : List ℚ → TsVal
  | malformed : TsVal
deriving DecidableEq

/-- `parse_timestamp_to_seconds`: "MM:SS" / "HH:MM:SS" / numeric → seconds. -/
def parseTimestampToSeconds : Option TsVal → Option ℚ
  | none => none
  | some (TsVal.num q) => if q ≥ 0 then some q else none
  | some TsVal.malformed => none
  | some (TsVal.strParts ps) =>
    match ps with
    | [s] => if s ≥ 0 then some s else none
    | [m, s] => let t := s + m * 60; if t ≥ 0 then some t else none
    | [h, m, s] => let t := s + m * 60 + h * 3600; if t ≥ 0 then some t else none
    | _ => none

/-! ### Phrase extractor (`select_keyword_phrase` and helpers)

The module defines `_clean_token` twice at top level; the second definition
(strip everything outside `[A-Za-z0-9']`) shadows the first, so every runtime
call uses it — the embedding models the shadowing winner only. -/

/-- `_clean_token` (the effective, second definition):
`re.sub(r"[^A-Za-z0-9']+", "", token)`. -/
def cleanTok (token : String) : String := String.mk (token.toList.filter isAlnumApos)

/-- `re.sub(r"[^a-z0-9]", "", token.lower())` — the candidate normalizer. -/
def normTok (token : String) : String :=
  String.mk ((lowerStr token).toList.filter isLowerAlnum)

/-- `keyword_is_meaningful`. -/
def keywordIsMeaningful (text : String) : Bool :=
  let tokens := (alnumTokens text).map upperStr
  if tokens.isEmpty then false
  else if tokens == ["FIRST", "ONE"] then false
  else if tokens.all (fun t => GENERIC_SKIP_TOKENS.contains t) then false
  else true

/-- Is the token (upper-cased) one of `_ALLOWED_CONNECTORS`? -/
def isConnectorTok (t : String) : Bool := ALLOWED_CONNECTORS.contains (upperStr t)

/-- `_trim_edge_connectors`. -/
def trimEdgeConnectors (l : List String) : List String :=
  ((l.dropWhile isConnectorTok).reverse.dropWhile isConnectorTok).reverse

/-- `_has_future_content` of `_fallback_filter`: some later token is
non-empty, not a common verb, and contains an alphanumeric character. -/
def hasFutureContent (rest : List String) : Bool :=
  rest.any (fun t =>
    let candidate := trimStr t
    !(candidate == "") &&
    !(COMMON_VERB_TOKENS.contains (lowerStr candidate)) &&
    candidate.toList.any isAlnumCh)

/-- Loop body of `_fallback_filter`; the flag records whether `selected`
is already non-empty. -/
def fallbackGo : List String → Bool → List String
  | [], _ => []
  | token :: rest, hasSel =>
    let normalized := cleanTok token
    if normalized == "" then fallbackGo rest hasSel
    else
      let upperToken := upperStr normalized
      let lowerToken := lowerStr normalized
      if ALLOWED_CONNECTORS.contains upperToken then
        if hasSel && hasFutureContent rest then upperToken :: fallbackGo rest hasSel
        else fallbackGo rest hasSel
      else if COMMON_VERB_TOKENS.contains lowerToken then fallbackGo rest hasSel
      else if !(normalized.toList.any isAlnumCh) then fallbackGo rest hasSel
      else normalized :: fallbackGo rest true

/-- `_fallback_filter`: the verb-deny-list heuristic. -/
def fallbackFilter (tokens : List String) : List String :=
  trimEdgeConnectors (fallbackGo tokens false)

/-- `_filter_with_pos` in the NLTK-absent configuration:
`_ensure_pos_tagger()` is `False`, so the function returns `[]` and
`filter_tokens_to_noun_phrase` falls back to `_fallback_filter`. -/
def filterWithPos (_tokens : List String) : List String := []

/-- The `max_tokens` limiting loop of `filter_tokens_to_noun_phrase`:
append each token, counting non-connectors, and stop once the content
count reaches `maxTokens`. -/
def limitContentGo (maxTokens : Nat) : List String → Nat → List String
  | [], _ => []
  | t :: rest, contentCount =>
    let contentCount' := if isConnectorTok t then contentCount else contentCount + 1
    if contentCount' ≥ maxTokens then [t]
    else t :: limitContentGo maxTokens rest contentCount'

/-- `filter_tokens_to_noun_phrase`. -/
def filterTokensToNounPhrase (tokens : List String) (maxTokens : Option Nat) : List String :=
  let cleaned := (tokens.map cleanTok).filter (fun t => !(t == ""))
  if cleaned.isEmpty then []
  else
    let filtered1 := filterWithPos cleaned
    let filtered2 := if filtered1.isEmpty then fallbackFilter cleaned else filtered1
    let filtered3 := if filtered2.isEmpty then cleaned else filtered2
    match maxTokens with
    | some m =>
      if 0 < m then
        let limited := limitContentGo m filtered3 0
        let trimmed := trimEdgeConnectors limited
        if trimmed.isEmpty then filtered3 else trimmed
      else filtered3
    | none => filtered3

/-- Candidate-collection loop of `select_keyword_phrase`: drop fillers,
stop-words (unless allow-listed), generic tokens and short tokens,
de-duplicate case-insensitively, stop at `3 * maxTokens` candidates. -/
def rawCandsGo (maxTokens : Nat) : List String → List String → List String → List String
  | [], _seen, acc => acc.reverse
  | token :: rest, seen, acc =>
    let normalized := normTok token
    if normalized == "" then rawCandsGo maxTokens rest seen acc
    else if FILLER_WORDS.contains normalized then rawCandsGo maxTokens rest seen acc
    else if STOP_WORDS.contains normalized &&
            !(IMPORTANT_SHORT_TOKENS.contains normalized) then
      rawCandsGo maxTokens rest seen acc
    else if GENERIC_SKIP_TOKENS.contains (upperStr normalized) then
      rawCandsGo maxTokens rest seen acc
    else if decide (normalized.length < MIN_KEYWORD_LENGTH) &&
            !(IMPORTANT_SHORT_TOKENS.contains normalized) then
      rawCandsGo maxTokens rest seen acc
    else
      let candUpper := upperStr token
      if seen.contains candUpper then rawCandsGo maxTokens rest seen acc
      else
        let acc' := token :: acc
        if acc'.length ≥ maxTokens * 3 then acc'.reverse
        else rawCandsGo maxTokens rest (candUpper :: seen) acc'

/-- The `max_chars` truncation of `select_keyword_phrase`. -/
def truncatePhrase (phrase : String) (maxChars : Nat) : String :=
  if phrase.length > maxChars then
    String.mk (rstripChars (phrase.toList.take (maxChars - 1))) ++ "..."
  else phrase

/-- `select_keyword_phrase`. -/
def selectKeywordPhrase (text : String) (maxTokens maxChars : Nat) : Option String :=
  if text == "" then none
  else
    let tokens := alnumAposTokens text
    let rawCandidates := rawCandsGo maxTokens tokens [] []
    if rawCandidates.isEmpty then none
    else
      let filtered0 := filterTokensToNounPhrase rawCandidates (some maxTokens)
      let filteredTokens := if filtered0.isEmpty then rawCandidates.take maxTokens else filtered0
      let keywords := (filteredTokens.filter (fun t => !(t == ""))).map upperStr
      if keywords.isEmpty then none
      else
        let phrase := joinSp (keywords.take maxTokens)
        let phraseResult : Option String :=
          if keywordIsMeaningful phrase then some phrase
          else
            let filteredK := keywords.filter keywordIsMeaningful
            match filteredK with
            | [] => none
            | [k] => if keywordIsMeaningful k then some k else none
            | ks => let p := joinSp (ks.take maxTokens)
                    if keywordIsMeaningful p then some p else none
        phraseResult.map (fun p => truncatePhrase p maxChars)

/-- `condense_text`. -/
def condenseText (value : String) (maxWords maxChars : Nat) : String :=
  (selectKeywordPhrase value (min maxWords MAX_KEYWORD_TOKENS) maxChars).getD ""

/-- `extract_meaningful_phrases` (`max_phrases` is accepted but unused,
as in the source). -/
def extractMeaningfulPhrases (text : String) (_maxPhrases : Nat) (maxCharsPerPhrase : Nat) :
    List String :=
  match selectKeywordPhrase text MAX_KEYWORD_TOKENS maxCharsPerPhrase with
  | some p => [p]
  | none => []

/-- `normalize_phrase`. -/
def normalizePhrase (words : List String) (maxWords maxChars : Nat) : String :=
  let joined := joinSp words
  match extractMeaningfulPhrases joined 1 maxChars with
  | p :: _ => p
  | [] => condenseText joined (min maxWords MAX_KEYWORD_TOKENS) maxChars

/-- The split-token set of `split_words_for_supporting`. -/
def SPLIT_TOKENS : List String :=
  ["and", "but", "versus", "vs", "while", "because", "so", "then",
   "what", "that", "which", "where", "who"]

/-- `split_words_for_supporting`. -/
def splitWordsForSupporting (words : List String) : List String × List String :=
  if words.length ≤ 3 then (words, [])
  else
    match (List.range words.length).find? (fun idx =>
      match words.get? idx with
      | some token =>
        SPLIT_TOKENS.contains (lowerStr token) &&
        decide (2 ≤ idx) && decide (idx ≤ words.length - 3)
      | none => false) with
    | some idx => (words.take idx, words.drop idx)
    | none =>
      let midpoint := max 2 (words.length / 2)
      (words.take midpoint, words.drop midpoint)

/-! ### Data model

Python dicts are embedded as structures; a field of type `Option _` is `none`
when the key is absent (or its value is `None`).  `endTime` renders the
Python key `end` (a reserved word in Lean). -/

/-- A `broll` assignment attached to a segment
(`{"id", "file", "mode", "confidence", "reasons"}`). -/
structure BrollAssignment where
  id : Option String
  file : Option String
  mode : String
  confidence : ℚ
  reasons : List String
deriving DecidableEq

/-- One timing warning of `compute_timing_warnings`.  The source emits
f-strings (`"Gap of {gap:.2f}s between {prev_id} and {cur_id}; ..."`); the
embedding keeps the payload (kind, gap magnitude, segment ids) structured
instead of re-implementing decimal formatting. -/
inductive TimingWarning where
  | gap : ℚ → Option String → Option String → TimingWarning
  | overlap : ℚ → Option String → Option String → TimingWarning
deriving DecidableEq

/-- A plan segment. -/
structure Segment where
  id : Option String
  sourceStart : Option ℚ
  duration : Option ℚ
  kind : Option String
  broll : Option BrollAssignment
  motionCue : Option String
  sfxHints : Option (List String)
  notes : List String
deriving DecidableEq

/-- A segment with no keys set (`notes` absent ≡ `[]`, the module always
reads it with default `[]`). -/
def emptySegment : Segment :=
  { id := none, sourceStart := none, duration := none, kind := none,
    broll := none, motionCue := none, sfxHints := none, notes := [] }

/-- An on-screen highlight.  `supportingTexts` is an insertion-ordered dict;
`metadataAudio` is the `metadata.audio` marker used by the SFX passes. -/
structure Highlight where
  id : Option String
  type : Option String
  start : Option ℚ
  duration : Option ℚ
  position : Option String
  layout : Option String
  importance : Option String
  showBottom : Option Bool
  safeBottom : Option ℚ
  safeInsetHorizontal : Option ℚ
  text : Option String
  keyword : Option String
  title : Option String
  supportingTexts : List (String × String)
  staggerLeft : Option ℚ
  staggerRight : Option ℚ
  side : Option String
  animation : Option String
  variant : Option String
  sfx : Option String
  gain : Option ℚ
  volume : Option ℚ
  metadataAudio : Option String
deriving DecidableEq

/-- A highlight with no keys set. -/
def emptyHighlight : Highlight :=
  { id := none, type := none, start := none, duration := none,
    position := none, layout := none, importance := none, showBottom := none,
    safeBottom := none, safeInsetHorizontal := none, text := none,
    keyword := none, title := none, supportingTexts := [],
    staggerLeft := none, staggerRight := none, side := none,
    animation := none, variant := none, sfx := none, gain := none,
    volume := none, metadataAudio := none }

/-- The plan object.  `metaWarnings` is `plan["meta"]["warnings"]`
(the only `meta` entry the engine itself writes or reads). -/
structure Plan where
  segments : List Segment
  highlights : List Highlight
  metaWarnings : Option (List TimingWarning)
deriving DecidableEq

/-- One scene-map record (external input, read-only). -/
structure SceneRecord where
  start : Option ℚ
  endTime : Option ℚ
  topics : List String
  highlightScore : Option ℚ
  motionCandidates : List String
  tokens : List String
  sfxHints : List String
  cta : Bool
  textOneLine : Option String
deriving DecidableEq

/-- `SceneSummary` (the dataclass). -/
structure SceneSummary where
  start : ℚ
  endTime : ℚ
  topics : List String
  highlight_score : ℚ
  motion_candidates : List String
  tokens : List String
  text : String
  cta : Bool
  sfx_hints : List String
deriving DecidableEq

/-- `SceneSummary.duration` (the `@property`). -/
def SceneSummary.duration (s : SceneSummary) : ℚ := max 0 (s.endTime - s.start)

/-- One B-roll catalog item. -/
structure BrollItem where
  id : Option String
  file : Option String
  topics : List String
  keywords : List String
  mood : List String
  mediaType : Option String
  orientation : Option String
  duration : Option ℚ
deriving DecidableEq

/-- The B-roll catalog (`{"items": [...]}`); `none` at call sites models an
absent or empty (falsy) catalog dict. -/
structure BrollCatalog where
  items : List BrollItem
deriving DecidableEq

/-- One SFX catalog item. -/
structure SfxItem where
  id : Option String
  file : Option String
deriving DecidableEq

/-- One SFX catalog category. -/
structure SfxCategory where
  id : Option String
  items : List SfxItem
deriving DecidableEq

/-- The SFX catalog: `categories` for the CTA search, `items` for the
highlight-SFX pass. -/
structure SfxCatalog where
  categories : List SfxCategory
  items : List SfxItem
deriving DecidableEq

/-- Motion rules (`motion_rules.json`).  `none` at call sites models an
absent or empty (falsy) rules dict; `some r` a non-empty one. -/
structure MotionRules where
  motion_frequency : Option ℚ
  highlight_rate : Option ℚ
  zoom_out_keywords : List String
deriving DecidableEq

/-- One subtitle entry as produced by `parse_srt_file`:
`{"index", "start", "end", "duration", "text"}` with
`duration = end - start`. -/
structure SrtEntry where
  index : ℤ
  start : ℚ
  endTime : ℚ
  duration : ℚ
  text : String
deriving DecidableEq

/-- The value under a `content` key of an overlay element: a plain string, a
structured dict, or anything else (absent / wrong type). -/
inductive ContentVal where
  | str : String → ContentVal
  | dict : List (String × Option String) → List (Option String) → ContentVal
  | absent : ContentVal
deriving DecidableEq

/-- Named-field access on a `ContentVal.dict` (its assoc list carries the
string-valued keys; the second list is `items`, with `none` for
non-string entries). -/
def ContentVal.getStr : ContentVal → String → Option String
  | ContentVal.str _, _ => none
  | ContentVal.absent, _ => none
  | ContentVal.dict fields _, k => (assocGet fields k).join

/-- The `items` list of a `ContentVal.dict`. -/
def ContentVal.itemsOf : ContentVal → List (Option String)
  | ContentVal.dict _ items => items
  | _ => []

/-- One element of an overlay timeline entry. -/
structure OverlayElement where
  type : Option String
  content : ContentVal
  durationSeconds : Option ℚ
  duration : Option ℚ
  length : Option ℚ
deriving DecidableEq

/-- One overlay timeline entry. -/
structure OverlayEntry where
  timestamp : Option TsVal
  script : Option String
  text : Option String
  elements : Option (List OverlayElement)
  durationSeconds : Option ℚ
  duration : Option ℚ
  length : Option ℚ
deriving DecidableEq

/-- The structured overlay catalog (`video_timeline` / `timeline` keys). -/
structure OverlayCatalog where
  videoTimeline : Option (List OverlayEntry)
  timeline : Option (List OverlayEntry)
deriving DecidableEq

/-! ### `derive_duration_seconds` -/

/-- The duration-bearing keys of a container passed to
`derive_duration_seconds`, plus the text keys used for the dynamic
adjustment (`content` holds the element's content only when it is a
string, since `sanitize_text` rejects everything else). -/
structure DurContainer where
  durationSeconds : Option ℚ
  duration : Option ℚ
  length : Option ℚ
  content : Option String
  text : Option String
deriving DecidableEq

/-- First of the keys `duration_seconds`, `duration`, `length` holding a
positive number (the inner loop of `derive_duration_seconds`). -/
def firstPosDur (c : DurContainer) : Option ℚ :=
  ((([c.durationSeconds, c.duration, c.length].filterMap id).filter
      (fun d => decide (0 < d))).head?)

/-- `derive_duration_seconds(entry, element, fallback)`: base duration from
the containers (element first; the entry is consulted when the element
yielded nothing different from the fallback), then the dynamic 0.5 s/word
adjustment clamped to `[1.5, 5.0]`, keeping the larger. -/
def deriveDurationSeconds (entry element : DurContainer) (fallback : ℚ) : ℚ :=
  let base :=
    match firstPosDur element with
    | some d => if d ≠ fallback then d else (firstPosDur entry).getD d
    | none => (firstPosDur entry).getD fallback
  let textContent := (sanitizeText element.content).orElse (fun _ => sanitizeText entry.text)
  match textContent with
  | some t =>
    let wordCount : ℚ := ((splitWsStr t).length : ℚ)
    let dynamicDuration := max (3/2) (min (wordCount * (1/2)) 5)
    max base dynamicDuration
  | none => base

/-- The `DurContainer` view of a subtitle entry (its dict has the keys
`index`, `start`, `end`, `duration`, `text`). -/
def SrtEntry.durContainer (e : SrtEntry) : DurContainer :=
  { durationSeconds := none, duration := some e.duration, length := none,
    content := none, text := some e.text }

/-- The `DurContainer` view of an overlay timeline entry. -/
def OverlayEntry.durContainer (e : OverlayEntry) : DurContainer :=
  { durationSeconds := e.durationSeconds, duration := e.duration,
    length := e.length, content := none, text := e.text }

/-- The `DurContainer` view of an overlay element. -/
def OverlayElement.durContainer (el : OverlayElement) : DurContainer :=
  { durationSeconds := el.durationSeconds, duration := el.duration,
    length := el.length,
    content := match el.content with | ContentVal.str s => some s | _ => none,
    text := none }

/-- `ensure_highlight_keyword`: keep a meaningful `keyword`, else promote a
meaningful `text`; returns the success flag and the (possibly) updated
highlight (the Python mutates `fields` in place). -/
def ensureHighlightKeyword (h : Highlight) : Bool × Highlight :=
  if (match h.keyword with
      | some k => !(k == "") && keywordIsMeaningful k
      | none => false) then (true, h)
  else if (match h.text with
      | some t => !(t == "") && keywordIsMeaningful t
      | none => false) then (true, { h with keyword := h.text })
  else (false, h)

/-! ### Subtitle-driven highlight synthesis (`augment_highlights_from_srt`) -/

/-- `f"srt-{index:04d}"`. -/
def srtId (index : ℤ) : String := "srt-" ++ padInt 4 index

/-- The literal `"didn't know what caused"` of the override table. -/
def didntKnowPhrase : String := "didn" ++ String.singleton apoC ++ "t know what caused"

/-- `build_highlight_override`: the literal text-override table for known
high-value moments, reproduced verbatim. -/
def buildHighlightOverride (entry : SrtEntry) (textLower : String) (start duration : ℚ) :
    Option Highlight :=
  let highlightId := srtId entry.index
  if strContainsSub textLower "epstein-barr" then
    let right := if strContainsSub textLower "32" then "32X MS RISK"
                 else if strContainsSub textLower "kissing" then "THE KISSING DISEASE"
                 else "MONONUCLEOSIS"
    some { emptyHighlight with
      id := some highlightId, type := some "noteBox",
      start := some (pyRound2 start), duration := some (pyRound2 duration),
      importance := some "primary", position := some "bottom",
      layout := some "dual",
      text := some "EPSTEIN-BARR VIRUS", keyword := some "EPSTEIN-BARR VIRUS",
      showBottom := some true, staggerLeft := some 0, staggerRight := some 2,
      supportingTexts := [("topLeft", "EPSTEIN-BARR VIRUS"), ("topRight", right)] }
  else if strContainsSub textLower didntKnowPhrase then
    some { emptyHighlight with
      id := some highlightId, type := some "noteBox",
      start := some (pyRound2 start), duration := some (pyRound2 duration),
      importance := some "primary", position := some "bottom",
      layout := some "dual",
      text := some "UNKNOWN CAUSE", keyword := some "UNKNOWN CAUSE",
      showBottom := some true, staggerLeft := some 0, staggerRight := some 2,
      supportingTexts := [("topLeft", "UNKNOWN CAUSE"), ("topRight", "HARD TO TREAT")] }
  else if strContainsSub textLower "10 million" && strContainsSub textLower "20 year" then
    some { emptyHighlight with
      id := some highlightId, type := some "noteBox",
      start := some (pyRound2 start), duration := some (pyRound2 duration),
      importance := some "primary", position := some "bottom",
      layout := some "dual", safeBottom := some 0.18, safeInsetHorizontal := some 0.08,
      text := some "10 MILLION PEOPLE", keyword := some "10 MILLION PEOPLE",
      showBottom := some true, staggerLeft := some 0, staggerRight := some 2,
      supportingTexts := [("topLeft", "10 MILLION PEOPLE"), ("topRight", "20 YEARS")] }
  else if strContainsSub textLower "direct link" && strContainsSub textLower "multiple sclerosis" then
    some { emptyHighlight with
      id := some highlightId, type := some "noteBox",
      start := some (pyRound2 start), duration := some (pyRound2 duration),
      importance := some "primary", position := some "bottom",
      layout := some "bottom", safeBottom := some 0.18, safeInsetHorizontal := some 0.08,
      text := some "DIRECT LINK: EBV ? MS", keyword := some "DIRECT LINK: EBV ? MS",
      showBottom := some true }
  else if strContainsSub textLower "multiple sclerosis" && strContainsSub textLower "32" then
    some { emptyHighlight with
      id := some highlightId, type := some "noteBox",
      start := some (pyRound2 start), duration := some (pyRound2 duration),
      importance := some "primary", position := some "bottom",
      layout := some "bottom", safeBottom := some 0.18, safeInsetHorizontal := some 0.08,
      text := some "32X MS RISK", keyword := some "32X MS RISK",
      showBottom := some true }
  else none

/-- The sort key used by every highlight sort in the module
(`h.get('start', 0.0)`, with `or 0.0` a no-op on numbers). -/
def highlightSortKey (h : Highlight) : ℚ := h.start.getD 0

/-- `highlights.sort(key=...)` (stable, ascending by `highlightSortKey`). -/
def sortHighlights (l : List Highlight) : List Highlight :=
  stableSortBy (fun a b => decide (highlightSortKey a ≤ highlightSortKey b)) l

/-- `has_conflict` of `augment_highlights_from_srt`: the candidate window
overlaps an existing highlight, or starts within `min_gap` of one. -/
def srtHasConflict (highlights : List Highlight) (minGap startTime durationTime : ℚ) : Bool :=
  let endTime := startTime + durationTime
  highlights.any (fun existing =>
    match existing.start with
    | none => false
    | some s =>
      let existingDuration := existing.duration.getD 0
      decide (0 < overlapSeconds startTime endTime s (s + existingDuration)) ||
      decide (|s - startTime| ≤ minGap))

/-- `re.sub(r"[^A-Za-z0-9\s'%-]", " ", text)`: the subtitle text cleaner. -/
def isSrtKeptCh (c : Char) : Bool :=
  isAlnumCh c || isWsCh c || c = apoC || c = '%' || c = '-'

/-- Replace every character outside `[A-Za-z0-9\s'%-]` with a space. -/
def cleanSrtText (s : String) : String :=
  String.mk (s.toList.map (fun c => if isSrtKeptCh c then c else ' '))

/-- The supporting-text placement block of the `augment_highlights_from_srt`
entry loop: two candidates give a dual layout, one goes to the side chosen
by the toggle, none leaves the bottom-only highlight. -/
def srtPlace (highlight0 : Highlight) (sideToggle : Bool)
    (supportingCandidates : List (String × String)) : Highlight × Bool :=
  match supportingCandidates with
  | c1 :: c2 :: _ =>
    ({ highlight0 with
       supportingTexts := [("topLeft", c1.2), ("topRight", c2.2)],
       layout := some "dual", staggerLeft := some 0, staggerRight := some 2 },
     sideToggle)
  | [c] =>
    if sideToggle then
      ({ highlight0 with
         supportingTexts := [("topRight", c.2)],
         layout := some "right", staggerRight := some 0 }, !sideToggle)
    else
      ({ highlight0 with
         supportingTexts := [("topLeft", c.2)],
         layout := some "left", staggerLeft := some 0 }, !sideToggle)
  | [] => (highlight0, sideToggle)

/-- The non-override candidate construction of the `augment_highlights_from_srt`
entry loop: the primary phrase, the base `noteBox` highlight and the
supporting-text placement; `none` when the primary phrase is empty or not
meaningful. -/
def srtMainCandidate (index : ℤ) (words : List String) (sideToggle : Bool)
    (start duration : ℚ) : Option (Highlight × Bool) :=
  let primaryText := normalizePhrase words 4 40
  if primaryText == "" || !(keywordIsMeaningful primaryText) then none
  else
    let pair := splitWordsForSupporting words
    let leftText := normalizePhrase pair.1 4 32
    let rightText := if pair.2.isEmpty then "" else normalizePhrase pair.2 4 32
    let highlight0 : Highlight :=
      { emptyHighlight with
        id := some (srtId index), type := some "noteBox",
        start := some (pyRound2 start), duration := some (pyRound2 duration),
        position := some "bottom", layout := some "bottom",
        importance := some "primary", showBottom := some true,
        safeBottom := some 0.18, safeInsetHorizontal := some 0.08,
        text := some primaryText, keyword := some primaryText }
    let supportingCandidates : List (String × String) :=
      (if !(leftText == "") && keywordIsMeaningful leftText &&
          !(leftText == primaryText)
       then [("left", leftText)] else []) ++
      (if !(rightText == "") && keywordIsMeaningful rightText &&
          !(rightText == primaryText) && !(rightText == leftText)
       then [("right", rightText)] else [])
    some (srtPlace highlight0 sideToggle supportingCandidates)

/-- The loop state of `augment_highlights_from_srt`. -/
structure SrtState where
  highlights : List Highlight
  injected : List Highlight
  sideToggle : Bool
  recentPhrases : List String
deriving DecidableEq

/-- One iteration of the `augment_highlights_from_srt` entry loop. -/
def srtStep (minGap : ℚ) (st : SrtState) (entry : SrtEntry) : SrtState :=
  let start := max 0 entry.start
  let duration := deriveDurationSeconds entry.durContainer entry.durContainer 3
  if decide (start < 3/5) || srtHasConflict st.highlights minGap start duration then st
  else
    let rawText := entry.text
    let textLower := lowerStr rawText
    if BLACKLIST_PHRASES.any (fun p => strContainsSub textLower p) then st
    else
      let clean := cleanSrtText rawText
      let words := splitWsStr clean
      if words.isEmpty then st
      else
        let normalizedSentence := lowerStr (joinSp words)
        if st.recentPhrases.contains normalizedSentence then st
        else
          let st1 := { st with recentPhrases := normalizedSentence :: st.recentPhrases }
          match buildHighlightOverride entry textLower start duration with
          | some ov =>
            let okOv := ensureHighlightKeyword ov
            if okOv.1 then
              { st1 with highlights := st1.highlights ++ [okOv.2],
                         injected := st1.injected ++ [okOv.2] }
            else st1
          | none =>
            match srtMainCandidate entry.index words st1.sideToggle start duration with
            | none => st1
            | some placed =>
              let okH := ensureHighlightKeyword placed.1
              if !okH.1 then { st1 with sideToggle := placed.2 }
              else
                let highlight2 := okH.2
                let hlDuration :=
                  let d := highlight2.duration.getD duration
                  if d = 0 then duration else d
                let windowEnd := start + duration
                let maxStart := max start (windowEnd - hlDuration)
                let desired := start + duration * 0.55
                let highlight3 :=
                  { highlight2 with start := some (pyRound2 (min (max desired start) maxStart)) }
                { st1 with highlights := st1.highlights ++ [highlight3],
                           injected := st1.injected ++ [highlight3],
                           sideToggle := placed.2 }

/-- The entry loop of `augment_highlights_from_srt`. -/
def srtGo (minGap : ℚ) : List SrtEntry → SrtState → SrtState
  | [], st => st
  | e :: es, st => srtGo minGap es (srtStep minGap st e)

/-- `augment_highlights_from_srt` on the entry list produced by
`parse_srt_file` (an empty list models a missing, empty or unparseable
subtitle file). -/
def augmentHighlightsFromSrt (plan : Plan) (entries : List SrtEntry) (minGap : ℚ) :
    Plan × List Highlight :=
  if entries.isEmpty then (plan, [])
  else
    let hs0 := sortHighlights plan.highlights
    let st := srtGo minGap entries ⟨hs0, [], false, []⟩
    let finalHighlights :=
      if st.injected.isEmpty then st.highlights else sortHighlights st.highlights
    ({ plan with highlights := finalHighlights }, st.injected)

/-! ### Catalog-driven highlight synthesis (`augment_highlights_from_catalog`) -/

/-- `f"kb-{entry_index:03d}-{element_index:02d}"`. -/
def kbId (entryIndex elementIndex : ℕ) : String :=
  "kb-" ++ padNat 3 entryIndex ++ "-" ++ padNat 2 elementIndex

/-- Insert into an insertion-ordered dict only when the key is absent
(`if value and target_key not in supporting`). -/
def putIfAbsent (l : List (String × String)) (k v : String) : List (String × String) :=
  if (assocGet l k).isSome then l else l ++ [(k, v)]

/-- The alias table of `build_highlight_from_overlay`. -/
def OVERLAY_ALIASES : List (String × String) :=
  [("top_left", "topLeft"), ("topLeft", "topLeft"), ("left", "topLeft"),
   ("primary", "topLeft"), ("top_right", "topRight"), ("topRight", "topRight"),
   ("right", "topRight"), ("secondary", "topRight"),
   ("top_center", "topCenter"), ("topCenter", "topCenter")]

/-- `build_highlight_from_overlay`. -/
def buildHighlightFromOverlay (entryIndex : ℕ) (entry : OverlayEntry) (elementIndex : ℕ)
    (element : OverlayElement) : Option Highlight :=
  if !(element.type == some "text_overlay") then none
  else match parseTimestampToSeconds entry.timestamp with
  | none => none
  | some timestamp =>
    let content := element.content
    let mainAndSup : Option String × List (String × String) :=
      match content with
      | ContentVal.str s => (sanitizeText (some s), [])
      | ContentVal.absent => (sanitizeText entry.script, [])
      | ContentVal.dict _ _ =>
        let mainText :=
          (sanitizeText (content.getStr "keyword")).orElse (fun _ =>
          (sanitizeText (content.getStr "title")).orElse (fun _ =>
          (sanitizeText (content.getStr "heading")).orElse (fun _ =>
          sanitizeText (content.getStr "label"))))
        let itemsList := content.itemsOf
        let withItems : Option String × List (String × String) :=
          if itemsList.isEmpty then (mainText, [])
          else
            let first := sanitizeText ((itemsList.get? 0).getD none)
            let second :=
              if itemsList.length > 1 then sanitizeText ((itemsList.get? 1).getD none) else none
            let supA := match first with | some f => putIfAbsent [] "topLeft" f | none => []
            let supB := match second with | some s2 => putIfAbsent supA "topRight" s2 | none => supA
            let mainText' := match mainText with
              | some m => some m
              | none => (sanitizeText (itemsList.getLast?.getD none)).orElse (fun _ => first)
            (mainText', supB)
        let sup2 := OVERLAY_ALIASES.foldl (fun sup p =>
          match sanitizeText (content.getStr p.1) with
          | some v => putIfAbsent sup p.2 v
          | none => sup) withItems.2
        (withItems.1, sup2)
    let mainText2 := mainAndSup.1.orElse (fun _ => sanitizeText entry.script)
    match mainText2 with
    | none => none
    | some mainText =>
      let supportingCleaned := mainAndSup.2.foldl (fun acc p =>
        match extractMeaningfulPhrases p.2 1 32 with
        | q :: _ => acc ++ [(p.1, q)]
        | [] => acc) []
      let duration := deriveDurationSeconds entry.durContainer element.durContainer 3
      let leftValue := (assocGet supportingCleaned "topLeft").orElse (fun _ =>
        assocGet supportingCleaned "topCenter")
      let rightValue := (assocGet supportingCleaned "topRight").orElse (fun _ =>
        assocGet supportingCleaned "topCenter")
      let supportingFinal : List (String × String) :=
        (match leftValue with | some lv => [("topLeft", lv)] | none => []) ++
        (match rightValue, leftValue with
         | some rv, some lv => if rv == lv then [] else [("topRight", rv)]
         | some rv, none => [("topRight", rv)]
         | none, _ => [])
      match extractMeaningfulPhrases mainText 1 42 with
      | [] => none
      | primaryKeyword :: _ =>
        if !(keywordIsMeaningful primaryKeyword) then none
        else
          let h0 := { emptyHighlight with
            id := some (kbId entryIndex elementIndex), type := some "noteBox",
            start := some (pyRound2 timestamp), duration := some (pyRound2 duration),
            position := some "bottom", layout := some "bottom",
            importance := some "primary", showBottom := some true,
            safeBottom := some 0.18, safeInsetHorizontal := some 0.08,
            text := some primaryKeyword, keyword := some primaryKeyword }
          if supportingFinal.isEmpty then some h0
          else
            let hasL := (assocGet supportingFinal "topLeft").isSome
            let hasR := (assocGet supportingFinal "topRight").isSome
            if hasL && hasR then
              some { h0 with
                     supportingTexts := supportingFinal, layout := some "dual",
                     staggerLeft := some 0, staggerRight := some 2 }
            else if hasL then
              some { h0 with
                     supportingTexts := supportingFinal, layout := some "left",
                     staggerLeft := some 0 }
            else if hasR then
              some { h0 with
                     supportingTexts := supportingFinal, layout := some "right",
                     staggerRight := some 0 }
            else some { h0 with supportingTexts := supportingFinal }

/-- The loop state of `augment_highlights_from_catalog`. -/
structure CatState where
  highlights : List Highlight
  injected : List Highlight
  existingStarts : List ℚ
  sideToggle : Bool
deriving DecidableEq

/-- One element iteration of `augment_highlights_from_catalog`. -/
def catElemStep (minGap : ℚ) (entryIndex : ℕ) (entry : OverlayEntry) (st : CatState)
    (p : ℕ × OverlayElement) : CatState :=
  match buildHighlightFromOverlay entryIndex entry p.1 p.2 with
  | none => st
  | some highlight =>
    match highlight.start with
    | none => st
    | some startTime =>
      if st.existingStarts.any (fun e => decide (|startTime - e| ≤ minGap)) then st
      else
        let layout :=
          match highlight.layout with
          | some l => if l == "" then "bottom" else l
          | none => "bottom"
        let imp0 := highlight.importance.getD ""
        let imp1 := if imp0 == "" then "primary" else imp0
        let h1 := { highlight with
                    position := some "bottom", showBottom := some true,
                    importance := some (lowerStr imp1) }
        let supportingTexts := h1.supportingTexts
        let next : Highlight × Bool :=
          if (layout == "left" || layout == "right") && !supportingTexts.isEmpty then
            let desiredLeft := !st.sideToggle
            let value := if desiredLeft then assocGet supportingTexts "topLeft"
                         else assocGet supportingTexts "topRight"
            let fallbackValue := (assocGet supportingTexts "topLeft").orElse (fun _ =>
              assocGet supportingTexts "topRight")
            let finalValue := value.orElse (fun _ => fallbackValue)
            let h2 := match finalValue with
              | some fv =>
                if desiredLeft then
                  { h1 with
                    supportingTexts := [("topLeft", fv)], layout := some "left",
                    staggerLeft := some 0, staggerRight := none }
                else
                  { h1 with
                    supportingTexts := [("topRight", fv)], layout := some "right",
                    staggerRight := some 0, staggerLeft := none }
              | none => { h1 with layout := some (if desiredLeft then "left" else "right") }
            (h2, !st.sideToggle)
          else if layout == "dual" then
            let h2 :=
              if !supportingTexts.isEmpty then
                { h1 with
                  layout := some "dual", staggerLeft := some 0,
                  staggerRight := some (max 2 (ensureFloat h1.staggerRight 2)) }
              else h1
            (h2, st.sideToggle)
          else
            ({ h1 with
               layout := some "bottom", supportingTexts := [],
               staggerLeft := none, staggerRight := none }, st.sideToggle)
        let h3 := { next.1 with side := none }
        { highlights := st.highlights ++ [h3], injected := st.injected ++ [h3],
          existingStarts := st.existingStarts ++ [startTime], sideToggle := next.2 }

/-- One entry iteration of `augment_highlights_from_catalog`. -/
def catEntryStep (minGap : ℚ) (st : CatState) (p : ℕ × OverlayEntry) : CatState :=
  match p.2.elements with
  | none => st
  | some elements => elements.enum.foldl (catElemStep minGap p.1 p.2) st

/-- `augment_highlights_from_catalog`. -/
def augmentHighlightsFromCatalog (plan : Plan) (catalog : OverlayCatalog) (minGap : ℚ) :
    Plan × List Highlight :=
  let timeline :=
    match catalog.videoTimeline with
    | some t => if t.isEmpty then catalog.timeline.getD [] else t
    | none => catalog.timeline.getD []
  if timeline.isEmpty then (plan, [])
  else
    let existingStarts := plan.highlights.filterMap (fun h => h.start)
    let st := timeline.enum.foldl (catEntryStep minGap)
      ⟨plan.highlights, [], existingStarts, false⟩
    let finalHighlights :=
      if st.injected.isEmpty then st.highlights else sortHighlights st.highlights
    ({ plan with highlights := finalHighlights }, st.injected)

/-! ### Interval Aggregator (`aggregate_scene_for_segment`) -/

/-- One increment of a `collections.Counter` (insertion-ordered). -/
def counterAdd (c : List (String × ℕ)) (x : String) : List (String × ℕ) :=
  if (assocGet c x).isSome then
    c.map (fun p => if p.1 = x then (p.1, p.2 + 1) else p)
  else c ++ [(x, 1)]

/-- `Counter.update(xs)`. -/
def counterUpdate (c : List (String × ℕ)) (xs : List String) : List (String × ℕ) :=
  xs.foldl counterAdd c

/-- Stable descending insertion by count (ties keep first-seen order, as
Python's stable sort underlying `Counter.most_common` does). -/
def insertByCountDesc (x : String × ℕ) : List (String × ℕ) → List (String × ℕ)
  | [] => [x]
  | y :: ys => if y.2 ≥ x.2 then y :: insertByCountDesc x ys else x :: y :: ys

/-- `Counter.most_common(n)`: the `n` highest counts, ties in first-seen
order, keys only (the module always drops the counts). -/
def mostCommon (c : List (String × ℕ)) (n : ℕ) : List String :=
  ((c.foldl (fun acc x => insertByCountDesc x acc) []).take n).map Prod.fst

/-- The accumulators of the `aggregate_scene_for_segment` loop. -/
structure AggState where
  topicsCounter : List (String × ℕ)
  motionCandidates : List String
  tokensCounter : List (String × ℕ)
  sfxHintsCounter : List (String × ℕ)
  highlightScoreTotal : ℚ
  totalWeight : ℚ
  texts : List String
  ctaFlag : Bool
deriving DecidableEq

/-- One scene-record iteration of `aggregate_scene_for_segment`. -/
def aggStep (start endT : ℚ) (st : AggState) (scene : SceneRecord) : AggState :=
  let sceneStart := scene.start.getD 0
  let sceneEnd := scene.endTime.getD sceneStart
  let weight := overlapSeconds start endT sceneStart sceneEnd
  if weight ≤ 0 then st
  else
    let motion' := scene.motionCandidates.foldl (fun acc candidate =>
      let motionName := camelCaseMotion candidate
      if !(motionName == "") && !(acc.contains motionName) then acc ++ [motionName]
      else acc) st.motionCandidates
    { topicsCounter := counterUpdate st.topicsCounter scene.topics
      motionCandidates := motion'
      tokensCounter := counterUpdate st.tokensCounter scene.tokens
      sfxHintsCounter := counterUpdate st.sfxHintsCounter scene.sfxHints
      highlightScoreTotal := st.highlightScoreTotal + (scene.highlightScore.getD 0) * weight
      totalWeight := st.totalWeight + weight
      texts := st.texts ++ (match scene.textOneLine with
        | some t => if t == "" then [] else [t]
        | none => [])
      ctaFlag := st.ctaFlag || scene.cta }

/-- `aggregate_scene_for_segment`. -/
def aggregateSceneForSegment (planSegment : Segment) (sceneSegments : List SceneRecord) :
    Option SceneSummary :=
  let start := planSegment.sourceStart.getD 0
  let endT := start + planSegment.duration.getD 0
  if endT ≤ start then none
  else
    let st := sceneSegments.foldl (aggStep start endT) ⟨[], [], [], [], 0, 0, [], false⟩
    if st.totalWeight = 0 then none
    else
      let combinedText := joinSp st.texts
      let averagedHighlight :=
        if st.totalWeight ≠ 0 then st.highlightScoreTotal / st.totalWeight else 0
      some { start := start, endTime := endT,
             topics := mostCommon st.topicsCounter 6,
             highlight_score := averagedHighlight,
             motion_candidates := st.motionCandidates,
             tokens := mostCommon st.tokensCounter 24,
             text := combinedText,
             cta := st.ctaFlag,
             sfx_hints := mostCommon st.sfxHintsCounter 8 }

/-! ### B-roll Selector (`score_broll_item`, `select_broll`) -/

/-- De-duplicate keeping first occurrences (the distinct elements of a
Python `set(...)` built from a list). -/
def dedupKeepOrder (l : List String) : List String :=
  l.foldl (fun acc x => if acc.contains x then acc else acc ++ [x]) []

/-- Lexicographic (code-point) string order, as Python `sorted` uses. -/
def lexLeChars : List Char → List Char → Bool
  | [], _ => true
  | _ :: _, [] => false
  | a :: as, b :: bs => if a = b then lexLeChars as bs else decide (a < b)

/-- Python `sorted` on strings. -/
def sortStringsAsc (l : List String) : List String :=
  stableSortBy (fun a b => lexLeChars a.toList b.toList) l

/-- Python `str(list_of_str)`: `['a', 'b']` (as rendered into reasons). -/
def pyStrListRepr (l : List String) : String :=
  "[" ++ String.intercalate ", "
    (l.map (fun s => String.singleton apoC ++ s ++ String.singleton apoC)) ++ "]"

/-- `score_broll_item`. -/
def scoreBrollItem (item : BrollItem) (scene : SceneSummary) : ℚ × List String :=
  let itemTopics := item.topics.map lowerStr
  let sceneTopics := scene.topics.map lowerStr
  let topicOverlap := (dedupKeepOrder itemTopics).filter (fun t => sceneTopics.contains t)
  let score1 : ℚ := if !topicOverlap.isEmpty then (5/2) * (topicOverlap.length : ℚ) else 0
  let reasons1 : List String :=
    if !topicOverlap.isEmpty then
      ["topics match " ++ pyStrListRepr (sortStringsAsc topicOverlap)]
    else []
  let keywords := item.keywords.map lowerStr
  let tokenHits := (dedupKeepOrder scene.tokens).filter (fun t => keywords.contains t)
  let score2 := if !tokenHits.isEmpty then score1 + (tokenHits.length : ℚ) else score1
  let reasons2 :=
    if !tokenHits.isEmpty then
      reasons1 ++ ["keywords hit " ++ pyStrListRepr (sortStringsAsc tokenHits)]
    else reasons1
  let moods := item.mood.map lowerStr
  let moodBoost := decide (scene.highlight_score ≥ 7/10) && !moods.isEmpty
  let score3 := if moodBoost then score2 + 2/5 else score2
  let reasons3 := if moodBoost then reasons2 ++ ["highlight scene prefers mood assets"] else reasons2
  let score4 := if item.mediaType == some "video" then score3 + 3/10 else score3
  let score5 := if item.orientation == some "landscape" then score4 + 1/10 else score4
  (score5, if reasons3.isEmpty then ["fallback"] else reasons3)

/-- The result shape of `select_broll`
(`{"id", "file", "confidence", "reasons", "mediaType", "orientation"}`). -/
structure BrollChoice where
  id : Option String
  file : Option String
  confidence : ℚ
  reasons : List String
  mediaType : Option String
  orientation : Option String
deriving DecidableEq

/-- `select_broll`: duration filter, strict-greater max scoring, threshold
and high-impact (`highlight_score ≥ 0.6`) gates. -/
def selectBroll (scene : SceneSummary) (catalog : BrollCatalog) (threshold : ℚ) :
    Option BrollChoice :=
  let items := catalog.items
  if items.isEmpty then none
  else
    let filteredItems := items.filter (fun item =>
      decide ((item.duration.getD 0) ≥ scene.duration * (8/10)))
    if filteredItems.isEmpty then none
    else
      let best := filteredItems.foldl (fun acc item =>
        let scored := scoreBrollItem item scene
        if decide (scored.1 > acc.2.1) then (some item, scored.1, scored.2) else acc)
        ((none : Option BrollItem), (0 : ℚ), ([] : List String))
      match best.1 with
      | none => none
      | some bestItem =>
        if decide (best.2.1 < threshold) || decide (scene.highlight_score < 3/5) then none
        else some { id := bestItem.id, file := bestItem.file,
                    confidence := pyRound2 best.2.1, reasons := best.2.2,
                    mediaType := bestItem.mediaType, orientation := bestItem.orientation }

/-! ### Motion-Cue Assigner -/

/-- `math.ceil` on rationals, kernel-computable. -/
def ceilQ (x : ℚ) : ℤ := -(floorQ (-x))

/-- The `max_segments` budget computed at the top of `select_motion_cue`:
`ceil(total * frequency)` when `frequency > 0`, otherwise `total` itself. -/
def motionBudget (motionRules : MotionRules) (totalSegments : ℕ) : ℤ :=
  let frequency := motionRules.motion_frequency.getD 0
  if frequency > 0 then ceilQ ((totalSegments : ℚ) * frequency) else (totalSegments : ℤ)

/-- `select_motion_cue` (the scene-driven entry point). -/
def selectMotionCue (scene : SceneSummary) (motionRules : MotionRules)
    (assignedSoFar : ℤ) (totalSegments : ℕ) : Option String :=
  if assignedSoFar ≥ motionBudget motionRules totalSegments then none
  else
    match scene.motion_candidates with
    | c :: _ => some c
    | [] =>
      if scene.highlight_score ≥ motionRules.highlight_rate.getD 0 then some "zoomIn"
      else if scene.highlight_score ≥ 2/5 ∧ scene.duration > 5 then some "pan"
      else if scene.highlight_score < 2/5 ∧ scene.duration > 3 then some "zoomOut"
      else none

/-! ### CTA Ensurer (`ensure_cta_highlight`) -/

/-- The guard of `ensure_cta_highlight`: does a highlight already look like
a CTA (its id contains `"cta"`, case-insensitively, or its type is
`"cta"`)? -/
def looksLikeCta (h : Highlight) : Bool :=
  strContainsSub (lowerStr (h.id.getD "")) "cta" || h.type == some "cta"

/-- The applause search within one SFX category (first matching item). -/
def findApplauseInCat (category : SfxCategory) : Option String :=
  (category.items.find? (fun item => strContainsSub (item.id.getD "") "applause")).map
    (fun item =>
      match item.file with
      | some f =>
        if f == "" then "assets/sfx/" ++ fmtOptStr category.id ++ "/" ++ fmtOptStr item.id
        else f
      | none => "assets/sfx/" ++ fmtOptStr category.id ++ "/" ++ fmtOptStr item.id)

/-- The applause search of `ensure_cta_highlight` (first category wins). -/
def findApplause : Option SfxCatalog → Option String
  | none => none
  | some cat => (cat.categories.filterMap findApplauseInCat).head?

/-- `ensure_cta_highlight`. -/
def ensureCtaHighlight (plan : Plan) (ctaCandidates : List (Segment × SceneSummary))
    (sfxCatalog : Option SfxCatalog) : Plan :=
  if plan.highlights.any looksLikeCta then plan
  else match ctaCandidates.getLast? with
  | none => plan
  | some cand =>
    let segment := cand.1
    let scene := cand.2
    let start := max scene.start (segment.sourceStart.getD 0)
    let duration := max (5/2) (min 5 (segment.duration.getD 4))
    let highlightStart := max start (start + segment.duration.getD duration - 3)
    let applauseSfx := findApplause sfxCatalog
    { plan with
      highlights := plan.highlights ++ [{ emptyHighlight with
        id := some "cta_subscribe", type := some "sectionTitle",
        text := some "Dang ky kenh de nhan video moi!",
        start := some (pyRound2 highlightStart), duration := some (pyRound2 duration),
        position := some "center", animation := some "float", variant := some "brand",
        sfx := some (applauseSfx.getD "assets/sfx/emotion/applause.mp3"),
        volume := some (7/10) }] }

/-! ### Timing Validator (`compute_timing_warnings`) -/

/-- `compute_timing_warnings`: one warning per out-of-tolerance consecutive
pair, read-only. -/
def computeTimingWarnings : List Segment → ℚ → List TimingWarning
  | [], _ => []
  | [_], _ => []
  | prev :: current :: rest, tolerance =>
    let prevEnd := prev.sourceStart.getD 0 + prev.duration.getD 0
    let gap := current.sourceStart.getD 0 - prevEnd
    (if gap > tolerance then [TimingWarning.gap gap prev.id current.id]
     else if gap < -tolerance then [TimingWarning.overlap (-gap) prev.id current.id]
     else []) ++ computeTimingWarnings (current :: rest) tolerance

/-! ### Trim-to-plan-bounds (`trim_highlights_to_segments`) -/

/-- `trim_highlights_to_segments`. -/
def trimHighlightsToSegments (plan : Plan) (margin : ℚ) : Plan :=
  if plan.segments.isEmpty || plan.highlights.isEmpty then plan
  else
    let latestEnd := plan.segments.foldl (fun acc segment =>
      let start := segment.sourceStart.getD 0
      let duration := segment.duration.getD 0
      max acc (start + max 0 duration)) 0
    let cutoff := latestEnd + margin
    let trimmed := plan.highlights.filter (fun h =>
      match h.start with
      | some s => decide (s ≤ cutoff)
      | none => false)
    { plan with highlights := sortHighlights trimmed }

/-! ### Highlight-driven B-roll pass (`ensure_broll_from_highlights`) -/

/-- `match_broll_id`: first rule whose keyword set hits the lowered text. -/
def matchBrollId (text : String) : Option String :=
  let lowered := lowerStr text
  (BROLL_RULES.find? (fun rule =>
    rule.1.any (fun keyword => strContainsSub lowered keyword))).map Prod.snd

/-- `locate_segment`: index of the first segment containing the timecode. -/
def locateSegmentIdx (segments : List Segment) (timecode : ℚ) : Option ℕ :=
  segments.findIdx? (fun segment =>
    let start := segment.sourceStart.getD 0
    let endT := start + segment.duration.getD 0
    decide (start ≤ timecode) && decide (timecode ≤ endT))

/-- Lookup in `catalog_items = {item["id"]: item}` (later duplicates win,
so the last matching item is returned). -/
def lookupCatalogItem (items : List BrollItem) (brollId : String) : Option BrollItem :=
  items.reverse.find? (fun item => item.id == some brollId)

/-- One highlight iteration of `ensure_broll_from_highlights`; the state is
the segment list plus the per-run `assigned_counts`. -/
def ensureBrollStep (catalogItems : List BrollItem)
    (st : List Segment × List (String × ℕ)) (highlight : Highlight) :
    List Segment × List (String × ℕ) :=
  match highlight.start with
  | none => st
  | some start =>
    match locateSegmentIdx st.1 start with
    | none => st
    | some idx =>
      match st.1.get? idx with
      | none => st
      | some segment =>
        if segment.broll.isSome then st
        else
          let textSources := [highlight.keyword.getD ""] ++ highlight.supportingTexts.map Prod.snd
          let fullText := joinSp (textSources.filter (fun s => !(s == "")))
          if fullText == "" then st
          else match matchBrollId fullText with
          | none => st
          | some brollId =>
            if ((assocGet st.2 brollId).getD 0) ≥ MAX_BROLL_REUSE then st
            else match lookupCatalogItem catalogItems brollId with
            | none => st
            | some item =>
              let reasons := (item.id.bind (assocGet BROLL_REASONS)).getD
                ["Highlight keyword match"]
              let brollA : BrollAssignment :=
                { id := item.id, file := item.file, mode := "full",
                  confidence := 3, reasons := reasons }
              let notesFiltered := segment.notes.filter (fun note =>
                !(leadsWith (lowerStr note).toList "no b-roll match".toList))
              let noteText := (item.id.bind (assocGet BROLL_NOTES)).getD
                ("B-roll injected via highlight keyword: " ++ fmtOptStr item.id)
              let notes' :=
                if notesFiltered.contains noteText then notesFiltered
                else notesFiltered ++ [noteText]
              let segment' := { segment with broll := some brollA, notes := notes' }
              (st.1.set idx segment', counterAdd st.2 brollId)

/-- `ensure_broll_from_highlights` (`none` models an absent or empty
`broll_catalog`). -/
def ensureBrollFromHighlights (plan : Plan) (brollCatalog : Option BrollCatalog) : Plan :=
  match brollCatalog with
  | none => plan
  | some catalog =>
    if catalog.items.isEmpty then plan
    else if plan.segments.isEmpty then plan
    else if plan.highlights.isEmpty then plan
    else
      let res := plan.highlights.foldl (ensureBrollStep catalog.items) (plan.segments, [])
      { plan with segments := res.1 }

/-! ### Highlight-driven motion pass (`ensure_motion_from_highlights`) -/

/-- Python truthiness of an optional string (`None`/`""` are falsy). -/
def optStrTruthy : Option String → Bool
  | some s => !(s == "")
  | none => false

/-- First truthy value of an `or`-chain over optional strings, else `""`. -/
def firstTruthyStr (opts : List (Option String)) : String :=
  match opts.filterMap (fun o => match o with
    | some s => if s == "" then none else some s
    | none => none) with
  | s :: _ => s
  | [] => ""

/-- The highlight loop of `ensure_motion_from_highlights` (explicit
recursion: the loop can `break` when over budget). -/
def ensureMotionGo (motionRules : MotionRules) (maxMotions : ℤ) :
    List Highlight → List Segment → ℤ → Option String → List Segment × ℤ × Option String
  | [], segments, assigned, lastMotion => (segments, assigned, lastMotion)
  | highlight :: rest, segments, assigned, lastMotion =>
    match highlight.start with
    | none => ensureMotionGo motionRules maxMotions rest segments assigned lastMotion
    | some start =>
      match locateSegmentIdx segments start with
      | none => ensureMotionGo motionRules maxMotions rest segments assigned lastMotion
      | some idx =>
        match segments.get? idx with
        | none => ensureMotionGo motionRules maxMotions rest segments assigned lastMotion
        | some segment =>
          let existingCue := segment.motionCue
          let cueTruthy := optStrTruthy existingCue
          if decide (assigned ≥ maxMotions) && !cueTruthy then (segments, assigned, lastMotion)
          else
            let textParts := [highlight.keyword.getD ""] ++ highlight.supportingTexts.map Prod.snd
            let combinedText := lowerStr (joinSp (textParts.filter (fun s => !(s == ""))))
            let animationHint := lowerStr (highlight.animation.getD "")
            let zoomOutHit := motionRules.zoom_out_keywords.any
              (fun w => strContainsSub combinedText w)
            let hasNumber := combinedText.toList.any Char.isDigit
            let motionStr : String :=
              if highlight.importance == some "primary" then
                if zoomOutHit && (lastMotion == some "zoomIn") then "zoomOut"
                else if hasNumber then "zoomIn"
                else if lastMotion == some "zoomIn" then "zoomOut"
                else "zoomIn"
              else if hasNumber then "zoomIn"
              else if MOTION_ZOOM_IN_KEYWORDS.any (fun k => strContainsSub combinedText k) then
                "zoomIn"
              else if MOTION_ANIMATION_HINTS.contains animationHint then "zoomIn"
              else if zoomOutHit then "zoomOut"
              else
                match existingCue with
                | some c =>
                  if ALLOWED_MOTIONS.contains c then c
                  else if lastMotion == some "zoomIn" then "zoomOut" else "zoomIn"
                | none => if lastMotion == some "zoomIn" then "zoomOut" else "zoomIn"
            -- `if not motion: continue` (motion is always a non-empty literal here,
            -- but the check is transcribed)
            if motionStr == "" then
              ensureMotionGo motionRules maxMotions rest segments assigned lastMotion
            else
              let doContinue : Bool :=
                if cueTruthy then
                  match existingCue with
                  | some c =>
                    if c == motionStr then true
                    else if !(ALLOWED_MOTIONS.contains c) && ALLOWED_MOTIONS.contains motionStr
                      then false
                    else if ALLOWED_MOTIONS.contains c && !(motionStr == c) then false
                    else true
                  | none => true
                else false
              if doContinue then
                ensureMotionGo motionRules maxMotions rest segments assigned lastMotion
              else
                let notesFiltered := segment.notes.filter (fun note =>
                  !(leadsWith (lowerStr note).toList "motion cue assigned".toList))
                let description := trimStr
                  (firstTruthyStr [highlight.text, highlight.keyword, highlight.title])
                let gist :=
                  if description == "" then "highlight context"
                  else "\"" ++ description ++ "\""
                let noteText := "Motion cue: " ++ motionStr ++ " emphasises " ++ gist ++ "."
                let notes' :=
                  if notesFiltered.contains noteText then notesFiltered
                  else notesFiltered ++ [noteText]
                let segment' := { segment with notes := notes', motionCue := some motionStr }
                let segments' := segments.set idx segment'
                let assigned' := if !cueTruthy then assigned + 1 else assigned
                ensureMotionGo motionRules maxMotions rest segments' assigned' (some motionStr)

/-- `ensure_motion_from_highlights`.  With `motion_rules` absent the source
substitutes `{}` and *continues* (default frequency 0.5). -/
def ensureMotionFromHighlights (plan : Plan) (motionRules : Option MotionRules) : Plan :=
  let rules := motionRules.getD
    { motion_frequency := none, highlight_rate := none, zoom_out_keywords := [] }
  if plan.segments.isEmpty || plan.highlights.isEmpty then plan
  else
    let maxMotions : ℤ :=
      max 1 (ceilQ ((plan.segments.length : ℚ) * (rules.motion_frequency.getD (1/2))))
    let assigned : ℤ :=
      ((plan.segments.filter (fun s => optStrTruthy s.motionCue)).length : ℤ)
    let res := ensureMotionGo rules maxMotions plan.highlights plan.segments assigned none
    { plan with segments := res.1 }

/-! ### Main enrichment workflow (`enrich_plan`) -/

/-- The B-roll block of the `enrich_plan` segment loop (`if broll_catalog:`
— an absent/empty catalog dict skips the block). -/
def enrichBrollSub (brollCatalog : Option BrollCatalog) (brollThreshold : ℚ)
    (sceneSummary : SceneSummary) (segment : Segment) : Segment × List String :=
  match brollCatalog with
  | some catalog =>
    match selectBroll sceneSummary catalog brollThreshold with
    | some broll =>
      ({ segment with
         broll := some { id := broll.id, file := broll.file, mode := "full",
                         confidence := broll.confidence, reasons := broll.reasons } },
       ["B-roll assigned: " ++ fmtOptStr broll.id ++ " (" ++
        String.intercalate ", " broll.reasons ++ ")"])
    | none => (segment, ["No B-roll match above threshold."])
  | none => (segment, [])

/-- The motion block of the `enrich_plan` segment loop (`if motion_rules:` —
absent/empty rules skip the block; `if motion_cue:` guards the
assignment). -/
def enrichMotionSub (motionRules : Option MotionRules) (sceneSummary : SceneSummary)
    (assigned : ℤ) (totalSegments : ℕ) (segment : Segment) (notes : List String) :
    Segment × ℤ × List String :=
  match motionRules with
  | some rules =>
    match selectMotionCue sceneSummary rules assigned totalSegments with
    | some motionCue =>
      if motionCue == "" then (segment, assigned, notes)
      else ({ segment with motionCue := some motionCue }, assigned + 1,
            notes ++ ["Motion cue assigned: " ++ motionCue])
    | none => (segment, assigned, notes)
  | none => (segment, assigned, notes)

/-- The SFX-hints block of the `enrich_plan` segment loop. -/
def enrichSfxSub (sceneSummary : SceneSummary) (segment : Segment) (notes : List String) :
    Segment × List String :=
  if !sceneSummary.sfx_hints.isEmpty && segment.sfxHints == none then
    ({ segment with sfxHints := some sceneSummary.sfx_hints },
     notes ++ ["SFX hints propagated: " ++ String.intercalate ", " sceneSummary.sfx_hints])
  else (segment, notes)

/-- One segment iteration of the first (scene-driven) pass of `enrich_plan`.
The state is `(processed segments, assigned_motion, cta_candidates)`. -/
def enrichSegStep (brollCatalog : Option BrollCatalog) (motionRules : Option MotionRules)
    (brollThreshold : ℚ) (sceneSegments : List SceneRecord) (totalSegments : ℕ)
    (st : List Segment × ℤ × List (Segment × SceneSummary)) (segment0 : Segment) :
    List Segment × ℤ × List (Segment × SceneSummary) :=
  let segment := { segment0 with kind := some (segment0.kind.getD "normal") }
  match aggregateSceneForSegment segment sceneSegments with
  | none =>
    let segment' := { segment with
      notes := segment.notes ++ ["No matching scene metadata; skipped B-roll and motion cue."] }
    (st.1 ++ [segment'], st.2.1, st.2.2)
  | some sceneSummary =>
    let brollStep := enrichBrollSub brollCatalog brollThreshold sceneSummary segment
    let motionStep := enrichMotionSub motionRules sceneSummary st.2.1 totalSegments
      brollStep.1 brollStep.2
    let sfxStep := enrichSfxSub sceneSummary motionStep.1 motionStep.2.2
    let segment3 := sfxStep.1
    let notes3 := sfxStep.2
    let segment4 :=
      if notes3.isEmpty then segment3 else { segment3 with notes := segment3.notes ++ notes3 }
    let cta' :=
      if sceneSummary.cta then st.2.2 ++ [(segment4, sceneSummary)] else st.2.2
    (st.1 ++ [segment4], motionStep.2.1, cta')

/-- `enrich_plan` (the caller passes `scene_map.get("segments") or []` as
`sceneSegments`).  Returns the mutated plan and the timing warnings. -/
def enrichPlan (plan : Plan) (sceneSegments : List SceneRecord)
    (brollCatalog : Option BrollCatalog) (sfxCatalog : Option SfxCatalog)
    (motionRules : Option MotionRules) (brollThreshold : ℚ) :
    Plan × List TimingWarning :=
  let segments := plan.segments
  let totalSegments := segments.length
  let res := segments.foldl
    (enrichSegStep brollCatalog motionRules brollThreshold sceneSegments totalSegments)
    ([], 0, [])
  let plan1 := { plan with segments := res.1 }
  let plan2 := ensureCtaHighlight plan1 res.2.2 sfxCatalog
  let warnings := computeTimingWarnings res.1 (5/100)
  let plan3 :=
    if warnings.isEmpty then plan2
    else match plan2.metaWarnings with
      | some _ => plan2
      | none => { plan2 with metaWarnings := some warnings }
  (plan3, warnings)

/-! ### Specification-side definitions

These render the spec's wording (not the code's) and are compared with the
embedded code in the theorems below. -/

/-- Spec §4.1: the total aggregation weight of a segment over a scene-record
list — the sum of `max(0, min(ends) - max(starts))` over all records. -/
def totalOverlapWeight (seg : Segment) (scenes : List SceneRecord) : ℚ :=
  let s := seg.sourceStart.getD 0
  let e := s + seg.duration.getD 0
  (scenes.map (fun sc =>
    let scStart := sc.start.getD 0
    overlapSeconds s e scStart (sc.endTime.getD scStart))).sum

/-- Spec §4.1: the overlap-weighted sum of record highlight scores. -/
def weightedScoreSum (seg : Segment) (scenes : List SceneRecord) : ℚ :=
  let s := seg.sourceStart.getD 0
  let e := s + seg.duration.getD 0
  (scenes.map (fun sc =>
    let scStart := sc.start.getD 0
    (sc.highlightScore.getD 0) * overlapSeconds s e scStart (sc.endTime.getD scStart))).sum

/-- The `start` of a highlight, reading absent as 0 (for stating window
properties of inserted highlights, which always carry a start). -/
def startOf (h : Highlight) : ℚ := h.start.getD 0

/-- The `duration` of a highlight, reading absent as 0. -/
def durOf (h : Highlight) : ℚ := h.duration.getD 0

/-- The temporal overlap of two highlights' `[start, start+duration)`
windows. -/
def overlapW (a b : Highlight) : ℚ :=
  overlapSeconds (startOf a) (startOf a + durOf a) (startOf b) (startOf b + durOf b)

/-- A highlight inserted by the subtitle pass always carries a numeric
start and a positive numeric duration. -/
def injOk (h : Highlight) : Prop :=
  ∃ v d, h.start = some v ∧ h.duration = some d ∧ 0 < d

/-- The (amended) pairwise separation guarantee for subtitle-pass
insertions: stored windows overlap by at most 0.015 s (rounding slack of
the stored start and duration) and stored starts differ by more than
`min_gap − 0.01`. -/
def srtPairOk (minGap : ℚ) (a b : Highlight) : Prop :=
  overlapW a b ≤ 3/200 ∧ minGap - 1/100 < |startOf b - startOf a|

/-- Facts about every raw candidate token of `select_keyword_phrase`: a
nonempty token of alnum-or-apostrophe characters that passed the
stop-word filter. -/
def rawGood (t : String) : Prop :=
  t.toList ≠ [] ∧ (∀ c ∈ t.toList, isAlnumApos c = true) ∧
  (STOP_WORDS.contains (normTok t) && !(IMPORTANT_SHORT_TOKENS.contains (normTok t))) = false

/-- Facts about every keyword of a produced phrase: nonempty,
whitespace-free and never the bare stop-word `THE`. -/
def kwGood (k : String) : Prop :=
  k ≠ "THE" ∧ k.toList ≠ [] ∧ ∀ c ∈ k.toList, isWsCh c = false

/-- Spec §4.8: classification of one consecutive segment pair — a gap
warning when `gap > tolerance`, an overlap warning when `gap < -tolerance`,
nothing otherwise. -/
def classifyTimingPair (tolerance : ℚ) (p : Segment × Segment) : Option TimingWarning :=
  let gap := p.2.sourceStart.getD 0 - (p.1.sourceStart.getD 0 + p.1.duration.getD 0)
  if gap > tolerance then some (TimingWarning.gap gap p.1.id p.2.id)
  else if gap < -tolerance then some (TimingWarning.overlap (-gap) p.1.id p.2.id)
  else none

/-- Spec §4.8 rendered as a whole: exactly the out-of-tolerance consecutive
pairs produce a warning, in order. -/
def timingWarningsSpec (segments : List Segment) (tolerance : ℚ) : List TimingWarning :=
  (segments.zip segments.tail).filterMap (classifyTimingPair tolerance)

/-- The source-timeline content end of a segment,
`sourceStart + max(0, duration)` (claim C10's per-segment bound). -/
def segContentEnd (s : Segment) : ℚ := s.sourceStart.getD 0 + max 0 (s.duration.getD 0)

/-- Does the segment carry a `broll` with the given catalog id? -/
def segHasBrollId (s : Segment) (x : String) : Bool :=
  match s.broll with
  | some b => b.id == some x
  | none => false

/-- Ascending-by-start comparison used to state the ordering invariant. -/
def startLe (a b : Highlight) : Prop := highlightSortKey a ≤ highlightSortKey b

instance startLeDec : DecidableRel startLe :=
  fun a b => inferInstanceAs (Decidable (highlightSortKey a ≤ highlightSortKey b))

/-! ### Concrete inputs for witnesses and counterexamples -/

/-- C1 witness: the spec's worked example segment `[10, 20)`. -/
def c1Seg : Segment := { emptySegment with sourceStart := some 10, duration := some 10 }

/-- C1 witness: record `[12, 16)` with highlight score 0.8. -/
def c1Rec1 : SceneRecord :=
  { start := some 12, endTime := some 16, topics := [], highlightScore := some (4/5),
    motionCandidates := [], tokens := [], sfxHints := [], cta := false, textOneLine := none }

/-- C1 witness: record `[18, 25)` with highlight score 0.2. -/
def c1Rec2 : SceneRecord :=
  { start := some 18, endTime := some 25, topics := [], highlightScore := some (1/5),
    motionCandidates := [], tokens := [], sfxHints := [], cta := false, textOneLine := none }

/-- C2 counterexample: a highlight starting at 5. -/
def c2H5 : Highlight := { emptyHighlight with id := some "h5", start := some 5 }

/-- C2 counterexample: a highlight starting at 1. -/
def c2H1 : Highlight := { emptyHighlight with id := some "h1", start := some 1 }

/-- C2 counterexample: a plan whose highlight list is not sorted. -/
def c2Plan : Plan := { segments := [], highlights := [c2H5, c2H1], metaWarnings := none }

/-- C2 counterexample: an overlay catalog with no timeline at all. -/
def c2Catalog : OverlayCatalog := { videoTimeline := none, timeline := none }

/-- C2 witness: an overlay element that yields a highlight. -/
def c2Element : OverlayElement :=
  { type := some "text_overlay", content := ContentVal.str "epstein barr virus",
    durationSeconds := none, duration := none, length := none }

/-- C2 witness: an overlay entry at 5 s holding `c2Element`. -/
def c2Entry : OverlayEntry :=
  { timestamp := some (TsVal.num 5), script := none, text := none,
    elements := some [c2Element], durationSeconds := none, duration := none, length := none }

/-- C2 witness: a catalog whose timeline injects one highlight. -/
def c2GoodCatalog : OverlayCatalog := { videoTimeline := some [c2Entry], timeline := none }

/-- C2 witness: an overlay entry at 20 s (clear of both existing starts). -/
def c2FarEntry : OverlayEntry :=
  { timestamp := some (TsVal.num 20), script := none, text := none,
    elements := some [c2Element], durationSeconds := none, duration := none, length := none }

/-- C2 witness: a catalog whose single entry injects into `c2Plan`. -/
def c2FarCatalog : OverlayCatalog := { videoTimeline := some [c2FarEntry], timeline := none }

/-- C2/C3: an empty plan. -/
def emptyPlan : Plan := { segments := [], highlights := [], metaWarnings := none }

/-- C3 counterexample: subtitle block `00:00:09,250 --> 00:00:11,250`. -/
def c3E1 : SrtEntry :=
  { index := 1, start := 9.25, endTime := 11.25, duration := 2,
    text := "Epstein-Barr virus mononucleosis" }

/-- C3 counterexample: subtitle block `00:00:07,375 --> 00:00:09,250`
(all times exactly representable in binary floating point, so the embedded
run and the Python run round identically). -/
def c3E2 : SrtEntry :=
  { index := 2, start := 7.375, endTime := 9.25, duration := 1.875,
    text := "Epstein-Barr kissing disease" }

/-- C4: segment 1 of the frequency-zero counterexample. -/
def c4Seg1 : Segment :=
  { emptySegment with id := some "s1", sourceStart := some 0, duration := some 5 }

/-- C4: segment 2 of the frequency-zero counterexample. -/
def c4Seg2 : Segment :=
  { emptySegment with id := some "s2", sourceStart := some 5, duration := some 5 }

/-- C4: a scene record covering both segments with an explicit motion
candidate. -/
def c4Rec : SceneRecord :=
  { start := some 0, endTime := some 10, topics := [], highlightScore := some 0,
    motionCandidates := ["zoom-in"], tokens := [], sfxHints := [], cta := false,
    textOneLine := none }

/-- C4 counterexample: two segments, no cues assigned yet. -/
def c4Plan : Plan := { segments := [c4Seg1, c4Seg2], highlights := [], metaWarnings := none }

/-- C4 counterexample: motion rules with `motion_frequency = 0`. -/
def c4Rules : MotionRules :=
  { motion_frequency := some 0, highlight_rate := some 1, zoom_out_keywords := [] }

/-- C4 witness: ten contiguous 5-second segments. -/
def c4TenSegs : List Segment :=
  (List.range 10).map (fun i =>
    { emptySegment with sourceStart := some ((5 * i : ℕ) : ℚ), duration := some 5 })

/-- C4 witness: a ten-segment plan. -/
def c4TenPlan : Plan := { segments := c4TenSegs, highlights := [], metaWarnings := none }

/-- C4 witness: motion rules with `motion_frequency = 0.3`. -/
def c4Rules03 : MotionRules :=
  { motion_frequency := some (3/10), highlight_rate := some 0, zoom_out_keywords := [] }

/-- C4 witness: one scene record covering all ten segments, carrying an
explicit motion candidate so that every segment is eligible for a cue. -/
def c4WideRec : SceneRecord :=
  { start := some 0, endTime := some 50, topics := [], highlightScore := some 0,
    motionCandidates := ["zoom-in"], tokens := [], sfxHints := [], cta := false,
    textOneLine := none }

/-- C7 witness: five two-second segments, none carrying a B-roll. -/
def c7Segs : List Segment :=
  (List.range 5).map (fun i =>
    { emptySegment with sourceStart := some (((2 * i : ℕ) : ℚ)), duration := some 2 })

/-- C7 witness: five highlights, one per segment, all matching the
`business_strategy` keyword rule. -/
def c7Hls : List Highlight :=
  (List.range 5).map (fun i =>
    { emptyHighlight with
      start := some (((2 * i : ℕ) : ℚ) + 1)
      keyword := some "strategy" })

/-- C7 witness: the catalog item for `business_strategy`. -/
def c7Item : BrollItem :=
  { id := some "business_strategy", file := some "assets/broll/business_strategy.mp4",
    topics := [], keywords := [], mood := [], mediaType := none, orientation := none,
    duration := none }

/-- C7 witness: a catalog holding only `business_strategy`. -/
def c7Catalog : BrollCatalog := { items := [c7Item] }

/-- C7 witness: the five-segment, five-highlight plan. -/
def c7Plan : Plan := { segments := c7Segs, highlights := c7Hls, metaWarnings := none }

/-- C5 witness: a CTA candidate segment. -/
def c5Seg : Segment := { emptySegment with sourceStart := some 100, duration := some 4 }

/-- C5 witness: the candidate's scene summary (flagged `cta`). -/
def c5Scene : SceneSummary :=
  { start := 100, endTime := 104, topics := [], highlight_score := 1,
    motion_candidates := [], tokens := [], text := "", cta := true, sfx_hints := [] }

/-- C9 counterexample: one ten-second segment without a motion cue. -/
def c9Seg : Segment := { emptySegment with sourceStart := some 0, duration := some 10 }

/-- C9 counterexample: a primary highlight inside the segment. -/
def c9Hl : Highlight :=
  { emptyHighlight with
    start := some 1, duration := some 2,
    importance := some "primary", keyword := some "hello" }

/-- C9 counterexample plan. -/
def c9Plan : Plan := { segments := [c9Seg], highlights := [c9Hl], metaWarnings := none }

/-- C8: segment `{start: 0, duration: 5}`. -/
def c8SegA : Segment :=
  { emptySegment with id := some "a", sourceStart := some 0, duration := some 5 }

/-- C8: segment `{start: 5.2, duration: 3}`. -/
def c8SegB : Segment :=
  { emptySegment with id := some "b", sourceStart := some 5.2, duration := some 3 }

/-- C8: segment `{start: 4.8, duration: 3}`. -/
def c8SegC : Segment :=
  { emptySegment with id := some "c", sourceStart := some 4.8, duration := some 3 }

/-- C10 counterexample: a segment starting at −10 on the source timeline. -/
def c10Seg : Segment := { emptySegment with sourceStart := some (-10), duration := some 2 }

/-- C10 counterexample: a highlight at 0.2 s. -/
def c10Hl : Highlight := { emptyHighlight with id := some "x", start := some (1/5) }

/-- C10 counterexample plan. -/
def c10Plan : Plan := { segments := [c10Seg], highlights := [c10Hl], metaWarnings := none }

/-- C10 witness plan: one normal segment and two unsorted highlights, one
beyond the cutoff and one with a missing start. -/
def c10WPlan : Plan :=
  { segments := [{ emptySegment with sourceStart := some 0, duration := some 10 }],
    highlights :=
      [{ emptyHighlight with id := some "late", start := some 20 },
       { emptyHighlight with id := some "b", start := some 9 },
       { emptyHighlight with id := some "nostart", start := none },
       { emptyHighlight with id := some "a", start := some 1 }],
    metaWarnings := none }

/-- C5 witness: a plan that already contains a CTA-looking highlight. -/
def c5CtaPlan : Plan :=
  { segments := [],
    highlights := [{ emptyHighlight with id := some "cta_outro", type := some "sectionTitle" }],
    metaWarnings := none }

/-! ## Foundational lemmas -/

theorem floorQ_eq (x : ℚ) : floorQ x = ⌊x⌋ := by
  rw [Rat.floor_def]
  exact Int.fdiv_eq_ediv _ (Int.natCast_nonneg _)

theorem halfEvenRound_sub_le (x : ℚ) : |((halfEvenRound x : ℤ) : ℚ) - x| ≤ 1/2 := by
  simp only [halfEvenRound, floorQ_eq]
  have h1 : ((⌊x⌋ : ℤ) : ℚ) ≤ x := Int.floor_le x
  have h2 : x < (⌊x⌋ : ℤ) + 1 := Int.lt_floor_add_one x
  split_ifs with ha hb hc <;> rw [abs_le] <;> constructor <;> push_cast <;> linarith

theorem pyRound2_sub_le (x : ℚ) : |pyRound2 x - x| ≤ 1/200 := by
  have h := abs_le.mp (halfEvenRound_sub_le (100 * x))
  rw [abs_le]
  unfold pyRound2
  constructor
  · linarith [h.1]
  · linarith [h.2]

theorem pyRound2_ge (x : ℚ) : x - 1/200 ≤ pyRound2 x := by
  have h := (abs_le.mp (pyRound2_sub_le x)).1
  linarith

theorem pyRound2_le (x : ℚ) : pyRound2 x ≤ x + 1/200 := by
  have h := (abs_le.mp (pyRound2_sub_le x)).2
  linarith

theorem mem_stableInsert {α : Type} (le : α → α → Bool) (x a : α) :
    ∀ l : List α, a ∈ stableInsert le x l ↔ a = x ∨ a ∈ l := by
  intro l
  induction l with
  | nil => simp [stableInsert]
  | cons y ys ih =>
    unfold stableInsert
    by_cases h : le y x = true
    · rw [if_pos h]
      simp only [List.mem_cons, ih]
      tauto
    · rw [if_neg h]
      simp only [List.mem_cons]

theorem pairwise_stableInsert {α : Type} (le : α → α → Bool)
    (htrans : ∀ a b c, le a b = true → le b c = true → le a c = true)
    (htotal : ∀ a b, le a b = true ∨ le b a = true)
    (x : α) (l : List α) (hl : l.Pairwise (fun a b => le a b = true)) :
    (stableInsert le x l).Pairwise (fun a b => le a b = true) := by
  induction l with
  | nil => simp [stableInsert]
  | cons y ys ih =>
    rw [List.pairwise_cons] at hl
    obtain ⟨hy, hys⟩ := hl
    unfold stableInsert
    by_cases h : le y x = true
    · rw [if_pos h]
      rw [List.pairwise_cons]
      refine ⟨?_, ih hys⟩
      intro a ha
      rcases (mem_stableInsert le x a ys).mp ha with rfl | ha
      · exact h
      · exact hy a ha
    · rw [if_neg h]
      have hxy : le x y = true := by
        rcases htotal x y with h' | h'
        · exact h'
        · exact absurd h' h
      rw [List.pairwise_cons]
      refine ⟨?_, List.pairwise_cons.mpr ⟨hy, hys⟩⟩
      intro a ha
      rcases List.mem_cons.mp ha with rfl | ha
      · exact hxy
      · exact htrans x y a hxy (hy a ha)

theorem mem_stableSortBy {α : Type} (le : α → α → Bool) (a : α) :
    ∀ (l acc : List α), a ∈ l.foldl (fun acc x => stableInsert le x acc) acc ↔
      a ∈ acc ∨ a ∈ l := by
  intro l
  induction l with
  | nil => simp
  | cons x xs ih =>
    intro acc
    simp only [List.foldl_cons, ih, mem_stableInsert, List.mem_cons]
    tauto

theorem pairwise_stableSortBy {α : Type} (le : α → α → Bool)
    (htrans : ∀ a b c, le a b = true → le b c = true → le a c = true)
    (htotal : ∀ a b, le a b = true ∨ le b a = true) (l : List α) :
    (stableSortBy le l).Pairwise (fun a b => le a b = true) := by
  unfold stableSortBy
  suffices h : ∀ acc : List α, acc.Pairwise (fun a b => le a b = true) →
      (l.foldl (fun acc x => stableInsert le x acc) acc).Pairwise (fun a b => le a b = true) by
    exact h [] (by simp)
  induction l with
  | nil => intro acc hacc; simpa using hacc
  | cons x xs ih =>
    intro acc hacc
    exact ih _ (pairwise_stableInsert le htrans htotal x acc hacc)

theorem sortHighlights_sorted (l : List Highlight) :
    (sortHighlights l).Pairwise startLe := by
  have h := pairwise_stableSortBy
    (fun a b => decide (highlightSortKey a ≤ highlightSortKey b))
    (by
      intro a b c hab hbc
      simp only [decide_eq_true_eq] at hab hbc ⊢
      exact le_trans hab hbc)
    (by
      intro a b
      simp only [decide_eq_true_eq]
      exact le_total _ _) l
  exact h.imp (fun hab => of_decide_eq_true hab)

theorem mem_sortHighlights (a : Highlight) (l : List Highlight) :
    a ∈ sortHighlights l ↔ a ∈ l := by
  unfold sortHighlights stableSortBy
  simpa using mem_stableSortBy _ a l []

/-! ## Claim C8 — Timing Validator -/

theorem computeTimingWarnings_cons (a b : Segment) (t : List Segment) (tolerance : ℚ) :
    computeTimingWarnings (a :: b :: t) tolerance =
      (match classifyTimingPair tolerance (a, b) with
       | some w => [w]
       | none => []) ++ computeTimingWarnings (b :: t) tolerance := by
  conv_lhs => rw [computeTimingWarnings]
  unfold classifyTimingPair
  dsimp only
  split_ifs <;> rfl

theorem computeTimingWarnings_eq_spec (segments : List Segment) (tolerance : ℚ) :
    computeTimingWarnings segments tolerance = timingWarningsSpec segments tolerance := by
  induction segments with
  | nil => rfl
  | cons a t ih =>
    cases t with
    | nil => rfl
    | cons b t' =>
      have hspec : timingWarningsSpec (a :: b :: t') tolerance =
          (match classifyTimingPair tolerance (a, b) with
           | some w => [w]
           | none => []) ++ timingWarningsSpec (b :: t') tolerance := by
        unfold timingWarningsSpec
        simp only [List.tail_cons, List.zip_cons_cons, List.filterMap_cons]
        cases classifyTimingPair tolerance (a, b) <;> simp
      rw [computeTimingWarnings_cons, hspec, ih]

/-- C8: for every segment list, the timing validator computes
`gap = next.sourceStart - (prev.sourceStart + prev.duration)` for each
consecutive pair and emits exactly one warning per out-of-tolerance pair —
a gap warning when `gap > tolerance`, an overlap warning when
`gap < -tolerance`, nothing otherwise (`timingWarningsSpec` is that
pair-by-pair description); on `[{start:0,duration:5},{start:5.2,duration:3}]`
with tolerance 0.05 it emits exactly one gap warning for 0.2 s, and on
`[{start:0,duration:5},{start:4.8,duration:3}]` exactly one overlap warning
for 0.2 s.  The embedded validator is a pure function of the segments, so it
mutates nothing. -/
theorem C8_timing_validator :
    (∀ (segments : List Segment) (tolerance : ℚ),
      computeTimingWarnings segments tolerance = timingWarningsSpec segments tolerance) ∧
    computeTimingWarnings [c8SegA, c8SegB] (5/100) =
      [TimingWarning.gap (1/5) (some "a") (some "b")] ∧
    computeTimingWarnings [c8SegA, c8SegC] (5/100) =
      [TimingWarning.overlap (1/5) (some "a") (some "c")] :=
  ⟨computeTimingWarnings_eq_spec, by decide, by decide⟩

/-! ## Claim C10 — trim-to-plan-bounds -/

theorem trim_latestEnd_eq (segments : List Segment) :
    segments.foldl (fun acc segment =>
      max acc (segment.sourceStart.getD 0 + max 0 (segment.duration.getD 0))) (0 : ℚ) =
    (segments.map segContentEnd).foldl max 0 := by
  rw [List.foldl_map]
  rfl

/-- C10 (amended): after the trim pass on a plan with at least one segment
and at least one highlight, every remaining highlight has a numeric start at
most `max(0, max over segments of sourceStart + max(0, duration)) + margin`
— the maximum is seeded with 0, which is the amendment — highlights with a
missing start are removed, and the remaining list is sorted ascending by
start. -/
theorem C10_trim_bounds (plan : Plan) (margin : ℚ)
    (hseg : plan.segments ≠ []) (hhl : plan.highlights ≠ []) :
    (∀ h ∈ (trimHighlightsToSegments plan margin).highlights,
       ∃ v, h.start = some v ∧ v ≤ (plan.segments.map segContentEnd).foldl max 0 + margin) ∧
    (trimHighlightsToSegments plan margin).highlights.Pairwise startLe := by
  have hseg' : plan.segments.isEmpty = false := by
    cases h : plan.segments with
    | nil => exact absurd h hseg
    | cons a t => simp [h]
  have hhl' : plan.highlights.isEmpty = false := by
    cases h : plan.highlights with
    | nil => exact absurd h hhl
    | cons a t => simp [h]
  unfold trimHighlightsToSegments
  rw [hseg', hhl']
  simp only [Bool.false_or, if_neg (by simp : ¬ (false = true))]
  constructor
  · intro h hmem
    rw [mem_sortHighlights] at hmem
    rw [List.mem_filter] at hmem
    obtain ⟨_, hcond⟩ := hmem
    cases hstart : h.start with
    | none => rw [hstart] at hcond; exact absurd hcond (by simp)
    | some v =>
      refine ⟨v, rfl, ?_⟩
      rw [hstart] at hcond
      simp only [decide_eq_true_eq] at hcond
      rw [trim_latestEnd_eq] at hcond
      exact hcond
  · exact sortHighlights_sorted _

/-- C10 witness: the amended bound and the ordering hold on a concrete
four-highlight plan. -/
theorem C10_trim_bounds_witness :
    (∀ h ∈ (trimHighlightsToSegments c10WPlan (1/4)).highlights,
       ∃ v, h.start = some v ∧
         v ≤ (c10WPlan.segments.map segContentEnd).foldl max 0 + 1/4) ∧
    (trimHighlightsToSegments c10WPlan (1/4)).highlights.Pairwise startLe :=
  C10_trim_bounds c10WPlan (1/4) (by decide) (by decide)

/-! ## Claim C1 — Interval Aggregator -/

theorem overlapSeconds_nonneg (a b c d : ℚ) : 0 ≤ overlapSeconds a b c d :=
  le_max_left 0 _

theorem overlapSeconds_eq_zero_of_degenerate (a b c d : ℚ) (h : b ≤ a) :
    overlapSeconds a b c d = 0 := by
  unfold overlapSeconds
  rw [max_eq_left]
  have h1 : min b d ≤ b := min_le_left _ _
  have h2 : a ≤ max a c := le_max_left _ _
  linarith

theorem aggStep_totals (start endT : ℚ) (st : AggState) (sc : SceneRecord) :
    (aggStep start endT st sc).totalWeight = st.totalWeight +
      overlapSeconds start endT (sc.start.getD 0) (sc.endTime.getD (sc.start.getD 0)) ∧
    (aggStep start endT st sc).highlightScoreTotal = st.highlightScoreTotal +
      (sc.highlightScore.getD 0) *
        overlapSeconds start endT (sc.start.getD 0) (sc.endTime.getD (sc.start.getD 0)) := by
  unfold aggStep
  dsimp only
  split_ifs with h
  · have h0 : overlapSeconds start endT (sc.start.getD 0) (sc.endTime.getD (sc.start.getD 0)) = 0 :=
      le_antisymm h (overlapSeconds_nonneg _ _ _ _)
    rw [h0]
    constructor <;> ring
  · constructor <;> rfl

theorem aggFold_totals (start endT : ℚ) (scenes : List SceneRecord) :
    ∀ st : AggState,
    (scenes.foldl (aggStep start endT) st).totalWeight = st.totalWeight +
      (scenes.map (fun sc =>
        overlapSeconds start endT (sc.start.getD 0) (sc.endTime.getD (sc.start.getD 0)))).sum ∧
    (scenes.foldl (aggStep start endT) st).highlightScoreTotal = st.highlightScoreTotal +
      (scenes.map (fun sc => (sc.highlightScore.getD 0) *
        overlapSeconds start endT (sc.start.getD 0) (sc.endTime.getD (sc.start.getD 0)))).sum := by
  induction scenes with
  | nil => intro st; simp
  | cons sc rest ih =>
    intro st
    have hstep := aggStep_totals start endT st sc
    have hrec := ih (aggStep start endT st sc)
    simp only [List.foldl_cons, List.map_cons, List.sum_cons]
    constructor
    · rw [hrec.1, hstep.1]; ring
    · rw [hrec.2, hstep.2]; ring

/-- C1: for every plan segment and finite scene-record list, the aggregator
weights each record by its temporal overlap with the segment
(`max(0, min(ends) - max(starts))`, via `overlapSeconds`), returns absent
exactly when the total overlap weight is 0, and otherwise produces a summary
whose highlight score is the overlap-weighted average of the records' scores.
The aggregator is a pure function of its arguments, so it mutates neither
the segment nor the records. -/
theorem C1_aggregate_weighted_average (seg : Segment) (scenes : List SceneRecord) :
    (aggregateSceneForSegment seg scenes = none ↔ totalOverlapWeight seg scenes = 0) ∧
    (∀ summary, aggregateSceneForSegment seg scenes = some summary →
      summary.highlight_score = weightedScoreSum seg scenes / totalOverlapWeight seg scenes) := by
  have hfold := aggFold_totals (seg.sourceStart.getD 0)
    (seg.sourceStart.getD 0 + seg.duration.getD 0) scenes ⟨[], [], [], [], 0, 0, [], false⟩
  have hW : (scenes.foldl (aggStep (seg.sourceStart.getD 0)
      (seg.sourceStart.getD 0 + seg.duration.getD 0)) ⟨[], [], [], [], 0, 0, [], false⟩).totalWeight =
      totalOverlapWeight seg scenes := by
    rw [hfold.1]
    unfold totalOverlapWeight
    simp
  have hS : (scenes.foldl (aggStep (seg.sourceStart.getD 0)
      (seg.sourceStart.getD 0 + seg.duration.getD 0))
        ⟨[], [], [], [], 0, 0, [], false⟩).highlightScoreTotal =
      weightedScoreSum seg scenes := by
    rw [hfold.2]
    unfold weightedScoreSum
    simp
  unfold aggregateSceneForSegment
  dsimp only
  split_ifs with hend hzero
  · -- degenerate segment: every overlap is 0, so the total weight is 0
    have hW0 : totalOverlapWeight seg scenes = 0 := by
      unfold totalOverlapWeight
      apply List.sum_eq_zero
      intro x hx
      rw [List.mem_map] at hx
      obtain ⟨sc, _, rfl⟩ := hx
      exact overlapSeconds_eq_zero_of_degenerate _ _ _ _ hend
    refine ⟨by simp [hW0], ?_⟩
    intro summary h
    exact absurd h (by simp)
  · -- zero accumulated weight
    refine ⟨by simp [← hW, hzero], ?_⟩
    intro summary h
    exact absurd h (by simp)
  · -- positive weight: the summary's score is the weighted average
    have hWne : totalOverlapWeight seg scenes ≠ 0 := by
      rw [← hW]; exact hzero
    refine ⟨by simp [hWne], ?_⟩
    intro summary h
    rw [Option.some_inj] at h
    subst h
    dsimp only
    rw [hW, hS]

/-- C1 witness: the spec's worked example — overlaps 4 s and 2 s with scores
0.8 and 0.2 give total weight 6 and aggregated score
`(0.8*4 + 0.2*2)/6 = 0.6`. -/
theorem C1_aggregate_weighted_average_witness :
    aggregateSceneForSegment c1Seg [c1Rec1, c1Rec2] ≠ none ∧
    totalOverlapWeight c1Seg [c1Rec1, c1Rec2] = 6 ∧
    (∀ summary, aggregateSceneForSegment c1Seg [c1Rec1, c1Rec2] = some summary →
      summary.highlight_score = 3/5) := by
  have h := C1_aggregate_weighted_average c1Seg [c1Rec1, c1Rec2]
  refine ⟨?_, by decide, ?_⟩
  · intro hnone
    have := h.1.mp hnone
    rw [show totalOverlapWeight c1Seg [c1Rec1, c1Rec2] = 6 from by decide] at this
    norm_num at this
  · intro summary hsum
    rw [h.2 summary hsum]
    rw [show totalOverlapWeight c1Seg [c1Rec1, c1Rec2] = 6 from by decide,
        show weightedScoreSum c1Seg [c1Rec1, c1Rec2] = 18/5 from by decide]
    norm_num

/-! ## Claim C9 — missing optional inputs -/

theorem enrichSegStep_none_map (thr : ℚ) (scene : List SceneRecord) (total : ℕ)
    (st : List Segment × ℤ × List (Segment × SceneSummary)) (s0 : Segment) :
    (enrichSegStep none none thr scene total st s0).1.map (fun s => s.motionCue) =
      st.1.map (fun s => s.motionCue) ++ [s0.motionCue] ∧
    (enrichSegStep none none thr scene total st s0).1.map (fun s => s.broll) =
      st.1.map (fun s => s.broll) ++ [s0.broll] := by
  unfold enrichSegStep
  cases haggr : aggregateSceneForSegment { s0 with kind := some (s0.kind.getD "normal") } scene with
  | none => simp only [haggr]; simp
  | some summary =>
    simp only [haggr, enrichBrollSub, enrichMotionSub, enrichSfxSub]
    split_ifs <;> simp

theorem enrichFold_none_map (thr : ℚ) (scene : List SceneRecord) (total : ℕ) :
    ∀ (segs : List Segment) (st : List Segment × ℤ × List (Segment × SceneSummary)),
    ((segs.foldl (enrichSegStep none none thr scene total) st).1.map (fun s => s.motionCue) =
      st.1.map (fun s => s.motionCue) ++ segs.map (fun s => s.motionCue)) ∧
    ((segs.foldl (enrichSegStep none none thr scene total) st).1.map (fun s => s.broll) =
      st.1.map (fun s => s.broll) ++ segs.map (fun s => s.broll)) := by
  intro segs
  induction segs with
  | nil => intro st; simp
  | cons s rest ih =>
    intro st
    have hstep := enrichSegStep_none_map thr scene total st s
    have hrec := ih (enrichSegStep none none thr scene total st s)
    simp only [List.foldl_cons, List.map_cons]
    constructor
    · rw [hrec.1, hstep.1]; simp
    · rw [hrec.2, hstep.2]; simp

theorem ensureCtaHighlight_segments (p : Plan) (cands : List (Segment × SceneSummary))
    (sfx : Option SfxCatalog) : (ensureCtaHighlight p cands sfx).segments = p.segments := by
  unfold ensureCtaHighlight
  split
  · rfl
  · split <;> rfl

theorem enrichPlan_segments (plan : Plan) (scene : List SceneRecord)
    (cat : Option BrollCatalog) (sfx : Option SfxCatalog) (rules : Option MotionRules)
    (thr : ℚ) :
    (enrichPlan plan scene cat sfx rules thr).1.segments =
      (plan.segments.foldl (enrichSegStep cat rules thr scene plan.segments.length)
        ([], 0, [])).1 := by
  unfold enrichPlan
  dsimp only
  split
  · rw [ensureCtaHighlight_segments]
  · split
    · rw [ensureCtaHighlight_segments]
    · exact ensureCtaHighlight_segments _ _ _

/-- C9 (amended): with the B-roll catalog absent the highlight-driven B-roll
pass returns the plan unchanged, and with motion rules absent the
scene-driven first pass (`enrich_plan`) leaves every segment's `motionCue`
(and, with the catalog also absent, every `broll`) unchanged; all embedded
passes are total functions, so nothing raises.  The amendment: the
highlight-driven motion pass (`ensure_motion_from_highlights`) is *not*
skipped on absent rules — it substitutes an empty config with default
`motion_frequency` 0.5 and may still assign cues (see the
counterexample). -/
theorem C9_optional_inputs_skip :
    (∀ plan : Plan, ensureBrollFromHighlights plan none = plan) ∧
    (∀ (plan : Plan) (scene : List SceneRecord) (sfx : Option SfxCatalog) (thr : ℚ),
      ((enrichPlan plan scene none sfx none thr).1.segments.map (fun s => s.motionCue) =
        plan.segments.map (fun s => s.motionCue)) ∧
      ((enrichPlan plan scene none sfx none thr).1.segments.map (fun s => s.broll) =
        plan.segments.map (fun s => s.broll))) := by
  constructor
  · intro plan; rfl
  · intro plan scene sfx thr
    have hseg := enrichPlan_segments plan scene none sfx none thr
    have h := enrichFold_none_map thr scene plan.segments.length plan.segments ([], 0, [])
    rw [hseg]
    simpa using h

/-- C9 counterexample: `ensure_motion_from_highlights` with `motion_rules`
absent still assigns a motion cue (default frequency 0.5), so the claim that
"the motion-cue passes leave every segment's motionCue unchanged" is false
for the highlight-driven pass. -/
theorem C9_optional_inputs_counterexample :
    ((ensureMotionFromHighlights c9Plan none).segments.map (fun s => s.motionCue)) =
      [some "zoomIn"] ∧
    c9Plan.segments.map (fun s => s.motionCue) = [none] :=
  ⟨by decide, by decide⟩

/-! ## Claim C5 — CTA idempotence -/

theorem looksLikeCta_of_id (h : Highlight) (hid : h.id = some "cta_subscribe") :
    looksLikeCta h = true := by
  unfold looksLikeCta
  rw [hid]
  have : strContainsSub (lowerStr "cta_subscribe") "cta" = true := by decide
  simp [this]

theorem ensureCtaHighlight_append (p : Plan) (cands : List (Segment × SceneSummary))
    (sfx : Option SfxCatalog) (cand : Segment × SceneSummary)
    (hp : p.highlights.any looksLikeCta = false) (hc : cands.getLast? = some cand) :
    ∃ hl, ensureCtaHighlight p cands sfx = { p with highlights := p.highlights ++ [hl] } ∧
      hl.id = some "cta_subscribe" := by
  simp only [ensureCtaHighlight, hp, hc]
  exact ⟨_, rfl, rfl⟩

/-- C5: the CTA ensurer is idempotent — if any existing highlight already
looks like a CTA (its id contains `"cta"` or its type is `"cta"`), it
appends nothing, and running the ensurer twice on the same plan with the
same candidates equals running it once (the appended highlight's id
`"cta_subscribe"` trips the guard on the second run). -/
theorem C5_cta_idempotent (plan : Plan) (cands : List (Segment × SceneSummary))
    (sfx : Option SfxCatalog) :
    (plan.highlights.any looksLikeCta = true → ensureCtaHighlight plan cands sfx = plan) ∧
    ensureCtaHighlight (ensureCtaHighlight plan cands sfx) cands sfx =
      ensureCtaHighlight plan cands sfx := by
  constructor
  · intro h
    unfold ensureCtaHighlight
    rw [if_pos (by simp [h])]
  · by_cases h : plan.highlights.any looksLikeCta = true
    · have h1 : ensureCtaHighlight plan cands sfx = plan := by
        unfold ensureCtaHighlight
        rw [if_pos (by simp [h])]
      rw [h1, h1]
    · have h' : plan.highlights.any looksLikeCta = false := by
        cases hv : plan.highlights.any looksLikeCta
        · rfl
        · exact absurd hv h
      cases hlast : cands.getLast? with
      | none =>
        have h1 : ensureCtaHighlight plan cands sfx = plan := by
          unfold ensureCtaHighlight
          rw [if_neg (by simp [h']), hlast]
        rw [h1, h1]
      | some cand =>
        obtain ⟨hl, heq, hid⟩ := ensureCtaHighlight_append plan cands sfx cand h' hlast
        have hany : ({ plan with highlights := plan.highlights ++ [hl] } : Plan).highlights.any
            looksLikeCta = true := by
          simp [List.any_append, List.any_cons, looksLikeCta_of_id hl hid]
        rw [heq]
        unfold ensureCtaHighlight
        rw [if_pos (by simp [hany])]

/-- C5 witness: on a plan that already has a CTA-looking highlight the
ensurer appends nothing, and on the empty plan with one flagged candidate
running twice equals running once. -/
theorem C5_cta_idempotent_witness :
    ensureCtaHighlight c5CtaPlan [(c5Seg, c5Scene)] none = c5CtaPlan ∧
    ensureCtaHighlight (ensureCtaHighlight emptyPlan [(c5Seg, c5Scene)] none)
      [(c5Seg, c5Scene)] none = ensureCtaHighlight emptyPlan [(c5Seg, c5Scene)] none :=
  ⟨(C5_cta_idempotent c5CtaPlan [(c5Seg, c5Scene)] none).1 (by decide),
   (C5_cta_idempotent emptyPlan [(c5Seg, c5Scene)] none).2⟩

/-- C10 counterexample: with a segment whose `sourceStart` is −10 and
duration 2, the per-segment content end is −8, yet a highlight at 0.2 s
survives the trim — so the claimed bound
`start ≤ (max over segments of sourceStart + max(0,duration)) + 0.25`
(without clamping at 0) is false on the code. -/
theorem C10_trim_bounds_counterexample :
    ((trimHighlightsToSegments c10Plan (1/4)).highlights.map (fun h => h.start)) =
      [some (1/5)] ∧
    c10Plan.segments.map segContentEnd = [(-8 : ℚ)] ∧
    ¬ ((1/5 : ℚ) ≤ -8 + 1/4) := by
  refine ⟨by decide, by decide, by norm_num⟩

theorem ceilQ_eq (x : ℚ) : ceilQ x = ⌈x⌉ := by
  rw [ceilQ, floorQ_eq, Int.floor_neg, neg_neg]

theorem motionBudget_pos_eq (r : MotionRules) (total : ℕ) (f : ℚ)
    (hf : r.motion_frequency = some f) (hpos : 0 < f) :
    motionBudget r total = ceilQ ((total : ℚ) * f) := by
  unfold motionBudget
  rw [hf]
  simp only [Option.getD_some]
  rw [if_pos hpos]

theorem motionBudget_nonneg (r : MotionRules) (total : ℕ) : 0 ≤ motionBudget r total := by
  unfold motionBudget
  dsimp only
  split_ifs with h
  · rw [ceilQ_eq]
    exact Int.ceil_nonneg (mul_nonneg (Nat.cast_nonneg _) (le_of_lt h))
  · exact Int.natCast_nonneg _

theorem selectMotionCue_isSome_lt (scene : SceneSummary) (r : MotionRules) (a : ℤ)
    (total : ℕ) (h : selectMotionCue scene r a total ≠ none) : a < motionBudget r total := by
  by_contra hge
  push_neg at hge
  exact h (by unfold selectMotionCue; rw [if_pos hge])

theorem enrichBrollSub_motionCue (cat : Option BrollCatalog) (thr : ℚ) (scene : SceneSummary)
    (seg : Segment) : (enrichBrollSub cat thr scene seg).1.motionCue = seg.motionCue := by
  unfold enrichBrollSub
  cases cat with
  | none => rfl
  | some catalog =>
    cases h : selectBroll scene catalog thr with
    | none => simp only [h]
    | some broll => simp only [h]

theorem enrichSfxSub_motionCue (scene : SceneSummary) (seg : Segment) (notes : List String) :
    (enrichSfxSub scene seg notes).1.motionCue = seg.motionCue := by
  unfold enrichSfxSub
  split_ifs <;> rfl

theorem enrichSfxNotes_motionCue (scene : SceneSummary) (seg : Segment) (notes : List String) :
    (if (enrichSfxSub scene seg notes).2.isEmpty then (enrichSfxSub scene seg notes).1
     else { (enrichSfxSub scene seg notes).1 with
            notes := (enrichSfxSub scene seg notes).1.notes ++
              (enrichSfxSub scene seg notes).2 }).motionCue = seg.motionCue := by
  split_ifs <;> exact enrichSfxSub_motionCue scene seg notes

theorem enrichMotionSub_cases (r : MotionRules) (scene : SceneSummary) (a : ℤ) (total : ℕ)
    (seg : Segment) (notes : List String) :
    enrichMotionSub (some r) scene a total seg notes = (seg, a, notes) ∨
    (∃ mc, enrichMotionSub (some r) scene a total seg notes =
      ({ seg with motionCue := some mc }, a + 1, notes ++ ["Motion cue assigned: " ++ mc]) ∧
      a < motionBudget r total) := by
  unfold enrichMotionSub
  cases hsel : selectMotionCue scene r a total with
  | none => simp only [hsel]; exact Or.inl trivial
  | some mc =>
    simp only [hsel]
    by_cases hmc : mc == ""
    · rw [if_pos hmc]; exact Or.inl rfl
    · rw [if_neg hmc]
      refine Or.inr ⟨mc, rfl, selectMotionCue_isSome_lt scene r a total ?_⟩
      rw [hsel]
      exact fun hcon => Option.noConfusion hcon

theorem enrichSegStep_motion_step (cat : Option BrollCatalog) (r : MotionRules) (thr : ℚ)
    (scene : List SceneRecord) (total : ℕ)
    (st : List Segment × ℤ × List (Segment × SceneSummary)) (s0 : Segment)
    (h0 : s0.motionCue = none) :
    ∃ s4, (enrichSegStep cat (some r) thr scene total st s0).1 = st.1 ++ [s4] ∧
      ((s4.motionCue = none ∧ (enrichSegStep cat (some r) thr scene total st s0).2.1 = st.2.1) ∨
       ((enrichSegStep cat (some r) thr scene total st s0).2.1 = st.2.1 + 1 ∧
        st.2.1 < motionBudget r total)) := by
  unfold enrichSegStep
  dsimp only
  cases haggr : aggregateSceneForSegment { s0 with kind := some (s0.kind.getD "normal") } scene with
  | none =>
    simp only [haggr]
    exact ⟨_, rfl, Or.inl ⟨h0, trivial⟩⟩
  | some summary =>
    simp only [haggr]
    rcases enrichMotionSub_cases r summary st.2.1 total
        (enrichBrollSub cat thr summary { s0 with kind := some (s0.kind.getD "normal") }).1
        (enrichBrollSub cat thr summary { s0 with kind := some (s0.kind.getD "normal") }).2
      with hm | ⟨mc, hm, hlt⟩
    · rw [hm]
      dsimp only
      refine ⟨_, rfl, Or.inl ⟨?_, rfl⟩⟩
      rw [enrichSfxNotes_motionCue, enrichBrollSub_motionCue]
      exact h0
    · rw [hm]
      dsimp only
      exact ⟨_, rfl, Or.inr ⟨rfl, hlt⟩⟩

theorem enrichFold_motion_bound (cat : Option BrollCatalog) (r : MotionRules) (thr : ℚ)
    (scene : List SceneRecord) (total : ℕ) :
    ∀ (segs : List Segment) (st : List Segment × ℤ × List (Segment × SceneSummary)),
      (∀ s ∈ segs, s.motionCue = none) →
      0 ≤ st.2.1 →
      st.1.countP (fun s => s.motionCue.isSome) ≤ st.2.1.toNat →
      st.2.1 ≤ motionBudget r total →
      ((segs.foldl (enrichSegStep cat (some r) thr scene total) st).1.countP
          (fun s => s.motionCue.isSome) ≤
        (segs.foldl (enrichSegStep cat (some r) thr scene total) st).2.1.toNat ∧
       0 ≤ (segs.foldl (enrichSegStep cat (some r) thr scene total) st).2.1 ∧
       (segs.foldl (enrichSegStep cat (some r) thr scene total) st).2.1 ≤
         motionBudget r total) := by
  intro segs
  induction segs with
  | nil => intro st _ h0 h1 h2; exact ⟨h1, h0, h2⟩
  | cons s rest ih =>
    intro st hall h0 h1 h2
    obtain ⟨s4, hres, hcase⟩ := enrichSegStep_motion_step cat r thr scene total st s
      (hall s (List.mem_cons_self s rest))
    simp only [List.foldl_cons]
    rcases hcase with ⟨hmc, hasg⟩ | ⟨hasg, hlt⟩
    · refine ih _ (fun x hx => hall x (List.mem_cons_of_mem _ hx)) ?_ ?_ ?_
      · rw [hasg]; exact h0
      · rw [hres, hasg, List.countP_append]
        have h4 : List.countP (fun s => s.motionCue.isSome) [s4] = 0 := by
          simp [List.countP_cons, hmc]
        omega
      · rw [hasg]; exact h2
    · refine ih _ (fun x hx => hall x (List.mem_cons_of_mem _ hx)) ?_ ?_ ?_
      · rw [hasg]; omega
      · rw [hres, hasg, List.countP_append]
        have h4 : List.countP (fun s => s.motionCue.isSome) [s4] ≤ 1 := by
          simp only [List.countP_cons, List.countP_nil]
          split_ifs <;> omega
        omega
      · rw [hasg]; omega

/-- C4 (amended): when `motion_frequency` is a positive value, the
scene-driven first pass of `enrich_plan` assigns motion cues to at most
`ceil(segment_count * motion_frequency)` segments, provided no input segment
already carries a cue.  The claim's "budget of at least 1 even when
motion_frequency is 0" is false: with frequency 0 the code's budget is the
full segment count (the `else total_segments` branch of `select_motion_cue`),
as the counterexample shows. -/
theorem C4_motion_budget (plan : Plan) (scene : List SceneRecord) (cat : Option BrollCatalog)
    (sfx : Option SfxCatalog) (r : MotionRules) (thr : ℚ) (f : ℚ)
    (hall : ∀ s ∈ plan.segments, s.motionCue = none)
    (hf : r.motion_frequency = some f) (hpos : 0 < f) :
    ((enrichPlan plan scene cat sfx (some r) thr).1.segments.countP
        (fun s => s.motionCue.isSome) : ℤ) ≤ ceilQ ((plan.segments.length : ℚ) * f) := by
  have hseg := enrichPlan_segments plan scene cat sfx (some r) thr
  rw [hseg]
  have hmain := enrichFold_motion_bound cat r thr scene plan.segments.length plan.segments
    ([], 0, []) hall (le_refl 0) (Nat.le_refl 0)
    (motionBudget_nonneg r plan.segments.length)
  rw [motionBudget_pos_eq r plan.segments.length f hf hpos] at hmain
  obtain ⟨hcount, hnn, hle⟩ := hmain
  omega

/-- C4 witness: ten segments, `motion_frequency = 0.3`, one scene record
covering all of them with an explicit motion candidate — the bound
instantiates to `count ≤ ceil(10 * 0.3) = 3`, and the run assigns exactly
3 cues. -/
theorem C4_motion_budget_witness :
    (∀ s ∈ c4TenPlan.segments, s.motionCue = none) ∧
    c4Rules03.motion_frequency = some (3/10) ∧ (0 : ℚ) < 3/10 ∧
    ((enrichPlan c4TenPlan [c4WideRec] none none (some c4Rules03) (7/10)).1.segments.countP
        (fun s => s.motionCue.isSome) : ℤ) ≤
      ceilQ ((c4TenPlan.segments.length : ℚ) * (3/10)) ∧
    ceilQ ((c4TenPlan.segments.length : ℚ) * (3/10)) = 3 ∧
    (enrichPlan c4TenPlan [c4WideRec] none none (some c4Rules03) (7/10)).1.segments.countP
        (fun s => s.motionCue.isSome) = 3 :=
  ⟨by decide, by decide, by decide,
   C4_motion_budget c4TenPlan [c4WideRec] none none c4Rules03 (7/10) (3/10)
     (by decide) (by decide) (by decide),
   by decide, by decide⟩

/-- C4 counterexample: with `motion_frequency = 0` the budget is the whole
segment count, not `max(1, ceil(0)) = 1` — both segments of a two-segment
plan receive scene-driven motion cues. -/
theorem C4_motion_budget_counterexample :
    (enrichPlan c4Plan [c4Rec] none none (some c4Rules) (7/10)).1.segments.countP
        (fun s => s.motionCue.isSome) = 2 := by decide

theorem assocGet_append_single_none {β : Type} (c : List (String × β)) (x : String) (v : β)
    (hc : assocGet c x = none) : assocGet (c ++ [(x, v)]) x = some v := by
  induction c with
  | nil => simp [assocGet]
  | cons a c ih =>
    by_cases h : a.1 = x
    · exfalso
      unfold assocGet at hc
      rw [List.find?_cons_of_pos _ (by simp [h])] at hc
      simp at hc
    · unfold assocGet at hc ⊢
      rw [List.find?_cons_of_neg _ (by simp [h])] at hc
      rw [List.cons_append, List.find?_cons_of_neg _ (by simp [h])]
      exact ih hc

theorem assocGet_append_ne {β : Type} (c : List (String × β)) (x X : String) (v : β)
    (hne : X ≠ x) : assocGet (c ++ [(x, v)]) X = assocGet c X := by
  induction c with
  | nil =>
    unfold assocGet
    rw [List.nil_append, List.find?_cons_of_neg _ (by simp [hne.symm])]
  | cons a c ih =>
    unfold assocGet
    rw [List.cons_append]
    by_cases h : a.1 = X
    · rw [List.find?_cons_of_pos _ (by simp [h]), List.find?_cons_of_pos _ (by simp [h])]
    · rw [List.find?_cons_of_neg _ (by simp [h]), List.find?_cons_of_neg _ (by simp [h])]
      exact ih

theorem assocGet_bump (c : List (String × ℕ)) (x : String) :
    assocGet (c.map (fun p => if p.1 = x then (p.1, p.2 + 1) else p)) x =
      (assocGet c x).map (fun n => n + 1) := by
  induction c with
  | nil => rfl
  | cons a c ih =>
    unfold assocGet
    rw [List.map_cons]
    by_cases h : a.1 = x
    · rw [if_pos h]
      rw [List.find?_cons_of_pos _ (by simp [h]), List.find?_cons_of_pos _ (by simp [h])]
      rfl
    · rw [if_neg h]
      rw [List.find?_cons_of_neg _ (by simp [h]), List.find?_cons_of_neg _ (by simp [h])]
      exact ih

theorem assocGet_bump_ne (c : List (String × ℕ)) (x X : String) (hne : X ≠ x) :
    assocGet (c.map (fun p => if p.1 = x then (p.1, p.2 + 1) else p)) X = assocGet c X := by
  induction c with
  | nil => rfl
  | cons a c ih =>
    unfold assocGet
    rw [List.map_cons]
    by_cases h : a.1 = X
    · have hax : a.1 ≠ x := fun hh => hne (by rw [← h, hh])
      rw [if_neg hax]
      rw [List.find?_cons_of_pos _ (by simp [h]), List.find?_cons_of_pos _ (by simp [h])]
    · by_cases hax : a.1 = x
      · rw [if_pos hax]
        rw [List.find?_cons_of_neg _ (by simp [h]), List.find?_cons_of_neg _ (by simp [h])]
        exact ih
      · rw [if_neg hax]
        rw [List.find?_cons_of_neg _ (by simp [h]), List.find?_cons_of_neg _ (by simp [h])]
        exact ih

theorem counterAdd_self (c : List (String × ℕ)) (x : String) :
    (assocGet (counterAdd c x) x).getD 0 = (assocGet c x).getD 0 + 1 := by
  unfold counterAdd
  cases hc : assocGet c x with
  | none =>
    rw [if_neg (by simp)]
    rw [assocGet_append_single_none c x 1 hc]
    rfl
  | some n =>
    rw [if_pos (by simp)]
    rw [assocGet_bump c x, hc]
    rfl

theorem counterAdd_ne (c : List (String × ℕ)) (x X : String) (hne : X ≠ x) :
    assocGet (counterAdd c x) X = assocGet c X := by
  unfold counterAdd
  by_cases hc : (assocGet c x).isSome = true
  · rw [if_pos hc]
    exact assocGet_bump_ne c x X hne
  · rw [if_neg hc]
    exact assocGet_append_ne c x X 1 hne

theorem countP_set_le (p : Segment → Bool) :
    ∀ (l : List Segment) (i : ℕ) (a : Segment),
      (l.set i a).countP p ≤ l.countP p + (if p a then 1 else 0) := by
  intro l
  induction l with
  | nil => intro i a; simp [List.set]
  | cons b l ih =>
    intro i a
    cases i with
    | zero =>
      simp only [List.set_cons_zero, List.countP_cons]
      split_ifs <;> omega
    | succ n =>
      simp only [List.set_cons_succ, List.countP_cons]
      have h := ih n a
      split_ifs at h ⊢ <;> omega

theorem ensureBrollStep_shape (items : List BrollItem)
    (st : List Segment × List (String × ℕ)) (hl : Highlight) :
    ensureBrollStep items st hl = st ∨
    ∃ idx seg2 brollId,
      (∀ X, segHasBrollId seg2 X = (brollId == X)) ∧
      ¬(MAX_BROLL_REUSE ≤ (assocGet st.2 brollId).getD 0) ∧
      ensureBrollStep items st hl = (st.1.set idx seg2, counterAdd st.2 brollId) := by
  unfold ensureBrollStep
  cases hstart : hl.start with
  | none => exact Or.inl rfl
  | some start =>
    simp only [hstart]
    cases hidx : locateSegmentIdx st.1 start with
    | none => exact Or.inl rfl
    | some idx =>
      simp only [hidx]
      cases hget : st.1.get? idx with
      | none => exact Or.inl rfl
      | some segment =>
        simp only [hget]
        by_cases hbro : segment.broll.isSome = true
        · rw [if_pos hbro]
          exact Or.inl rfl
        · rw [if_neg hbro]
          split_ifs with hft
          · exact Or.inl rfl
          · cases hmatch : matchBrollId (joinSp ((([hl.keyword.getD ""] ++
                hl.supportingTexts.map Prod.snd)).filter (fun s => !(s == "")))) with
            | none => exact Or.inl rfl
            | some brollId =>
              simp only [hmatch]
              split_ifs with hguard
              · exact Or.inl rfl
              · cases hitem : lookupCatalogItem items brollId with
                | none => exact Or.inl rfl
                | some item =>
                  simp only [hitem]
                  refine Or.inr ⟨idx, _, brollId, ?_, hguard, rfl⟩
                  intro X
                  have hid : (item.id == some brollId) = true := by
                    unfold lookupCatalogItem at hitem
                    have h5 := List.find?_some hitem
                    simpa using h5
                  have hid2 : item.id = some brollId := eq_of_beq hid
                  simp [segHasBrollId, hid2]

theorem ensureBrollStep_inv (items : List BrollItem) (X : String) (C0 : ℕ)
    (st : List Segment × List (String × ℕ)) (hl : Highlight)
    (h1 : st.1.countP (fun s => segHasBrollId s X) ≤ C0 + (assocGet st.2 X).getD 0)
    (h2 : (assocGet st.2 X).getD 0 ≤ MAX_BROLL_REUSE) :
    (ensureBrollStep items st hl).1.countP (fun s => segHasBrollId s X) ≤
        C0 + (assocGet (ensureBrollStep items st hl).2 X).getD 0 ∧
      (assocGet (ensureBrollStep items st hl).2 X).getD 0 ≤ MAX_BROLL_REUSE := by
  rcases ensureBrollStep_shape items st hl with heq | ⟨idx, seg2, brollId, hseg, hguard, heq⟩
  · rw [heq]
    exact ⟨h1, h2⟩
  · rw [heq]
    dsimp only
    by_cases hX : X = brollId
    · subst hX
      rw [counterAdd_self]
      have hs := countP_set_le (fun s => segHasBrollId s X) st.1 idx seg2
      have hone : (if segHasBrollId seg2 X then 1 else 0) ≤ 1 := by split_ifs <;> omega
      exact ⟨by omega, by omega⟩
    · rw [counterAdd_ne st.2 brollId X hX]
      have hs := countP_set_le (fun s => segHasBrollId s X) st.1 idx seg2
      have hzero : segHasBrollId seg2 X = false := by
        rw [hseg X]
        exact beq_eq_false_iff_ne.mpr (fun hh => hX hh.symm)
      rw [hzero] at hs
      simp only [Bool.false_eq_true, if_false, Nat.add_zero] at hs
      exact ⟨by omega, h2⟩

theorem ensureBrollFold_inv (items : List BrollItem) (X : String) (C0 : ℕ) :
    ∀ (hls : List Highlight) (st : List Segment × List (String × ℕ)),
      st.1.countP (fun s => segHasBrollId s X) ≤ C0 + (assocGet st.2 X).getD 0 →
      (assocGet st.2 X).getD 0 ≤ MAX_BROLL_REUSE →
      ((hls.foldl (ensureBrollStep items) st).1.countP (fun s => segHasBrollId s X) ≤
          C0 + (assocGet (hls.foldl (ensureBrollStep items) st).2 X).getD 0 ∧
        (assocGet (hls.foldl (ensureBrollStep items) st).2 X).getD 0 ≤ MAX_BROLL_REUSE) := by
  intro hls
  induction hls with
  | nil => intro st h1 h2; exact ⟨h1, h2⟩
  | cons hl rest ih =>
    intro st h1 h2
    simp only [List.foldl_cons]
    obtain ⟨g1, g2⟩ := ensureBrollStep_inv items X C0 st hl h1 h2
    exact ih _ g1 g2

/-- C7: in the highlight-driven B-roll pass, for every catalog id `X`, a plan
whose segments start with no `X` assignment ends with at most
`MAX_BROLL_REUSE = 2` segments carrying `broll.id == X`, however many
highlights match `X`; the per-run counter is bumped only on actual
assignment. -/
theorem C7_broll_reuse_cap (plan : Plan) (cat : Option BrollCatalog) (X : String)
    (h : plan.segments.countP (fun s => segHasBrollId s X) = 0) :
    (ensureBrollFromHighlights plan cat).segments.countP (fun s => segHasBrollId s X) ≤
      MAX_BROLL_REUSE := by
  cases cat with
  | none =>
    have hp : ensureBrollFromHighlights plan none = plan := rfl
    rw [hp, h]
    exact Nat.zero_le _
  | some catalog =>
    have hp : ensureBrollFromHighlights plan (some catalog) =
        (if catalog.items.isEmpty then plan
         else if plan.segments.isEmpty then plan
         else if plan.highlights.isEmpty then plan
         else { plan with segments :=
           (plan.highlights.foldl (ensureBrollStep catalog.items) (plan.segments, [])).1 }) :=
      rfl
    rw [hp]
    split_ifs with h1 h2 h3
    · omega
    · omega
    · omega
    · dsimp only
      obtain ⟨g1, g2⟩ := ensureBrollFold_inv catalog.items X 0 plan.highlights
        (plan.segments, []) (by rw [h]; exact Nat.zero_le _) (Nat.zero_le _)
      omega

/-- C7 witness: five highlights all matching the `business_strategy` rule on
a five-segment plan with a single-item catalog — the bound applies, and the
run assigns the id to exactly 2 segments. -/
theorem C7_broll_reuse_cap_witness :
    c7Plan.segments.countP (fun s => segHasBrollId s "business_strategy") = 0 ∧
    (ensureBrollFromHighlights c7Plan (some c7Catalog)).segments.countP
        (fun s => segHasBrollId s "business_strategy") ≤ MAX_BROLL_REUSE ∧
    (ensureBrollFromHighlights c7Plan (some c7Catalog)).segments.countP
        (fun s => segHasBrollId s "business_strategy") = 2 :=
  ⟨by decide,
   C7_broll_reuse_cap c7Plan (some c7Catalog) "business_strategy" (by decide),
   by decide⟩

/-- C2 (amended): a synthesis pass that actually injected at least one
highlight leaves the plan's highlight list sorted ascending by `start`.
The unconditional claim is false: both passes sort only `if injected:`, so
a pass that injects nothing returns a pre-existing unsorted list unsorted
(see the counterexample). -/
theorem C2_highlight_ordering :
    (∀ (plan : Plan) (catalog : OverlayCatalog) (minGap : ℚ),
      (augmentHighlightsFromCatalog plan catalog minGap).2 ≠ [] →
      (augmentHighlightsFromCatalog plan catalog minGap).1.highlights.Pairwise startLe) ∧
    (∀ (plan : Plan) (entries : List SrtEntry) (minGap : ℚ),
      (augmentHighlightsFromSrt plan entries minGap).2 ≠ [] →
      (augmentHighlightsFromSrt plan entries minGap).1.highlights.Pairwise startLe) := by
  constructor
  · intro plan catalog minGap hinj
    unfold augmentHighlightsFromCatalog at hinj ⊢
    dsimp only at hinj ⊢
    split_ifs at hinj ⊢ with ht hi
    · exact absurd rfl hinj
    · exact absurd (List.isEmpty_iff.mp hi) hinj
    · exact sortHighlights_sorted _
  · intro plan entries minGap hinj
    unfold augmentHighlightsFromSrt at hinj ⊢
    dsimp only at hinj ⊢
    split_ifs at hinj ⊢ with ht hi
    · exact absurd rfl hinj
    · exact absurd (List.isEmpty_iff.mp hi) hinj
    · exact sortHighlights_sorted _

/-- C2 witness: a catalog pass and a subtitle pass that both inject a
highlight into an (unsorted) plan return sorted highlight lists. -/
theorem C2_highlight_ordering_witness :
    (augmentHighlightsFromCatalog c2Plan c2FarCatalog (2/5)).2 ≠ [] ∧
    (augmentHighlightsFromCatalog c2Plan c2FarCatalog (2/5)).1.highlights.Pairwise startLe ∧
    (augmentHighlightsFromSrt emptyPlan [c3E1] (1/2)).2 ≠ [] ∧
    (augmentHighlightsFromSrt emptyPlan [c3E1] (1/2)).1.highlights.Pairwise startLe :=
  ⟨by decide, C2_highlight_ordering.1 c2Plan c2FarCatalog (2/5) (by decide),
   by decide, C2_highlight_ordering.2 emptyPlan [c3E1] (1/2) (by decide)⟩

/-- C2 counterexample: the catalog pass on a catalog with no timeline
injects nothing and returns the plan's unsorted highlight list (starts 5
then 1) as is — the ordering invariant does not hold after this pass. -/
theorem C2_highlight_ordering_counterexample :
    (augmentHighlightsFromCatalog c2Plan c2Catalog (2/5)).2 = [] ∧
    ¬ (augmentHighlightsFromCatalog c2Plan c2Catalog
        (2/5)).1.highlights.Pairwise startLe := by
  constructor
  · decide
  · decide

theorem all_ws_of_dropWhile_nil : ∀ (l : List Char), l.dropWhile isWsCh = [] →
    ∀ c ∈ l, isWsCh c = true := by
  intro l
  induction l with
  | nil => intro _ c hc; cases hc
  | cons a t ih =>
    intro h c hc
    by_cases ha : isWsCh a = true
    · rw [List.dropWhile_cons, if_pos ha] at h
      rcases List.mem_cons.mp hc with rfl | hct
      · exact ha
      · exact ih h c hct
    · rw [List.dropWhile_cons, if_neg ha] at h
      exact absurd h (List.cons_ne_nil a t)

theorem all_ws_of_trimChars_nil (l : List Char) (h : trimChars l = []) :
    ∀ c ∈ l, isWsCh c = true := by
  intro c hc
  have hsplit : l.takeWhile isWsCh ++ l.dropWhile isWsCh = l :=
    List.takeWhile_append_dropWhile isWsCh l
  rw [← hsplit] at hc
  rcases List.mem_append.mp hc with h1 | h2
  · exact List.mem_takeWhile_imp h1
  · unfold trimChars dropWsLeft at h
    rw [List.reverse_eq_nil_iff] at h
    exact all_ws_of_dropWhile_nil _ h c (List.mem_reverse.mpr h2)

theorem cleanSrtText_all_ws (t : String) (h : ∀ c ∈ t.toList, isWsCh c = true) :
    ∀ c ∈ (cleanSrtText t).toList, isWsCh c = true := by
  intro c hc
  have hc2 : c ∈ t.toList.map (fun c => if isSrtKeptCh c then c else ' ') := hc
  rcases List.mem_map.mp hc2 with ⟨c0, hc0, rfl⟩
  have hws := h c0 hc0
  have hkept : isSrtKeptCh c0 = true := by simp [isSrtKeptCh, hws]
  rw [if_pos hkept]
  exact hws

theorem splitWsAux_all_ws : ∀ (l : List Char), (∀ c ∈ l, isWsCh c = true) →
    splitWsAux l [] = [] := by
  intro l
  induction l with
  | nil => intro _; rfl
  | cons a t ih =>
    intro h
    show splitWsAux (a :: t) [] = []
    simp only [splitWsAux]
    rw [if_pos (h a (List.mem_cons_self a t))]
    show splitWsAux t [] = []
    exact ih (fun c hc => h c (List.mem_cons_of_mem a hc))

theorem srt_trim_ne_empty (t : String) (hw : splitWsStr (cleanSrtText t) ≠ []) :
    (trimStr t == "") = false := by
  cases hbe : trimStr t == "" with
  | false => rfl
  | true =>
    exfalso
    have heq : trimStr t = "" := eq_of_beq hbe
    have hnil : trimChars t.toList = [] := congrArg String.data heq
    have hws := all_ws_of_trimChars_nil t.toList hnil
    have hcl := cleanSrtText_all_ws t hws
    apply hw
    unfold splitWsStr splitWs
    rw [splitWsAux_all_ws _ hcl]
    rfl

theorem srt_duration_ge (e : SrtEntry) (hw : splitWsStr (cleanSrtText e.text) ≠ []) :
    3/2 ≤ deriveDurationSeconds e.durContainer e.durContainer 3 := by
  have hct := srt_trim_ne_empty e.text hw
  have ht : sanitizeText (some e.text) = some (trimStr e.text) := by
    show (if (trimStr e.text == "") = true then none else some (trimStr e.text)) =
      some (trimStr e.text)
    rw [hct]
    rfl
  have horelse : (sanitizeText (SrtEntry.durContainer e).content).orElse
      (fun _ => sanitizeText (SrtEntry.durContainer e).text) = some (trimStr e.text) := ht
  unfold deriveDurationSeconds
  dsimp only
  simp only [horelse]
  exact le_trans (le_max_left (3/2) _) (le_max_right _ _)

theorem ensureHighlightKeyword_start (h : Highlight) :
    (ensureHighlightKeyword h).2.start = h.start := by
  unfold ensureHighlightKeyword
  split_ifs <;> rfl

theorem ensureHighlightKeyword_duration (h : Highlight) :
    (ensureHighlightKeyword h).2.duration = h.duration := by
  unfold ensureHighlightKeyword
  split_ifs <;> rfl

theorem srtPlace_duration (h0 : Highlight) (tog : Bool) (sc : List (String × String)) :
    (srtPlace h0 tog sc).1.duration = h0.duration := by
  rcases sc with _ | ⟨c1, _ | ⟨c2, rest⟩⟩ <;> simp only [srtPlace] <;>
    first
    | rfl
    | (split_ifs <;> rfl)

theorem buildHighlightOverride_proj (entry : SrtEntry) (tl : String) (s d : ℚ)
    (h : Highlight) (heq : buildHighlightOverride entry tl s d = some h) :
    h.start = some (pyRound2 s) ∧ h.duration = some (pyRound2 d) := by
  unfold buildHighlightOverride at heq
  dsimp only at heq
  split_ifs at heq <;>
    first
    | (rw [Option.some_inj] at heq; subst heq; exact ⟨rfl, rfl⟩)
    | exact Option.noConfusion heq

theorem srtHasConflict_false_elim (highlights : List Highlight) (minGap cs dur : ℚ)
    (hconf : srtHasConflict highlights minGap cs dur = false)
    (a : Highlight) (ha : a ∈ highlights) (vp : ℚ) (hs : a.start = some vp) :
    ¬(0 < overlapSeconds cs (cs + dur) vp (vp + a.duration.getD 0)) ∧
    ¬(|vp - cs| ≤ minGap) := by
  unfold srtHasConflict at hconf
  dsimp only at hconf
  rw [List.any_eq_false] at hconf
  have h := hconf a ha
  rw [hs] at h
  simp only [Bool.or_eq_true, decide_eq_true_eq, not_or] at h
  exact h

theorem pairP_arith (minGap cs dur v d vp dp : ℚ)
    (hdur : 3/2 ≤ dur)
    (hv1 : cs - 1/200 ≤ v) (hv2 : v ≤ cs + 1/100)
    (hd1 : dur - 1/200 ≤ d) (hd2 : d ≤ dur + 1/200)
    (hdppos : 0 < dp)
    (hov : ¬(0 < overlapSeconds cs (cs + dur) vp (vp + dp)))
    (hgap : ¬(|vp - cs| ≤ minGap)) :
    overlapSeconds vp (vp + dp) v (v + d) ≤ 3/200 ∧ minGap - 1/100 < |v - vp| := by
  unfold overlapSeconds at hov ⊢
  push_neg at hov hgap
  have hkey : min (cs + dur) (vp + dp) ≤ max cs vp := by
    have h2 : min (cs + dur) (vp + dp) - max cs vp ≤ max 0 (min (cs + dur) (vp + dp) - max cs vp) :=
      le_max_right 0 _
    linarith
  have habs : |v - cs| ≤ 1/100 := abs_le.mpr ⟨by linarith, by linarith⟩
  constructor
  · rw [max_le_iff]
    refine ⟨by norm_num, ?_⟩
    rcases le_total vp cs with hvc | hvc
    · have hm : min (cs + dur) (vp + dp) ≤ cs := by
        rw [max_eq_left hvc] at hkey; exact hkey
      rcases min_le_iff.mp hm with h1 | h1
      · linarith
      · linarith [min_le_left (vp + dp) (v + d), le_max_right vp v]
    · have hm : min (cs + dur) (vp + dp) ≤ vp := by
        rw [max_eq_right hvc] at hkey; exact hkey
      rcases min_le_iff.mp hm with h1 | h1
      · linarith [min_le_right (vp + dp) (v + d), le_max_left vp v]
      · linarith
  · have h3 : |vp - cs| ≤ |vp - v| + |v - cs| := abs_sub_le vp v cs
    have h4 : |v - vp| = |vp - v| := abs_sub_comm v vp
    linarith

theorem shift_bounds (cs dur hlD : ℚ) (hld : dur - 1/200 ≤ hlD) :
    cs - 1/200 ≤ pyRound2 (min (max (cs + dur * 0.55) cs) (max cs (cs + dur - hlD))) ∧
    pyRound2 (min (max (cs + dur * 0.55) cs) (max cs (cs + dur - hlD))) ≤ cs + 1/100 := by
  have hu1 : cs ≤ min (max (cs + dur * 0.55) cs) (max cs (cs + dur - hlD)) :=
    le_min (le_max_right _ _) (le_max_left _ _)
  have hu2 : min (max (cs + dur * 0.55) cs) (max cs (cs + dur - hlD)) ≤ cs + 1/200 :=
    le_trans (min_le_right _ _) (max_le (by linarith) (by linarith))
  constructor
  · linarith [pyRound2_ge (min (max (cs + dur * 0.55) cs) (max cs (cs + dur - hlD)))]
  · linarith [pyRound2_le (min (max (cs + dur * 0.55) cs) (max cs (cs + dur - hlD)))]

theorem hlD_bound (dur : ℚ) (o : Option ℚ) (ho : o = some (pyRound2 dur)) :
    dur - 1/200 ≤ (if o.getD dur = 0 then dur else o.getD dur) := by
  subst ho
  simp only [Option.getD_some]
  split_ifs with h0
  · linarith
  · exact pyRound2_ge dur

theorem srt_insert_inv (minGap : ℚ) (hs0 : List Highlight) (st : SrtState) (cs dur : ℚ)
    (hNew : Highlight) (v d : ℚ)
    (H1 : st.highlights = hs0 ++ st.injected)
    (H2 : ∀ h ∈ st.injected, injOk h)
    (H3 : st.injected.Pairwise (srtPairOk minGap))
    (hconf : srtHasConflict st.highlights minGap cs dur = false)
    (hdur : 3/2 ≤ dur)
    (hstart : hNew.start = some v) (hdu : hNew.duration = some d)
    (hv1 : cs - 1/200 ≤ v) (hv2 : v ≤ cs + 1/100)
    (hd1 : dur - 1/200 ≤ d) (hd2 : d ≤ dur + 1/200) :
    st.highlights ++ [hNew] = hs0 ++ (st.injected ++ [hNew]) ∧
    (∀ h ∈ st.injected ++ [hNew], injOk h) ∧
    (st.injected ++ [hNew]).Pairwise (srtPairOk minGap) := by
  have hdpos : 0 < d := by linarith
  refine ⟨by rw [H1, List.append_assoc], ?_, ?_⟩
  · intro h hh
    rcases List.mem_append.mp hh with h1 | h2
    · exact H2 h h1
    · rw [List.mem_singleton.mp h2]
      exact ⟨v, d, hstart, hdu, hdpos⟩
  · rw [List.pairwise_append]
    refine ⟨H3, List.pairwise_singleton _ _, ?_⟩
    intro a ha b hb
    rw [List.mem_singleton.mp hb]
    obtain ⟨vp, dp, hsp, hdp, hdppos⟩ := H2 a ha
    have hmem : a ∈ st.highlights := by
      rw [H1]; exact List.mem_append.mpr (Or.inr ha)
    obtain ⟨hov, hgap⟩ :=
      srtHasConflict_false_elim st.highlights minGap cs dur hconf a hmem vp hsp
    rw [hdp] at hov
    simp only [Option.getD_some] at hov
    have harith := pairP_arith minGap cs dur v d vp dp hdur hv1 hv2 hd1 hd2 hdppos hov hgap
    unfold srtPairOk overlapW startOf durOf
    rw [hsp, hstart, hdu, hdp]
    simp only [Option.getD_some]
    exact harith

theorem srtMainCandidate_duration (index : ℤ) (words : List String) (tog : Bool)
    (s d : ℚ) (pl : Highlight × Bool)
    (h : srtMainCandidate index words tog s d = some pl) :
    pl.1.duration = some (pyRound2 d) := by
  unfold srtMainCandidate at h
  dsimp only at h
  split_ifs at h <;>
    first
    | exact Option.noConfusion h
    | (rw [Option.some_inj] at h
       subst h
       exact (srtPlace_duration _ _ _).trans rfl)

theorem srtStep_inv (minGap : ℚ) (hs0 : List Highlight) (st : SrtState) (e : SrtEntry)
    (H1 : st.highlights = hs0 ++ st.injected)
    (H2 : ∀ h ∈ st.injected, injOk h)
    (H3 : st.injected.Pairwise (srtPairOk minGap)) :
    (srtStep minGap st e).highlights = hs0 ++ (srtStep minGap st e).injected ∧
    (∀ h ∈ (srtStep minGap st e).injected, injOk h) ∧
    (srtStep minGap st e).injected.Pairwise (srtPairOk minGap) := by
  unfold srtStep
  dsimp only
  by_cases hcond : (decide (max 0 e.start < 3/5) ||
      srtHasConflict st.highlights minGap (max 0 e.start)
        (deriveDurationSeconds e.durContainer e.durContainer 3)) = true
  · rw [if_pos hcond]
    exact ⟨H1, H2, H3⟩
  · rw [if_neg hcond]
    have hconf : srtHasConflict st.highlights minGap (max 0 e.start)
        (deriveDurationSeconds e.durContainer e.durContainer 3) = false :=
      (Bool.or_eq_false_iff.mp (Bool.eq_false_iff.mpr hcond)).2
    by_cases hbl : (BLACKLIST_PHRASES.any
        (fun p => strContainsSub (lowerStr e.text) p)) = true
    · rw [if_pos hbl]
      exact ⟨H1, H2, H3⟩
    · rw [if_neg hbl]
      by_cases hw : (splitWsStr (cleanSrtText e.text)).isEmpty = true
      · rw [if_pos hw]
        exact ⟨H1, H2, H3⟩
      · rw [if_neg hw]
        have hwords : splitWsStr (cleanSrtText e.text) ≠ [] := by
          intro hnil
          exact hw (by rw [hnil]; rfl)
        have hdur := srt_duration_ge e hwords
        by_cases hrec : (st.recentPhrases.contains
            (lowerStr (joinSp (splitWsStr (cleanSrtText e.text))))) = true
        · rw [if_pos hrec]
          exact ⟨H1, H2, H3⟩
        · rw [if_neg hrec]
          cases hov : buildHighlightOverride e (lowerStr e.text) (max 0 e.start)
              (deriveDurationSeconds e.durContainer e.durContainer 3) with
          | some ov =>
            simp only [hov]
            by_cases hok : (ensureHighlightKeyword ov).1 = true
            · rw [if_pos hok]
              obtain ⟨hops, hopd⟩ := buildHighlightOverride_proj e (lowerStr e.text) _ _ ov hov
              have hdg := pyRound2_ge (deriveDurationSeconds e.durContainer e.durContainer 3)
              have hdl := pyRound2_le (deriveDurationSeconds e.durContainer e.durContainer 3)
              exact srt_insert_inv minGap hs0 st _ _ _ _ _ H1 H2 H3 hconf hdur
                ((ensureHighlightKeyword_start ov).trans hops)
                ((ensureHighlightKeyword_duration ov).trans hopd)
                (by linarith [pyRound2_ge (max 0 e.start)])
                (by linarith [pyRound2_le (max 0 e.start)])
                (by linarith) (by linarith)
            · rw [if_neg hok]
              exact ⟨H1, H2, H3⟩
          | none =>
            simp only [hov]
            cases hcand : srtMainCandidate e.index (splitWsStr (cleanSrtText e.text))
                st.sideToggle (max 0 e.start)
                (deriveDurationSeconds e.durContainer e.durContainer 3) with
            | none =>
              simp only [hcand]
              exact ⟨H1, H2, H3⟩
            | some placed =>
              simp only [hcand]
              have hpd := srtMainCandidate_duration e.index
                (splitWsStr (cleanSrtText e.text)) st.sideToggle (max 0 e.start)
                (deriveDurationSeconds e.durContainer e.durContainer 3) placed hcand
              by_cases hok2 : (!(ensureHighlightKeyword placed.1).1) = true
              · rw [if_pos hok2]
                exact ⟨H1, H2, H3⟩
              · rw [if_neg hok2]
                have hchain := (ensureHighlightKeyword_duration placed.1).trans hpd
                refine srt_insert_inv minGap hs0 st (max 0 e.start)
                  (deriveDurationSeconds e.durContainer e.durContainer 3) _ _ _
                  H1 H2 H3 hconf hdur rfl hchain ?_ ?_ ?_ ?_
                · exact (shift_bounds _ _ _ (hlD_bound _ _ hchain)).1
                · exact (shift_bounds _ _ _ (hlD_bound _ _ hchain)).2
                · exact pyRound2_ge _
                · exact pyRound2_le _

theorem srtGo_inv (minGap : ℚ) (hs0 : List Highlight) :
    ∀ (es : List SrtEntry) (st : SrtState),
      st.highlights = hs0 ++ st.injected →
      (∀ h ∈ st.injected, injOk h) →
      st.injected.Pairwise (srtPairOk minGap) →
      ((srtGo minGap es st).highlights = hs0 ++ (srtGo minGap es st).injected ∧
       (∀ h ∈ (srtGo minGap es st).injected, injOk h) ∧
       (srtGo minGap es st).injected.Pairwise (srtPairOk minGap)) := by
  intro es
  induction es with
  | nil => intro st h1 h2 h3; exact ⟨h1, h2, h3⟩
  | cons e rest ih =>
    intro st h1 h2 h3
    obtain ⟨g1, g2, g3⟩ := srtStep_inv minGap hs0 st e h1 h2 h3
    exact ih (srtStep minGap st e) g1 g2 g3

/-- C3 (amended): for every pair of highlights inserted by the subtitle pass
in a single run, the stored `[start, start+duration)` windows overlap by at
most 0.015 s and the stored starts differ by more than `min_gap − 0.01` —
the rounding of the stored start (to the shifted position) and duration can
leak up to those amounts past the pre-rounding conflict check, so the
claim's exact "do not overlap / differ by more than the gap" is false (see
the counterexample, where two stored windows overlap by 0.01 s). -/
theorem C3_srt_dedup (plan : Plan) (entries : List SrtEntry) (minGap : ℚ) :
    (augmentHighlightsFromSrt plan entries minGap).2.Pairwise (srtPairOk minGap) := by
  unfold augmentHighlightsFromSrt
  dsimp only
  split_ifs with he hinj
  · exact List.Pairwise.nil
  · exact (srtGo_inv minGap (sortHighlights plan.highlights) entries
      ⟨sortHighlights plan.highlights, [], false, []⟩ (by simp) (by simp)
      List.Pairwise.nil).2.2
  · exact (srtGo_inv minGap (sortHighlights plan.highlights) entries
      ⟨sortHighlights plan.highlights, [], false, []⟩ (by simp) (by simp)
      List.Pairwise.nil).2.2

/-- C3 counterexample: two subtitle blocks (`9.25→11.25`, text mentioning
Epstein-Barr, and `7.375→9.25`, likewise) pass the pre-rounding conflict
check, yet their stored windows `[9.25, 11.25)` and `[7.38, 9.26)` overlap
by exactly 0.01 s — the claimed non-overlap invariant is false on the
stored values.  (All inputs are exactly representable in binary floating
point, so the Python run rounds identically.) -/
theorem C3_srt_dedup_counterexample :
    ((augmentHighlightsFromSrt emptyPlan [c3E1, c3E2] (1/2)).2.map
        (fun h => (h.start, h.duration))) =
      [(some ((37 : ℚ)/4), some 2), (some (369/50), some (47/25))] ∧
    ¬ ((augmentHighlightsFromSrt emptyPlan [c3E1, c3E2] (1/2)).2.Pairwise
        (fun a b => overlapW a b ≤ 0)) := by
  constructor
  · decide
  · decide

theorem char_toNat_ofNat (n : Nat) (h : n < 55296) : (Char.ofNat n).toNat = n := by
  rw [Char.ofNat, dif_pos (Or.inl h)]
  rfl

theorem char_eq_iff_toNat {a b : Char} : a = b ↔ a.toNat = b.toNat := by
  constructor
  · intro h; rw [h]
  · intro h
    apply Char.eq_of_val_eq
    apply UInt32.eq_of_toBitVec_eq
    apply BitVec.eq_of_toNat_eq
    exact h

theorem toUpper_cases (c : Char) :
    (97 ≤ c.toNat ∧ c.toNat ≤ 122 ∧ (c.toUpper).toNat = c.toNat - 32) ∨
    (¬(97 ≤ c.toNat ∧ c.toNat ≤ 122) ∧ c.toUpper = c) := by
  unfold Char.toUpper
  dsimp only
  split_ifs with h
  · exact Or.inl ⟨h.1, h.2, char_toNat_ofNat _ (by omega)⟩
  · exact Or.inr ⟨h, rfl⟩

theorem toLower_cases (c : Char) :
    (65 ≤ c.toNat ∧ c.toNat ≤ 90 ∧ (c.toLower).toNat = c.toNat + 32) ∨
    (¬(65 ≤ c.toNat ∧ c.toNat ≤ 90) ∧ c.toLower = c) := by
  unfold Char.toLower
  dsimp only
  split_ifs with h
  · exact Or.inl ⟨h.1, h.2, char_toNat_ofNat _ (by omega)⟩
  · exact Or.inr ⟨h, rfl⟩

theorem toLower_toUpper (c : Char) : c.toUpper.toLower = c.toLower := by
  rcases toUpper_cases c with ⟨h1, h2, h3⟩ | ⟨h1, h2⟩
  · rcases toLower_cases c.toUpper with ⟨g1, g2, g3⟩ | ⟨g1, g2⟩
    · rcases toLower_cases c with ⟨f1, f2, f3⟩ | ⟨f1, f2⟩
      · omega
      · rw [f2]
        rw [char_eq_iff_toNat]
        omega
    · exfalso; omega
  · rw [h2]

theorem toUpper_toUpper (c : Char) : c.toUpper.toUpper = c.toUpper := by
  rcases toUpper_cases c with ⟨h1, h2, h3⟩ | ⟨h1, h2⟩
  · rcases toUpper_cases c.toUpper with ⟨g1, g2, g3⟩ | ⟨g1, g2⟩
    · exfalso; omega
    · exact g2
  · rw [h2, h2]

theorem ule_iff (a b : UInt32) : a ≤ b ↔ a.toNat ≤ b.toNat := by
  rw [UInt32.le_def, BitVec.le_def]
  exact Iff.rfl

theorem isAlphanum_iff (c : Char) : c.isAlphanum = true ↔
    (65 ≤ c.toNat ∧ c.toNat ≤ 90) ∨ (97 ≤ c.toNat ∧ c.toNat ≤ 122) ∨
    (48 ≤ c.toNat ∧ c.toNat ≤ 57) := by
  unfold Char.isAlphanum Char.isAlpha Char.isUpper Char.isLower Char.isDigit
  simp only [Bool.or_eq_true, decide_eq_true_eq, ge_iff_le, ule_iff]
  simp only [show ((65 : UInt32).toNat) = 65 from by decide,
    show ((90 : UInt32).toNat) = 90 from by decide,
    show ((97 : UInt32).toNat) = 97 from by decide,
    show ((122 : UInt32).toNat) = 122 from by decide,
    show ((48 : UInt32).toNat) = 48 from by decide,
    show ((57 : UInt32).toNat) = 57 from by decide]
  simp only [Bool.and_eq_true, decide_eq_true_eq]
  tauto

theorem isLower_iff (c : Char) : c.isLower = true ↔ (97 ≤ c.toNat ∧ c.toNat ≤ 122) := by
  unfold Char.isLower
  simp only [Bool.and_eq_true, decide_eq_true_eq, ge_iff_le, ule_iff]
  simp only [show ((97 : UInt32).toNat) = 97 from by decide,
    show ((122 : UInt32).toNat) = 122 from by decide]
  exact Iff.rfl

theorem isDigit_iff (c : Char) : c.isDigit = true ↔ (48 ≤ c.toNat ∧ c.toNat ≤ 57) := by
  unfold Char.isDigit
  simp only [Bool.and_eq_true, decide_eq_true_eq, ge_iff_le, ule_iff]
  simp only [show ((48 : UInt32).toNat) = 48 from by decide,
    show ((57 : UInt32).toNat) = 57 from by decide]
  exact Iff.rfl

theorem isWs_iff (c : Char) : isWsCh c = true ↔
    c.toNat = 32 ∨ c.toNat = 9 ∨ c.toNat = 13 ∨ c.toNat = 10 := by
  unfold isWsCh Char.isWhitespace
  simp only [Bool.or_eq_true, decide_eq_true_eq]
  rw [@char_eq_iff_toNat c ' ', @char_eq_iff_toNat c '\t', @char_eq_iff_toNat c '\r',
    @char_eq_iff_toNat c '\n']
  simp only [show ((' ' : Char).toNat) = 32 from by decide,
    show (('\t' : Char).toNat) = 9 from by decide,
    show (('\r' : Char).toNat) = 13 from by decide,
    show (('\n' : Char).toNat) = 10 from by decide]
  tauto

theorem alnumApos_ranges (c : Char) (h : isAlnumApos c = true) :
    (65 ≤ c.toNat ∧ c.toNat ≤ 90) ∨ (97 ≤ c.toNat ∧ c.toNat ≤ 122) ∨
    (48 ≤ c.toNat ∧ c.toNat ≤ 57) ∨ c.toNat = 39 := by
  unfold isAlnumApos at h
  rw [Bool.or_eq_true, decide_eq_true_eq] at h
  rcases h with h | h
  · rcases (isAlphanum_iff c).mp h with h | h | h
    exacts [Or.inl h, Or.inr (Or.inl h), Or.inr (Or.inr (Or.inl h))]
  · right; right; right
    rw [h]
    decide

theorem isLowerAlnum_toLower (c : Char) (h : c.isAlphanum = true) :
    isLowerAlnum c.toLower = true := by
  unfold isLowerAlnum
  rw [Bool.or_eq_true, isLower_iff, isDigit_iff]
  rcases (isAlphanum_iff c).mp h with h1 | h1 | h1 <;>
    rcases toLower_cases c with ⟨g1, g2, g3⟩ | ⟨g1, g2⟩
  · left; omega
  · left; omega
  · left; omega
  · rw [g2]; left; omega
  · left; omega
  · rw [g2]; right; omega

theorem notWs_of_alnumApos (c : Char) (h : isAlnumApos c = true) : isWsCh c = false := by
  cases hb : isWsCh c with
  | false => rfl
  | true =>
    exfalso
    have h1 := (isWs_iff c).mp hb
    have h2 := alnumApos_ranges c h
    omega

theorem notWs_toUpper (c : Char) (h : isAlnumApos c = true) :
    isWsCh c.toUpper = false := by
  cases hb : isWsCh c.toUpper with
  | false => rfl
  | true =>
    exfalso
    have h1 := (isWs_iff c.toUpper).mp hb
    have h2 := alnumApos_ranges c h
    rcases toUpper_cases c with ⟨g1, g2, g3⟩ | ⟨g1, g2⟩
    · omega
    · rw [g2] at h1; omega

theorem apo_toUpper : apoC.toUpper = apoC := by decide

theorem runsByAux_good (p : Char → Bool) :
    ∀ (l acc : List Char), (∀ c ∈ acc, p c = true) →
      ∀ w ∈ runsByAux p l acc, w ≠ [] ∧ ∀ c ∈ w, p c = true := by
  intro l
  induction l with
  | nil =>
    intro acc hacc w hw
    unfold runsByAux at hw
    split_ifs at hw with h
    · cases hw
    · rw [List.mem_singleton.mp hw]
      refine ⟨?_, ?_⟩
      · intro hnil
        exact h (by rw [← List.reverse_reverse acc, hnil]; rfl)
      · intro c hc
        exact hacc c (List.mem_reverse.mp hc)
  | cons a t ih =>
    intro acc hacc w hw
    unfold runsByAux at hw
    split_ifs at hw with h1 h2
    · refine ih (a :: acc) ?_ w hw
      intro c hc
      rcases List.mem_cons.mp hc with rfl | hc2
      · exact h1
      · exact hacc c hc2
    · exact ih [] (by intro c hc; cases hc) w hw
    · rcases List.mem_cons.mp hw with rfl | hw2
      · refine ⟨?_, ?_⟩
        · intro hnil
          exact h2 (by rw [← List.reverse_reverse acc, hnil]; rfl)
        · intro c hc
          exact hacc c (List.mem_reverse.mp hc)
      · exact ih [] (by intro c hc; cases hc) w hw2

theorem alnumAposTokens_good (s : String) :
    ∀ t ∈ alnumAposTokens s, t.toList ≠ [] ∧ ∀ c ∈ t.toList, isAlnumApos c = true := by
  intro t ht
  unfold alnumAposTokens runsBy at ht
  rcases List.mem_map.mp ht with ⟨w, hw, rfl⟩
  have hg := runsByAux_good isAlnumApos s.toList [] (by intro c hc; cases hc) w hw
  exact ⟨hg.1, hg.2⟩

theorem reverse_ne_nil {α : Type} {l : List α} (h : l ≠ []) : l.reverse ≠ [] := by
  intro hcon
  exact h (by rw [← List.reverse_reverse l, hcon]; rfl)

theorem ne_nil_isEmpty_false {α : Type} {l : List α} (h : l ≠ []) : l.isEmpty = false := by
  cases l with
  | nil => exact absurd rfl h
  | cons a t => rfl

theorem splitWsAux_word : ∀ (w rest acc : List Char),
    (∀ c ∈ w, isWsCh c = false) →
    splitWsAux (w ++ rest) acc = splitWsAux rest (w.reverse ++ acc) := by
  intro w
  induction w with
  | nil => intro rest acc _; rfl
  | cons c w' ih =>
    intro rest acc h
    have hc : isWsCh c = false := h c (List.mem_cons_self c w')
    have step : splitWsAux (c :: (w' ++ rest)) acc = splitWsAux (w' ++ rest) (c :: acc) := by
      conv_lhs => unfold splitWsAux
      rw [if_neg (by rw [hc]; exact fun hcon => Bool.noConfusion hcon)]
    show splitWsAux (c :: (w' ++ rest)) acc = _
    rw [step, ih rest (c :: acc) (fun x hx => h x (List.mem_cons_of_mem c hx))]
    congr 1
    simp

theorem intercalate_go_toList : ∀ (ks : List String) (acc : String),
    (String.intercalate.go acc " " ks).toList =
      acc.toList ++ ks.foldr (fun s r => ' ' :: s.toList ++ r) [] := by
  intro ks
  induction ks with
  | nil => intro acc; simp [String.intercalate.go]
  | cons a as ih =>
    intro acc
    show (String.intercalate.go (acc ++ " " ++ a) " " as).toList = _
    rw [ih]
    simp [String.toList, List.foldr_cons]

theorem splitWsAux_sepjoin :
    ∀ (ks : List String) (acc : List Char), acc ≠ [] →
      (∀ k ∈ ks, k.toList ≠ [] ∧ ∀ c ∈ k.toList, isWsCh c = false) →
      splitWsAux (ks.foldr (fun s r => ' ' :: s.toList ++ r) []) acc =
        acc.reverse :: ks.map String.toList := by
  intro ks
  induction ks with
  | nil =>
    intro acc hacc _
    show splitWsAux [] acc = _
    unfold splitWsAux
    rw [if_neg (by rw [ne_nil_isEmpty_false hacc]; exact fun hcon => Bool.noConfusion hcon)]
    rfl
  | cons k ks ih =>
    intro acc hacc hks
    have hk := hks k (List.mem_cons_self k ks)
    have hrest : ∀ x ∈ ks, x.toList ≠ [] ∧ ∀ c ∈ x.toList, isWsCh c = false :=
      fun x hx => hks x (List.mem_cons_of_mem k hx)
    have step : splitWsAux
        (' ' :: (k.toList ++ ks.foldr (fun s r => ' ' :: s.toList ++ r) [])) acc =
        acc.reverse :: splitWsAux (k.toList ++ ks.foldr (fun s r => ' ' :: s.toList ++ r) []) [] := by
      conv_lhs => unfold splitWsAux
      rw [if_pos (by decide)]
      rw [if_neg (by rw [ne_nil_isEmpty_false hacc]; exact fun hcon => Bool.noConfusion hcon)]
    show splitWsAux (' ' :: (k.toList ++ ks.foldr (fun s r => ' ' :: s.toList ++ r) [])) acc = _
    rw [step]
    rw [splitWsAux_word k.toList _ [] hk.2, List.append_nil]
    rw [ih k.toList.reverse (reverse_ne_nil hk.1) hrest]
    rw [List.reverse_reverse]
    rfl

theorem map_mk_toList : ∀ (l : List String), l.map (String.mk ∘ String.toList) = l := by
  intro l
  induction l with
  | nil => rfl
  | cons a t ih =>
    rw [List.map_cons, ih]
    rfl

theorem splitWs_joinSp (ks : List String)
    (h : ∀ k ∈ ks, k.toList ≠ [] ∧ ∀ c ∈ k.toList, isWsCh c = false) :
    splitWsStr (joinSp ks) = ks := by
  cases ks with
  | nil => rfl
  | cons k ks =>
    have hk := h k (List.mem_cons_self k ks)
    have hrest : ∀ x ∈ ks, x.toList ≠ [] ∧ ∀ c ∈ x.toList, isWsCh c = false :=
      fun x hx => h x (List.mem_cons_of_mem k hx)
    unfold joinSp String.intercalate splitWsStr splitWs
    rw [show (String.intercalate.go k " " ks).toList =
        k.toList ++ ks.foldr (fun s r => ' ' :: s.toList ++ r) [] from
      intercalate_go_toList ks k]
    rw [splitWsAux_word k.toList _ [] hk.2]
    rw [List.append_nil]
    cases ks with
    | nil =>
      show (splitWsAux [] k.toList.reverse).map String.mk = [k]
      unfold splitWsAux
      rw [if_neg (by rw [ne_nil_isEmpty_false (reverse_ne_nil hk.1)]; exact fun hcon => Bool.noConfusion hcon)]
      rw [List.reverse_reverse]
      rfl
    | cons k2 ks2 =>
      rw [splitWsAux_sepjoin (k2 :: ks2) k.toList.reverse (reverse_ne_nil hk.1) hrest]
      rw [List.reverse_reverse]
      rw [List.map_cons, List.map_map, map_mk_toList]
      rfl

theorem mem_ite_or {α : Type} {c : Prop} [Decidable c] {A B : List α} (w : α)
    (h : w ∈ if c then A else B) : w ∈ A ∨ w ∈ B := by
  split_ifs at h
  · exact Or.inl h
  · exact Or.inr h

theorem cleanTok_id (t : String) (h : ∀ c ∈ t.toList, isAlnumApos c = true) :
    cleanTok t = t := by
  unfold cleanTok
  rw [List.filter_eq_self.mpr h]
  rfl

theorem upperStr_upperStr (t : String) : upperStr (upperStr t) = upperStr t := by
  unfold upperStr
  congr 1
  rw [show (String.mk (t.toList.map Char.toUpper)).toList = t.toList.map Char.toUpper from rfl,
    List.map_map]
  exact List.map_congr_left (fun a _ => toUpper_toUpper a)

theorem kwGood_upper_of_rawGood (t : String) (h : rawGood t) : kwGood (upperStr t) := by
  obtain ⟨hne, hchars, hstop⟩ := h
  refine ⟨?_, ?_, ?_⟩
  · intro hthe
    by_cases hapo : apoC ∈ t.toList
    · have h2 : apoC ∈ (upperStr t).toList := by
        have hm : Char.toUpper apoC ∈ t.toList.map Char.toUpper :=
          List.mem_map_of_mem Char.toUpper hapo
        rw [apo_toUpper] at hm
        exact hm
      rw [hthe] at h2
      exact absurd h2 (by decide)
    · have halnum : ∀ c ∈ t.toList, c.isAlphanum = true := by
        intro c hc
        have h2 := hchars c hc
        unfold isAlnumApos at h2
        simp only [Bool.or_eq_true, decide_eq_true_eq] at h2
        rcases h2 with h2 | h2
        · exact h2
        · exact absurd (h2 ▸ hc) hapo
      have hnorm : normTok t = lowerStr t := by
        unfold normTok lowerStr
        congr 1
        apply List.filter_eq_self.mpr
        intro c hc
        have hc2 : c ∈ t.toList.map Char.toLower := hc
        rcases List.mem_map.mp hc2 with ⟨c0, hc0, rfl⟩
        exact isLowerAlnum_toLower c0 (halnum c0 hc0)
      have hlow : lowerStr (upperStr t) = lowerStr t := by
        unfold lowerStr upperStr
        congr 1
        rw [show (String.mk (t.toList.map Char.toUpper)).toList = t.toList.map Char.toUpper from rfl,
          List.map_map]
        exact List.map_congr_left (fun a _ => toLower_toUpper a)
      have hthe2 : normTok t = "the" := by
        rw [hnorm, ← hlow, hthe]
        decide
      rw [hthe2] at hstop
      exact absurd hstop (by decide)
  · intro hcon
    have h2 : t.toList.map Char.toUpper = [] := hcon
    exact hne (List.map_eq_nil.mp h2)
  · intro c hc
    have hc2 : c ∈ t.toList.map Char.toUpper := hc
    rcases List.mem_map.mp hc2 with ⟨c0, hc0, rfl⟩
    exact notWs_toUpper c0 (hchars c0 hc0)

theorem rawCandsGo_good (mt : Nat) : ∀ (tokens seen acc : List String),
    (∀ t ∈ tokens, t.toList ≠ [] ∧ ∀ c ∈ t.toList, isAlnumApos c = true) →
    (∀ t ∈ acc, rawGood t) →
    ∀ t ∈ rawCandsGo mt tokens seen acc, rawGood t := by
  intro tokens
  induction tokens with
  | nil =>
    intro seen acc _ hacc t ht
    unfold rawCandsGo at ht
    exact hacc t (List.mem_reverse.mp ht)
  | cons token rest ih =>
    intro seen acc htk hacc t ht
    have htok := htk token (List.mem_cons_self token rest)
    have hrest : ∀ x ∈ rest, x.toList ≠ [] ∧ ∀ c ∈ x.toList, isAlnumApos c = true :=
      fun x hx => htk x (List.mem_cons_of_mem token hx)
    unfold rawCandsGo at ht
    dsimp only at ht
    have hkeep : ¬((STOP_WORDS.contains (normTok token) &&
        !(IMPORTANT_SHORT_TOKENS.contains (normTok token))) = true) → rawGood token :=
      fun hstop => ⟨htok.1, htok.2, Bool.eq_false_iff.mpr hstop⟩
    split_ifs at ht with h1 h2 h3 h4 h5 h6 h7
    · exact ih seen acc hrest hacc t ht
    · exact ih seen acc hrest hacc t ht
    · exact ih seen acc hrest hacc t ht
    · exact ih seen acc hrest hacc t ht
    · exact ih seen acc hrest hacc t ht
    · exact ih seen acc hrest hacc t ht
    · rcases List.mem_cons.mp (List.mem_reverse.mp ht) with rfl | ht2
      · exact hkeep h3
      · exact hacc t ht2
    · refine ih (upperStr token :: seen) (token :: acc) hrest ?_ t ht
      intro x hx
      rcases List.mem_cons.mp hx with rfl | hx2
      · exact hkeep h3
      · exact hacc x hx2

theorem rawCandsGo_fillers (mt : Nat) : ∀ (tokens seen acc : List String),
    (∀ t ∈ tokens, FILLER_WORDS.contains (normTok t) = true) →
    rawCandsGo mt tokens seen acc = acc.reverse := by
  intro tokens
  induction tokens with
  | nil => intro seen acc _; rfl
  | cons token rest ih =>
    intro seen acc htk
    have hrest : ∀ x ∈ rest, FILLER_WORDS.contains (normTok x) = true :=
      fun x hx => htk x (List.mem_cons_of_mem token hx)
    have htok := htk token (List.mem_cons_self token rest)
    show rawCandsGo mt (token :: rest) seen acc = acc.reverse
    unfold rawCandsGo
    dsimp only
    by_cases h1 : (normTok token == "") = true
    · rw [if_pos h1]
      exact ih seen acc hrest
    · rw [if_neg h1, if_pos htok]
      exact ih seen acc hrest

theorem fallbackGo_mem : ∀ (tokens : List String) (flag : Bool) (w : String),
    w ∈ fallbackGo tokens flag → ∃ t ∈ tokens, w = cleanTok t ∨ w = upperStr (cleanTok t) := by
  intro tokens
  induction tokens with
  | nil => intro flag w hw; cases hw
  | cons token rest ih =>
    intro flag w hw
    unfold fallbackGo at hw
    dsimp only at hw
    have base : ∀ flag2 : Bool, w ∈ fallbackGo rest flag2 →
        ∃ t ∈ token :: rest, w = cleanTok t ∨ w = upperStr (cleanTok t) := by
      intro flag2 hw2
      rcases ih flag2 w hw2 with ⟨t, ht, hc⟩
      exact ⟨t, List.mem_cons_of_mem token ht, hc⟩
    split_ifs at hw with h1 h2 h3 h4 h5
    · exact base flag hw
    · rcases List.mem_cons.mp hw with rfl | hw2
      · exact ⟨token, List.mem_cons_self token rest, Or.inr rfl⟩
      · exact base flag hw2
    · exact base flag hw
    · exact base flag hw
    · exact base flag hw
    · rcases List.mem_cons.mp hw with rfl | hw2
      · exact ⟨token, List.mem_cons_self token rest, Or.inl rfl⟩
      · exact base true hw2

theorem trimEdgeConnectors_mem (l : List String) (w : String)
    (hw : w ∈ trimEdgeConnectors l) : w ∈ l := by
  unfold trimEdgeConnectors at hw
  have h1 := List.mem_reverse.mp hw
  have h2 := (List.dropWhile_sublist _).subset h1
  have h3 := List.mem_reverse.mp h2
  exact (List.dropWhile_sublist _).subset h3

theorem limitContentGo_mem (mt : Nat) : ∀ (l : List String) (n : Nat) (w : String),
    w ∈ limitContentGo mt l n → w ∈ l := by
  intro l
  induction l with
  | nil => intro n w hw; cases hw
  | cons t rest ih =>
    intro n w hw
    unfold limitContentGo at hw
    dsimp only at hw
    by_cases hge : (if isConnectorTok t = true then n else n + 1) ≥ mt
    · rw [if_pos hge] at hw
      rw [List.mem_singleton.mp hw]
      exact List.mem_cons_self t rest
    · rw [if_neg hge] at hw
      rcases List.mem_cons.mp hw with hc | hw2
      · rw [hc]
        exact List.mem_cons_self t rest
      · exact List.mem_cons_of_mem t (ih _ w hw2)

theorem filterTokens_mem (raws : List String) (mt : Nat)
    (hgood : ∀ t ∈ raws, ∀ c ∈ t.toList, isAlnumApos c = true) :
    ∀ w ∈ filterTokensToNounPhrase raws (some mt), ∃ t ∈ raws, w = t ∨ w = upperStr t := by
  intro w hw
  have hclean : ∀ x, x ∈ (raws.map cleanTok).filter (fun t => !(t == "")) → x ∈ raws := by
    intro x hx
    have hx2 := (List.filter_sublist _).subset hx
    rcases List.mem_map.mp hx2 with ⟨t, ht, rfl⟩
    rw [cleanTok_id t (hgood t ht)]
    exact ht
  have hfall : ∀ x, x ∈ fallbackFilter ((raws.map cleanTok).filter (fun t => !(t == ""))) →
      ∃ t ∈ raws, x = t ∨ x = upperStr t := by
    intro x hx
    unfold fallbackFilter at hx
    have hx2 := trimEdgeConnectors_mem _ x hx
    rcases fallbackGo_mem _ false x hx2 with ⟨t, ht, hc⟩
    have htr := hclean t ht
    have hid : cleanTok t = t := cleanTok_id t (hgood t htr)
    rcases hc with rfl | rfl
    · exact ⟨t, htr, Or.inl hid⟩
    · exact ⟨t, htr, Or.inr (by rw [hid])⟩
  have hf3 : ∀ x, x ∈ (if (fallbackFilter ((raws.map cleanTok).filter
        (fun t => !(t == "")))).isEmpty = true
        then (raws.map cleanTok).filter (fun t => !(t == ""))
        else fallbackFilter ((raws.map cleanTok).filter (fun t => !(t == "")))) →
      ∃ t ∈ raws, x = t ∨ x = upperStr t := by
    intro x hx
    rcases mem_ite_or x hx with hx1 | hx2
    · exact ⟨x, hclean x hx1, Or.inl rfl⟩
    · exact hfall x hx2
  simp only [filterTokensToNounPhrase, filterWithPos, List.isEmpty_nil,
    eq_self_iff_true, if_true] at hw
  rcases mem_ite_or w hw with hw1 | hw2
  · cases hw1
  · rcases mem_ite_or w hw2 with hw3 | hw4
    · rcases mem_ite_or w hw3 with hw5 | hw6
      · exact hf3 w hw5
      · exact hf3 w (limitContentGo_mem mt _ 0 w (trimEdgeConnectors_mem _ w hw6))
    · exact hf3 w hw4

theorem rstripChars_pref (l : List Char) : rstripChars l <+: l := by
  have hsuf : l.reverse.dropWhile isWsCh <:+ l.reverse := List.dropWhile_suffix isWsCh
  obtain ⟨s, hs⟩ := hsuf
  refine ⟨s.reverse, ?_⟩
  rw [show rstripChars l = (l.reverse.dropWhile isWsCh).reverse from rfl]
  rw [← List.reverse_append, hs, List.reverse_reverse]

theorem splitWsAux_append_switch (B : List Char) (hB : B ≠ [])
    (hBn : ∀ c ∈ B, isWsCh c = false) :
    ∀ (A C acc : List Char), ∀ w ∈ splitWsAux (A ++ B) acc,
      (∃ c ∈ B, c ∈ w) ∨ w ∈ splitWsAux (A ++ C) acc := by
  intro A
  induction A with
  | nil =>
    intro C acc w hw
    left
    rw [List.nil_append] at hw
    have h1 : splitWsAux B acc = splitWsAux [] (B.reverse ++ acc) := by
      have h2 := splitWsAux_word B [] acc hBn
      rwa [List.append_nil] at h2
    rw [h1] at hw
    have h3 : splitWsAux ([] : List Char) (B.reverse ++ acc) = [(B.reverse ++ acc).reverse] := by
      unfold splitWsAux
      rw [if_neg (by
        rw [ne_nil_isEmpty_false (List.append_ne_nil_of_left_ne_nil (reverse_ne_nil hB) acc)]
        exact fun hcon => Bool.noConfusion hcon)]
    rw [h3] at hw
    rw [List.mem_singleton.mp hw]
    obtain ⟨b, hb⟩ := List.exists_mem_of_ne_nil B hB
    refine ⟨b, hb, ?_⟩
    rw [List.reverse_append, List.reverse_reverse]
    exact List.mem_append.mpr (Or.inr hb)
  | cons a A2 ih =>
    intro C acc w hw
    rw [List.cons_append] at hw
    by_cases ha : isWsCh a = true
    · have hstep : ∀ (X : List Char), splitWsAux (a :: X) acc =
          if acc.isEmpty = true then splitWsAux X [] else acc.reverse :: splitWsAux X [] := by
        intro X
        conv_lhs => unfold splitWsAux
        rw [if_pos ha]
      rw [hstep] at hw
      rw [List.cons_append, hstep]
      by_cases hae : acc.isEmpty = true
      · rw [if_pos hae] at hw ⊢
        exact ih C [] w hw
      · rw [if_neg hae] at hw ⊢
        rcases List.mem_cons.mp hw with rfl | hw2
        · exact Or.inr (List.mem_cons_self _ _)
        · rcases ih C [] w hw2 with h | h
          · exact Or.inl h
          · exact Or.inr (List.mem_cons_of_mem _ h)
    · have hstep : ∀ (X : List Char), splitWsAux (a :: X) acc = splitWsAux X (a :: acc) := by
        intro X
        conv_lhs => unfold splitWsAux
        rw [if_neg ha]
      rw [hstep] at hw
      rw [List.cons_append, hstep]
      exact ih C (a :: acc) w hw

theorem truncate_no_the (p : String) (mc : Nat) (hp : "THE" ∉ splitWsStr p) :
    "THE" ∉ splitWsStr (truncatePhrase p mc) := by
  unfold truncatePhrase
  split_ifs with hlen
  · intro hmem
    unfold splitWsStr splitWs at hmem
    rcases List.mem_map.mp hmem with ⟨w, hw, hmk⟩
    have hw2 : w ∈ splitWsAux (rstripChars (p.toList.take (mc - 1)) ++
        ('.' :: '.' :: '.' :: [])) [] := hw
    have htake : p.toList.take (mc - 1) <+: p.toList :=
      ⟨p.toList.drop (mc - 1), List.take_append_drop (mc - 1) p.toList⟩
    obtain ⟨R, hR⟩ := (rstripChars_pref (p.toList.take (mc - 1))).trans htake
    rcases splitWsAux_append_switch ('.' :: '.' :: '.' :: []) (by decide) (by decide)
        (rstripChars (p.toList.take (mc - 1))) R [] w hw2 with ⟨c, hcB, hcw⟩ | hmem2
    · have hwl : w = "THE".toList := by
        have h4 := congrArg String.toList hmk
        rwa [show (String.mk w).toList = w from rfl] at h4
      have hcdot : c = '.' := by
        rcases List.mem_cons.mp hcB with rfl | hcB2
        · rfl
        · rcases List.mem_cons.mp hcB2 with rfl | hcB3
          · rfl
          · exact List.mem_singleton.mp hcB3
      rw [hwl, hcdot] at hcw
      exact absurd hcw (by decide)
    · rw [hR] at hmem2
      apply hp
      unfold splitWsStr splitWs
      rw [← hmk]
      exact List.mem_map_of_mem String.mk hmem2
  · exact hp

theorem selectKeywordPhrase_fillers (text : String) (mt mc : Nat)
    (h : ∀ t ∈ alnumAposTokens text, FILLER_WORDS.contains (normTok t) = true) :
    selectKeywordPhrase text mt mc = none := by
  unfold selectKeywordPhrase
  by_cases h0 : (text == "") = true
  · rw [if_pos h0]
  · rw [if_neg h0]
    dsimp only
    rw [rawCandsGo_fillers mt (alnumAposTokens text) [] [] h]
    rfl

theorem selectKeywordPhrase_no_the (text : String) (mt mc : Nat) (p : String)
    (h : selectKeywordPhrase text mt mc = some p) : "THE" ∉ splitWsStr p := by
  unfold selectKeywordPhrase at h
  by_cases h0 : (text == "") = true
  · rw [if_pos h0] at h
    exact Option.noConfusion h
  · rw [if_neg h0] at h
    dsimp only at h
    set raws := rawCandsGo mt (alnumAposTokens text) [] [] with hraws
    have hrgood : ∀ t ∈ raws, rawGood t := by
      rw [hraws]
      exact rawCandsGo_good mt (alnumAposTokens text) [] [] (alnumAposTokens_good text)
        (fun t ht => absurd ht (List.not_mem_nil t))
    by_cases h1 : raws.isEmpty = true
    · rw [if_pos h1] at h
      exact Option.noConfusion h
    · rw [if_neg h1] at h
      set ftoks := if (filterTokensToNounPhrase raws (some mt)).isEmpty = true
        then raws.take mt else filterTokensToNounPhrase raws (some mt) with hftoks
      have hfm : ∀ w ∈ ftoks, ∃ t ∈ raws, w = t ∨ w = upperStr t := by
        intro w hw
        rw [hftoks] at hw
        rcases mem_ite_or w hw with hw1 | hw2
        · exact ⟨w, (List.take_sublist mt raws).subset hw1, Or.inl rfl⟩
        · exact filterTokens_mem raws mt (fun t ht => (hrgood t ht).2.1) w hw2
      set keywords := (ftoks.filter (fun t => !(t == ""))).map upperStr with hkw
      have hkgood : ∀ k ∈ keywords, kwGood k := by
        intro k hk
        rw [hkw] at hk
        rcases List.mem_map.mp hk with ⟨w, hwf, rfl⟩
        rcases hfm w ((List.filter_sublist _).subset hwf) with ⟨t, ht, hc⟩
        rcases hc with hc | hc
        · rw [hc]
          exact kwGood_upper_of_rawGood t (hrgood t ht)
        · rw [hc, upperStr_upperStr]
          exact kwGood_upper_of_rawGood t (hrgood t ht)
      have main : ∀ (ks : List String), (∀ k ∈ ks, k ∈ keywords) →
          "THE" ∉ splitWsStr (joinSp ks) := by
        intro ks hks hthe
        have hgood2 : ∀ k ∈ ks, k.toList ≠ [] ∧ ∀ c ∈ k.toList, isWsCh c = false := by
          intro k hk
          have h3 := hkgood k (hks k hk)
          exact ⟨h3.2.1, h3.2.2⟩
        rw [splitWs_joinSp ks hgood2] at hthe
        exact (hkgood "THE" (hks "THE" hthe)).1 rfl
      by_cases h2 : keywords.isEmpty = true
      · rw [if_pos h2] at h
        exact Option.noConfusion h
      · rw [if_neg h2] at h
        rcases Option.map_eq_some'.mp h with ⟨p0, hp0, hp1⟩
        have hp1' : truncatePhrase p0 mc = p := hp1
        rw [← hp1']
        apply truncate_no_the
        by_cases hm1 : keywordIsMeaningful (joinSp (keywords.take mt)) = true
        · rw [if_pos hm1] at hp0
          rw [← Option.some_inj.mp hp0]
          exact main _ (fun k hk => (List.take_sublist mt keywords).subset hk)
        · rw [if_neg hm1] at hp0
          rcases hfk : keywords.filter keywordIsMeaningful with _ | ⟨k1, _ | ⟨k2, krest⟩⟩
          · rw [hfk] at hp0
            exact Option.noConfusion hp0
          · simp only [hfk] at hp0
            by_cases hm2 : keywordIsMeaningful k1 = true
            · rw [if_pos hm2] at hp0
              have hk1 : k1 ∈ keywords := (List.filter_sublist _).subset
                (by rw [hfk]; exact List.mem_singleton_self k1)
              rw [← Option.some_inj.mp hp0]
              have h4 := main [k1]
                (by intro k hk; rw [List.mem_singleton.mp hk]; exact hk1)
              exact h4
            · rw [if_neg hm2] at hp0
              exact Option.noConfusion hp0
          · simp only [hfk] at hp0
            by_cases hm3 : keywordIsMeaningful (joinSp ((k1 :: k2 :: krest).take mt)) = true
            · rw [if_pos hm3] at hp0
              rw [← Option.some_inj.mp hp0]
              refine main _ ?_
              intro k hk
              have h5 : k ∈ k1 :: k2 :: krest := (List.take_sublist _ _).subset hk
              exact (List.filter_sublist _).subset (by rw [hfk]; exact h5)
            · rw [if_neg hm3] at hp0
              exact Option.noConfusion hp0


/-- C6: the phrase extractor returns absence (never an empty string) for
text composed entirely of filler words — `select_keyword_phrase("um, yeah,
okay")` is absent — and a returned phrase never contains the bare
stop-word `THE` as a whitespace token: every stop-word (unless
allow-listed) is dropped before candidate collection, every surviving
keyword is whitespace-free, and the `max_chars` ellipsis cannot fabricate
a `THE` token.  `select_keyword_phrase("the epstein barr virus
infection")` yields `"EPSTEIN BARR"`, which contains the token `EPSTEIN`
and not the token `THE`. -/
theorem C6_phrase_extractor (text : String) (mt mc : Nat) :
    ((∀ t ∈ alnumAposTokens text, FILLER_WORDS.contains (normTok t) = true) →
      selectKeywordPhrase text mt mc = none) ∧
    (∀ p, selectKeywordPhrase text mt mc = some p → "THE" ∉ splitWsStr p) ∧
    selectKeywordPhrase "um, yeah, okay" 2 60 = none ∧
    selectKeywordPhrase "the epstein barr virus infection" 2 60 = some "EPSTEIN BARR" ∧
    "EPSTEIN" ∈ splitWsStr "EPSTEIN BARR" ∧
    "THE" ∉ splitWsStr "EPSTEIN BARR" := by
  refine ⟨selectKeywordPhrase_fillers text mt mc, ?_, ?_, ?_, ?_, ?_⟩
  · intro p hp
    exact selectKeywordPhrase_no_the text mt mc p hp
  · decide
  · decide
  · decide
  · decide

/-- Witness for C6: the general parts applied at the spec's two concrete
inputs, hypotheses discharged by evaluation. -/
theorem C6_phrase_extractor_witness :
    selectKeywordPhrase "um, yeah, okay" 2 60 = none ∧
    "THE" ∉ splitWsStr "EPSTEIN BARR" :=
  ⟨(C6_phrase_extractor "um, yeah, okay" 2 60).1 (by decide),
   (C6_phrase_extractor "the epstein barr virus infection" 2 60).2.1 "EPSTEIN BARR" (by decide)⟩

end EP
